import Mathlib

/-!
# Ledger bridge: block-stream consumer and fact pipeline

A shallow embedding of the two pipelines of the ledger bridge
(`processing/txnvalidating`, `processing/txnprocessing`) and of the
repository they share (`repository`), followed by the properties proved
about them.

Conventions of the embedding

* A Go call ends in one of three ways: it returns with a nil error, it
  returns a non-nil error, or it panics.  `Res` records which.
* Stateful code is written in state-passing style: a call takes the state
  of the outside world and returns the new state together with its `Res`.
* Go pointers that the code dereferences are `Option`s; dereferencing
  `none` is a panic.
* `uint64`, `int64` are `Nat`/`Int` reduced modulo `2 ^ 64` where the code
  converts or adds.
-/

set_option autoImplicit false

namespace LedgerBridge

/-! ## Outcomes of Go calls -/

/-- Outcome of a Go call: normal return, returned error, or run-time panic. -/
inductive Res (α : Type) where
  | ok (a : α) : Res α
  | error (msg : String) : Res α
  | panicked (msg : String) : Res α
  deriving DecidableEq, Repr

/-- True when the call returned with a nil error. -/
def Res.isOk {α : Type} : Res α → Bool
  | .ok _ => true
  | _ => false

/-- True when the call returned a non-nil error. -/
def Res.isError {α : Type} : Res α → Bool
  | .error _ => true
  | _ => false

/-- True when the call panicked. -/
def Res.isPanic {α : Type} : Res α → Bool
  | .panicked _ => true
  | _ => false

/-- The message of the run-time panic raised by a nil pointer dereference. -/
def nilDeref : String := "runtime error: invalid memory address or nil pointer dereference"

/-! ## Machine integers -/

/-- Go conversion `int64(x)` of a `uint64` value. -/
def int64OfUint64 (x : Nat) : Int :=
  if x % 2 ^ 64 < 2 ^ 63 then ((x % 2 ^ 64 : Nat) : Int) else ((x % 2 ^ 64 : Nat) : Int) - 2 ^ 64

/-- Go conversion `uint64(i)` of an `int64` value. -/
def uint64OfInt64 (i : Int) : Nat := (i % 2 ^ 64).toNat

/-- The method `(*big.Int).Int64`: the low 64 bits of the magnitude as an `int64`,
negated (with wrap-around) when the number is negative. -/
def bigIntInt64 (x : Int) : Int :=
  let v := int64OfUint64 (x.natAbs % 2 ^ 64)
  if x < 0 then int64OfUint64 (uint64OfInt64 (-v)) else v

/-! ## The block source library types (`ethereum.Block`, `ethereum.Transaction`) -/

/-- A 32-byte hash (`common.Hash`). -/
def Hash : Type := { l : List (Fin 256) // l.length = 32 }

instance : DecidableEq Hash := by unfold Hash; infer_instance

/-- Lower-case hexadecimal digit of a nibble. -/
def hexDigit (n : Nat) : Char :=
  "0123456789abcdef".data.getD (n % 16) '0'

/-- Two hexadecimal digits of a byte, high nibble first. -/
def hexByte (b : Fin 256) : List Char := [hexDigit (b.val / 16), hexDigit (b.val % 16)]

/-- The method `Hash.Hex`: `0x` followed by the hexadecimal digits of the 32 bytes. -/
def Hash.Hex (h : Hash) : String := String.mk ('0' :: 'x' :: h.val.flatMap hexByte)

/-- The method `Hash.String`, which is `Hash.Hex`. -/
def Hash.String (h : Hash) : String := h.Hex

/-- The function `strings.ToLower` on ASCII text (the hexadecimal text of a hash), where
it maps the letters `A` to `Z` and reads no case table. -/
def ToLower (s : String) : String := String.mk (s.data.map Char.toLower)

/-- The function `unicode.ToLower`: up to `unicode.MaxASCII` the letters `A` to `Z` are
mapped to `a` to `z` and the other characters to themselves; beyond it the lower-case
form comes from the case tables of the package, which are not among the repository
sources and are the parameter `caseTable`. -/
def unicode.ToLower (caseTable : Char → Char) (r : Char) : Char :=
  if r.toNat ≤ 127 then r.toLower else caseTable r

/-- The function `strings.ToLower` on any text: every character is mapped by
`unicode.ToLower` (a text is valid UTF-8). -/
def strings.ToLower (caseTable : Char → Char) (s : String) : String :=
  String.mk (s.data.map (unicode.ToLower caseTable))

/-- Modelled from the spec: the status type of the block source library, which is not
among the repository sources; a receipt status code. -/
structure TransactionStatus where
  code : Nat
  deriving DecidableEq, Repr

/-- Modelled from the spec: status of a transaction whose execution failed. -/
def TransactionFailed : TransactionStatus := ⟨0⟩

/-- Modelled from the spec: status of a transaction whose execution succeeded. -/
def TransactionSuccessful : TransactionStatus := ⟨1⟩

/-- A transaction of a delivered block.  `Status` is read through a pointer
(`*tx.Status`), so it may be absent. -/
structure Transaction where
  Hash : Hash
  Status : Option TransactionStatus
  deriving DecidableEq

/-- A delivered block: its number (a `*big.Int`) and its transactions
(a slice of pointers, each possibly nil). -/
structure Block where
  Number : Int
  Transactions : List (Option Transaction)
  deriving DecidableEq

/-! ## `processing/txnvalidating/helper.go` -/

/-- The Go map `transactionsByHash`, as an association list with distinct keys. -/
abbrev transactionsByHash : Type := List (String × Transaction)

/-- The map assignment `m[k] = v`: replaces the entry of `k` or adds one. -/
def mapAssign : transactionsByHash → String → Transaction → transactionsByHash
  | [], k, v => [(k, v)]
  | (k', v') :: rest, k, v =>
    if k' = k then (k, v) :: rest else (k', v') :: mapAssign rest k v

/-- The first loop of `getTxHashesByStatus`: nil transactions are skipped, the
status pointer is dereferenced, matching transactions are stored under their
lower-case hash. -/
def collectByStatus (status : TransactionStatus) :
    List (Option Transaction) → transactionsByHash → Res transactionsByHash
  | [], m => .ok m
  | none :: rest, m => collectByStatus status rest m
  | some tx :: rest, m =>
    match tx.Status with
    | none => .panicked nilDeref
    | some st =>
      if st = status then collectByStatus status rest (mapAssign m (ToLower tx.Hash.Hex) tx)
      else collectByStatus status rest m

/-- The function `getTxHashesByStatus`.  The keys are returned in the order of the
association list; Go leaves the order of a map iteration unspecified, and nothing
below depends on it. -/
def getTxHashesByStatus (txs : List (Option Transaction)) (status : TransactionStatus) :
    Res (List String) :=
  match collectByStatus status txs [] with
  | .ok m => .ok (m.map Prod.fst)
  | .error e => .error e
  | .panicked p => .panicked p

/-! ## `repository/models.go` -/

/-- Transaction status: in progress. -/
def TxnInProgress : Int := 1

/-- Transaction status: successfully completed. -/
def TxnSuccessful : Int := 2

/-- Transaction status: failed. -/
def TxnFailed : Int := 3

/-! ## The relational store

The tables named by the SQL statements of the repository, with the columns those
statements read or write.  Instants are natural numbers. -/

/-- A row of `transactions`. -/
structure TransactionRow where
  id : Int
  created : Nat
  updated : Nat
  modified_by : String
  transaction_hash : String
  transaction_state_id : Int
  deriving DecidableEq, Repr

/-- A row of `user_data`. -/
structure UserRow where
  id : Int
  invite_url_hash : String
  account : String
  updated_at : Nat
  validated : Bool
  transaction_id : Option Int
  deriving DecidableEq, Repr

/-- A row of `project_data`. -/
structure ProjectRow where
  id : Int
  name : String
  updated_at : Nat
  passport_address : String
  transaction_id : Option Int
  deriving DecidableEq, Repr

/-- A row of `mentorship`. -/
structure MentorshipRow where
  user_id : Int
  mentoree_id : Int
  transaction_id : Option Int
  deriving DecidableEq, Repr

/-- A row of `ethereum_blockchain`. -/
structure BlockchainRow where
  id : Int
  latest_processed_block_number : Nat
  deriving DecidableEq, Repr

/-- The tables of the database. -/
structure Store where
  transactions : List TransactionRow
  user_data : List UserRow
  project_data : List ProjectRow
  mentorship : List MentorshipRow
  ethereum_blockchain : List BlockchainRow
  /-- Last value handed out by the sequence of `transactions.id`. -/
  transactions_id_seq : Int
  deriving DecidableEq, Repr

/-- What the database server does with one statement: the error the driver
reports, if any, and the value of `NOW()`. -/
structure Step where
  err : Option String
  now : Nat
  deriving DecidableEq, Repr

/-- A database handle: the store and the behaviour of the server on the statements
still to come (when the script is exhausted statements are executed at instant 0). -/
structure Session where
  store : Store
  script : List Step
  deriving DecidableEq, Repr

/-- The server's behaviour on the next statement. -/
def Session.step (s : Session) : Step :=
  s.script.headD { err := none, now := 0 }

/-- The session after one statement that left the store as `st`. -/
def Session.advance (s : Session) (st : Store) : Session :=
  { store := st, script := s.script.tail }

/-! ## `repository/repository.go` -/

/-- The rows selected by the `WHERE` clause of `UpdateTxnsStatus`. -/
def inProgressWithHash (txHashes : List String) (r : TransactionRow) : Bool :=
  decide (r.transaction_state_id = TxnInProgress) && decide (r.transaction_hash ∈ txHashes)

/-- The `SET` clause of `UpdateTxnsStatus` applied to the rows the `WHERE` clause selects. -/
def updateRow (txHashes : List String) (status : Int) (auditName : String) (now : Nat)
    (r : TransactionRow) : TransactionRow :=
  if inProgressWithHash txHashes r then
    { r with transaction_state_id := status, updated := now, modified_by := auditName }
  else r

/-- The `UPDATE transactions ...` statement of `UpdateTxnsStatus`. -/
def Store.updateTxnsStatus (st : Store) (txHashes : List String) (status : Int)
    (auditName : String) (now : Nat) : Store :=
  { st with transactions := st.transactions.map (updateRow txHashes status auditName now) }

/-- The method `Repository.UpdateTxnsStatus`.  `sqlx.In` rejects an empty slice;
otherwise the query is sent with `db.Query`, and `rows.Close()` is called on its result
before the error is looked at: when the query fails `db.Query` returns nil rows with the
error, and closing nil rows is a nil pointer dereference. -/
def UpdateTxnsStatus (txHashes : List String) (status : Int) (auditName : String)
    (s : Session) : Session × Res Unit :=
  if txHashes = [] then (s, .error "sqlx: empty slice passed to 'in' query")
  else
    match s.step.err with
    | some _ => (s.advance s.store, .panicked nilDeref)
    | none => (s.advance (s.store.updateTxnsStatus txHashes status auditName s.step.now), .ok ())

/-- The method `Repository.GetLatestProcessedEthereumBlockNumber`: the stored number of
the row `blockNumberID`, the default when there is no such row, `(nil, err)` on any
other failure. -/
def GetLatestProcessedEthereumBlockNumber (blockNumberID : Int) (defaultStartBlock : Nat)
    (s : Session) : Session × Res (Option Nat) :=
  match s.step.err with
  | some e => (s.advance s.store, .error e)
  | none =>
    match s.store.ethereum_blockchain.find? (fun row => decide (row.id = blockNumberID)) with
    | some row => (s.advance s.store, .ok (some row.latest_processed_block_number))
    | none => (s.advance s.store, .ok (some defaultStartBlock))

/-- The `INSERT ... ON CONFLICT (id) DO UPDATE` statement of
`SetLatestProcessedEthereumBlockNumber`. -/
def upsertBlockNumber (blockNumberID : Int) (blockNumber : Nat) :
    List BlockchainRow → List BlockchainRow
  | [] => [{ id := blockNumberID, latest_processed_block_number := blockNumber }]
  | row :: rest =>
    if row.id = blockNumberID then { row with latest_processed_block_number := blockNumber } :: rest
    else row :: upsertBlockNumber blockNumberID blockNumber rest

/-- The store after the statement of `SetLatestProcessedEthereumBlockNumber`. -/
def Store.setLatestBlockNumber (st : Store) (blockNumberID : Int) (blockNumber : Nat) : Store :=
  { st with
    ethereum_blockchain := upsertBlockNumber blockNumberID blockNumber st.ethereum_blockchain }

/-- The method `Repository.SetLatestProcessedEthereumBlockNumber`. -/
def SetLatestProcessedEthereumBlockNumber (blockNumberID : Int) (blockNumber : Nat)
    (s : Session) : Session × Res Unit :=
  match s.step.err with
  | some e => (s.advance s.store, .error e)
  | none => (s.advance (s.store.setLatestBlockNumber blockNumberID blockNumber), .ok ())

/-- The three `NOT EXISTS` sub-queries of `DeleteSuccessfulTransactions`: whether some
`user_data`, `project_data` or `mentorship` row has `transaction_id = id`. -/
def Store.referenced (st : Store) (id : Int) : Bool :=
  st.user_data.any (fun u => decide (u.transaction_id = some id)) ||
  st.project_data.any (fun p => decide (p.transaction_id = some id)) ||
  st.mentorship.any (fun m => decide (m.transaction_id = some id))

/-- The rows deleted by `DeleteSuccessfulTransactions`. -/
def Store.collectable (st : Store) (r : TransactionRow) : Bool :=
  decide (r.transaction_state_id = TxnSuccessful) && !st.referenced r.id

/-- The `DELETE FROM transactions ...` statement of `DeleteSuccessfulTransactions`. -/
def Store.deleteSuccessfulTransactions (st : Store) : Store :=
  { st with transactions := st.transactions.filter fun r => !st.collectable r }

/-- The method `Repository.DeleteSuccessfulTransactions`. -/
def DeleteSuccessfulTransactions (s : Session) : Session × Res Unit :=
  match s.step.err with
  | some e => (s.advance s.store, .error e)
  | none => (s.advance s.store.deleteSuccessfulTransactions, .ok ())

/-- The interface `Repository` of `processing/txnvalidating`: the database operations the
consumer calls, acting on a state of type `σ`. -/
structure Repository (σ : Type) where
  UpdateTxnsStatus : List String → Int → String → σ → σ × Res Unit
  GetLatestProcessedEthereumBlockNumber : Int → Nat → σ → σ × Res (Option Nat)
  SetLatestProcessedEthereumBlockNumber : Int → Nat → σ → σ × Res Unit
  DeleteSuccessfulTransactions : σ → σ × Res Unit

/-- The SQL repository of `repository/repository.go` behind the interface. -/
def sqlRepository : Repository Session where
  UpdateTxnsStatus := UpdateTxnsStatus
  GetLatestProcessedEthereumBlockNumber := GetLatestProcessedEthereumBlockNumber
  SetLatestProcessedEthereumBlockNumber := SetLatestProcessedEthereumBlockNumber
  DeleteSuccessfulTransactions := DeleteSuccessfulTransactions

/-! ## `processing/txnvalidating/models.go` and `txnvalidating.go` -/

/-- A block source: the blocks its channel delivers until it is closed, and the
error its `Close` returns, if any. -/
structure BlockSource where
  Blocks : List Block
  Close : Option String

/-- The interface `BlockSourceCreator`. -/
structure BlockSourceCreator (σ : Type) where
  CreateBlockSource : Int → Nat → σ → σ × Res BlockSource

namespace TxnValidating

/-- Id of the row holding the latest processed block number. -/
def blockNumberID : Int := 1

/-- Number of confirmations required of delivered blocks. -/
def confirmations : Nat := 2

/-- Default start block if none is stored. -/
def defaultStartBlock : Nat := 4029220

/-- The method `TxnValidating.GetAuditName`. -/
def GetAuditName : String := "mosoly-txnvalidating"

/-- The method `validateBlockTxns`. -/
def validateBlockTxns {σ : Type} (r : Repository σ) (block : Block) (s : σ) : σ × Res Unit :=
  match getTxHashesByStatus block.Transactions TransactionSuccessful with
  | .panicked p => (s, .panicked p)
  | .error e => (s, .error e)
  | .ok txsHashSuccessful =>
    match (if txsHashSuccessful.length > 0 then
        r.UpdateTxnsStatus txsHashSuccessful TxnSuccessful GetAuditName s else (s, .ok ())) with
    | (s1, .panicked p) => (s1, .panicked p)
    | (s1, .error e) =>
      (s1, .error ("txnvalidating: error in validating successful transactions: " ++ e))
    | (s1, .ok _) =>
      match getTxHashesByStatus block.Transactions TransactionFailed with
      | .panicked p => (s1, .panicked p)
      | .error e => (s1, .error e)
      | .ok txsHashFailed =>
        match (if txsHashFailed.length > 0 then
            r.UpdateTxnsStatus txsHashFailed TxnFailed GetAuditName s1 else (s1, .ok ())) with
        | (s2, .panicked p) => (s2, .panicked p)
        | (s2, .error e) => (s2, .error ("txnvalidating: error in failing transactions: " ++ e))
        | (s2, .ok _) => (s2, .ok ())

/-- The number stored for a block: `uint64(block.Number.Int64())`. -/
def cursorOf (block : Block) : Nat := uint64OfInt64 (bigIntInt64 block.Number)

/-- The body of the loop of `Run` for one delivered block; `ok` means that the loop
goes on to the next block.  The result of the cursor write is discarded. -/
def processBlock {σ : Type} (r : Repository σ) (block : Block) (s : σ) : σ × Res Unit :=
  match r.DeleteSuccessfulTransactions s with
  | (s1, .panicked p) => (s1, .panicked p)
  | (s1, .error e) =>
    (s1, .error ("txnvalidating: deleting successful completed transactions: " ++ e))
  | (s1, .ok _) =>
    match validateBlockTxns r block s1 with
    | (s2, .panicked p) => (s2, .panicked p)
    | (s2, .error e) => (s2, .error ("txnvalidating: validate block transactions: " ++ e))
    | (s2, .ok _) =>
      match r.SetLatestProcessedEthereumBlockNumber blockNumberID (cursorOf block) s2 with
      | (s3, .panicked p) => (s3, .panicked p)
      | (s3, _) => (s3, .ok ())

/-- The loop of `Run` over the delivered blocks. -/
def processBlocks {σ : Type} (r : Repository σ) : List Block → σ → σ × Res Unit
  | [], s => (s, .ok ())
  | block :: rest, s =>
    match processBlock r block s with
    | (s1, .ok _) => processBlocks r rest s1
    | (s1, .error e) => (s1, .error e)
    | (s1, .panicked p) => (s1, .panicked p)

/-- The start block handed to the block source: `big.NewInt(int64(*latestBlock + 1))`. -/
def startBlockOf (latestBlock : Nat) : Int := int64OfUint64 ((latestBlock + 1) % 2 ^ 64)

/-- The method `Run`.  The blocks are those the source delivers before its channel is
closed; the error of closing the source is reported when the loop ended without one. -/
def Run {σ : Type} (r : Repository σ) (bsc : BlockSourceCreator σ) (s : σ) : σ × Res Unit :=
  match r.GetLatestProcessedEthereumBlockNumber blockNumberID defaultStartBlock s with
  | (s1, .panicked p) => (s1, .panicked p)
  | (s1, .error e) => (s1, .error ("txnvalidating: getting latest block number: " ++ e))
  | (s1, .ok none) => (s1, .error "txnvalidating: getting latest block number: <nil>")
  | (s1, .ok (some latestBlock)) =>
    match bsc.CreateBlockSource (startBlockOf latestBlock) confirmations s1 with
    | (s2, .panicked p) => (s2, .panicked p)
    | (s2, .error e) => (s2, .error ("txnvalidating: creating block source: " ++ e))
    | (s2, .ok bs) =>
      match processBlocks r bs.Blocks s2 with
      | (s3, .panicked p) => (s3, .panicked p)
      | (s3, .error e) => (s3, .error e)
      | (s3, .ok _) =>
        match bs.Close with
        | some e => (s3, .error ("txnvalidating: closing block source: " ++ e))
        | none => (s3, .ok ())

end TxnValidating

/-! ## Observing the calls of the consumer -/

/-- A call on the repository or on the block source creator. -/
inductive Call where
  | getLatest (blockNumberID : Int) (defaultStartBlock : Nat)
  | createBlockSource (startBlock : Int) (confirmations : Nat)
  | deleteSuccessful
  | updateTxnsStatus (txHashes : List String) (status : Int) (auditName : String)
  | setLatest (blockNumberID : Int) (blockNumber : Nat)
  deriving DecidableEq, Repr

/-- A call together with whether it returned a nil error. -/
structure Event where
  call : Call
  ok : Bool
  deriving DecidableEq, Repr

/-- Runs a call and appends it to the record of calls. -/
def record {σ α : Type} (c : Call) (f : σ → σ × Res α) (w : σ × List Event) :
    (σ × List Event) × Res α :=
  ((( f w.1).1, w.2 ++ [{ call := c, ok := (f w.1).2.isOk }]), (f w.1).2)

/-- A repository that behaves as `r` and records every call made on it. -/
def Repository.recorded {σ : Type} (r : Repository σ) : Repository (σ × List Event) where
  UpdateTxnsStatus := fun hs st a => record (.updateTxnsStatus hs st a) (r.UpdateTxnsStatus hs st a)
  GetLatestProcessedEthereumBlockNumber := fun i d =>
    record (.getLatest i d) (r.GetLatestProcessedEthereumBlockNumber i d)
  SetLatestProcessedEthereumBlockNumber := fun i n =>
    record (.setLatest i n) (r.SetLatestProcessedEthereumBlockNumber i n)
  DeleteSuccessfulTransactions := record .deleteSuccessful r.DeleteSuccessfulTransactions

/-- A block source creator that behaves as `bsc` and records every call made on it. -/
def BlockSourceCreator.recorded {σ : Type} (bsc : BlockSourceCreator σ) :
    BlockSourceCreator (σ × List Event) where
  CreateBlockSource := fun b c => record (.createBlockSource b c) (bsc.CreateBlockSource b c)

/-- A block source creator that delivers the given blocks whatever the start block. -/
def fixedSource {σ : Type} (blocks : List Block) : BlockSourceCreator σ where
  CreateBlockSource := fun _ _ s => (s, .ok { Blocks := blocks, Close := none })

/-- The values written to the cursor, in order: the block numbers of the recorded
cursor writes. -/
def cursorWrites : List Event → List Nat
  | [] => []
  | e :: rest =>
    match e.call with
    | .setLatest _ n => n :: cursorWrites rest
    | _ => cursorWrites rest

/-- The stored cursor: the block number of the row `blockNumberID`, if there is one. -/
def Store.cursor (st : Store) : Option Nat :=
  (st.ethereum_blockchain.find? (fun row => decide (row.id = TxnValidating.blockNumberID))).map
    (fun row => row.latest_processed_block_number)

/-- The server executes every statement still to come. -/
def Session.noFaults (s : Session) : Prop := ∀ stp ∈ s.script, stp.err = none

instance (s : Session) : Decidable s.noFaults := by unfold Session.noFaults; infer_instance

/-- The change `validateBlockTxns` may make to a transaction row: a row that is
successful or failed stays as it is, and a state can only change from in progress to
successful or failed. -/
def TransactionRow.finalizedFrom (new old : TransactionRow) : Prop :=
  (old.transaction_state_id = TxnSuccessful ∨ old.transaction_state_id = TxnFailed → new = old) ∧
  (new.transaction_state_id ≠ old.transaction_state_id →
    old.transaction_state_id = TxnInProgress ∧
      (new.transaction_state_id = TxnSuccessful ∨ new.transaction_state_id = TxnFailed))

/-- The allowed change of the store by the status updates of one block. -/
def finalizes (before after : Store) : Prop :=
  List.Forall₂ (fun old new => new.finalizedFrom old) before.transactions after.transactions ∧
    after.user_data = before.user_data ∧ after.project_data = before.project_data ∧
    after.mentorship = before.mentorship ∧ after.ethereum_blockchain = before.ethereum_blockchain

/-! ## `mosolyapi/mosolyapi.go` and `models/dbmodels/dbmodels.go`

Slices that the code compares with `reflect.DeepEqual` or tests against nil are
`Option (List _)`, with `none` for the nil slice. -/

namespace mosolyapi

/-- The payload `ProjectFact`. -/
structure ProjectFact where
  Name : String
  deriving DecidableEq, Repr

/-- The payload `MentorFact`, a slice of strings. -/
abbrev MentorFact : Type := Option (List String)

/-- The payload `UserFact`. -/
structure UserFact where
  InviteURLHash : String
  Account : String
  Validated : Bool
  Mentors : Option (List String)
  deriving DecidableEq, Repr

/-- The dynamic value of the field `Payload interface{}` of `BlockchainFact`. -/
inductive Payload where
  | project (fact : ProjectFact)
  | user (fact : UserFact)
  | mentor (fact : MentorFact)
  deriving DecidableEq, Repr

/-- The structure `BlockchainFact`. -/
structure BlockchainFact where
  Schema : String
  Payload : Option Payload
  deriving DecidableEq, Repr

/-- The wrapper `BlockchainProjectFact`. -/
structure BlockchainProjectFact where
  BlockchainFact : BlockchainFact
  Payload : ProjectFact
  deriving DecidableEq, Repr

/-- The wrapper `BlockchainMentorFact`. -/
structure BlockchainMentorFact where
  BlockchainFact : BlockchainFact
  Payload : MentorFact
  deriving DecidableEq, Repr

/-- The wrapper `BlockchainUserFact`. -/
structure BlockchainUserFact where
  BlockchainFact : BlockchainFact
  Payload : UserFact
  deriving DecidableEq, Repr

/-- The API type `Mentoree`. -/
structure Mentoree where
  UserID : Int
  CustomNameForMentor : String
  Account : String
  Validated : Bool
  MentorshipStarted : Nat
  deriving DecidableEq, Repr

/-- The API type `Mentor`. -/
structure Mentor where
  UserID : Int
  Account : String
  MentorshipStarted : Nat
  deriving DecidableEq, Repr

/-- The API type `User`. -/
structure User where
  ID : Int
  InviteURLHash : String
  Account : String
  Validated : Bool
  JoinedAt : Nat
  UpdatedAt : Nat
  CreatedAt : Nat
  Mentorees : List Mentoree
  Mentors : List Mentor
  deriving DecidableEq, Repr

end mosolyapi

namespace dbmodels

/-- The database type `Mentor`. -/
structure Mentor where
  ID : Int
  Account : String
  Users : List String
  deriving DecidableEq, Repr

/-- The database type `Mentoree`. -/
structure Mentoree where
  ID : Int
  Account : String
  deriving DecidableEq, Repr

/-- The database type `User`. -/
structure User where
  ID : Int
  InviteURLHash : String
  Account : String
  UpdatedAt : Nat
  Validated : Bool
  Mentorees : List Mentoree
  Mentors : List Mentor
  deriving DecidableEq, Repr

/-- The database type `Project`. -/
structure Project where
  ID : Int
  Name : String
  UpdatedAt : Nat
  PassportAddress : String
  deriving DecidableEq, Repr

end dbmodels

/-! ## `models/transformations/transformations.go` -/

/-- The function `TransformUser`; `caseTable` is the case table that `strings.ToLower`
reads for the characters beyond ASCII. -/
def TransformUser (caseTable : Char → Char) (user : mosolyapi.User) : dbmodels.User :=
  { ID := user.ID
    UpdatedAt := user.UpdatedAt
    InviteURLHash := user.InviteURLHash
    Account := strings.ToLower caseTable user.Account
    Validated := user.Validated
    Mentorees := user.Mentorees.map fun mentoree =>
      { ID := mentoree.UserID, Account := strings.ToLower caseTable mentoree.Account }
    Mentors := user.Mentors.map fun mentor =>
      { ID := mentor.UserID, Account := strings.ToLower caseTable mentor.Account,
        Users := [] } }

/-! ## `processing/txnprocessing/sync_users.go` -/

namespace TxnProcessing

/-- The method `TxnProcessing.GetAuditName`. -/
def GetAuditName : String := "mosoly-txnprocessing"

/-- The statement `INSERT INTO user_data(id, invite_url_hash, account, updated_at,
validated)`; the column `transaction_id` is left null. -/
def insertUser (st : Store) (user : dbmodels.User) : Store :=
  { st with user_data := st.user_data ++
      [{ id := user.ID, invite_url_hash := user.InviteURLHash, account := user.Account,
         updated_at := user.UpdatedAt, validated := user.Validated, transaction_id := none }] }

/-- The statement `UPDATE user_data SET ... WHERE id = ?`. -/
def updateUser (st : Store) (user : dbmodels.User) : Store :=
  { st with user_data := st.user_data.map fun row =>
      if row.id = user.ID then
        { row with invite_url_hash := user.InviteURLHash, account := user.Account,
                   updated_at := user.UpdatedAt, validated := user.Validated }
      else row }

/-- The statement `DELETE FROM mentorship WHERE user_id = ?`. -/
def deleteMentorship (st : Store) (userID : Int) : Store :=
  { st with mentorship := st.mentorship.filter fun row => !decide (row.user_id = userID) }

/-- The statement `INSERT INTO mentorship(user_id, mentoree_id)`. -/
def insertMentorship (st : Store) (userID mentoreeID : Int) : Store :=
  { st with mentorship := st.mentorship ++
      [{ user_id := userID, mentoree_id := mentoreeID, transaction_id := none }] }

/-- The inner loop of `syncUsers`: one `INSERT INTO mentorship` per mentoree. -/
def insertMentorees (userID : Int) : List dbmodels.Mentoree → Session → Session × Res Unit
  | [], s => (s, .ok ())
  | mentoree :: rest, s =>
    match s.step.err with
    | some e => (s.advance s.store, .error ("failed to update mentorship: " ++ e))
    | none => insertMentorees userID rest (s.advance (insertMentorship s.store userID mentoree.ID))

/-- The body of the loop of `syncUsers` for one user, inside the transaction: look the
user up; insert it and go on to the next user when it does not exist; otherwise update
it, delete its mentorship rows and insert one per mentoree. -/
def syncUser (user : dbmodels.User) (s : Session) : Session × Res Unit :=
  match s.step.err with
  | some e => (s.advance s.store, .error ("failed to get user ID: " ++ e))
  | none =>
    let s₁ := s.advance s.store
    if s.store.user_data.all (fun row => !decide (row.id = user.ID)) then
      match s₁.step.err with
      | some e => (s₁.advance s₁.store, .error ("failed to insert user: " ++ e))
      | none => (s₁.advance (insertUser s₁.store user), .ok ())
    else
      match s₁.step.err with
      | some e => (s₁.advance s₁.store, .error ("failed to update user: " ++ e))
      | none =>
        let s₂ := s₁.advance (updateUser s₁.store user)
        match s₂.step.err with
        | some e => (s₂.advance s₂.store, .error e)
        | none => insertMentorees user.ID user.Mentorees (s₂.advance (deleteMentorship s₂.store user.ID))

/-- The loop of `syncUsers` over the batch, collecting the transformed users. -/
def syncUsersLoop (caseTable : Char → Char) :
    List mosolyapi.User → List dbmodels.User → Session → Session × Res (List dbmodels.User)
  | [], dbUsers, s => (s, .ok dbUsers)
  | us :: rest, dbUsers, s =>
    match syncUser (TransformUser caseTable us) s with
    | (s₁, .ok _) =>
      syncUsersLoop caseTable rest (dbUsers ++ [TransformUser caseTable us]) s₁
    | (s₁, .error e) => (s₁, .error e)
    | (s₁, .panicked p) => (s₁, .panicked p)

/-- The method `syncUsers`: begin a transaction, run the loop, commit.  On an error the
deferred rollback restores the store the transaction started from. -/
def syncUsers (caseTable : Char → Char) (users : List mosolyapi.User) (s : Session) :
    Session × Res (List dbmodels.User) :=
  match s.step.err with
  | some e =>
    (s.advance s.store,
      .error ("failed to begin user insert/update transaction for user_data: " ++ e))
  | none =>
    match syncUsersLoop caseTable users [] (s.advance s.store) with
    | (s₁, .ok dbUsers) =>
      match s₁.step.err with
      | some e =>
        ((s₁.advance s.store), .error ("failed to commit syncUsers transaction: " ++ e))
      | none => (s₁.advance s₁.store, .ok dbUsers)
    | (s₁, .error e) => (s₁.advance s.store, .error e)
    | (s₁, .panicked p) => (s₁.advance s.store, .panicked p)

end TxnProcessing

/-! ## Bytes, keys and addresses (`processing/txnprocessing/passport.go`) -/

/-- A byte string. -/
abbrev Bytes : Type := List (Fin 256)

/-- The UTF-8 encoding of a character. -/
def utf8Char (c : Char) : Bytes :=
  let n := c.toNat
  if n < 0x80 then [Fin.ofNat n]
  else if n < 0x800 then [Fin.ofNat (0xC0 + n / 64), Fin.ofNat (0x80 + n % 64)]
  else if n < 0x10000 then
    [Fin.ofNat (0xE0 + n / 4096), Fin.ofNat (0x80 + n / 64 % 64), Fin.ofNat (0x80 + n % 64)]
  else
    [Fin.ofNat (0xF0 + n / 262144), Fin.ofNat (0x80 + n / 4096 % 64),
     Fin.ofNat (0x80 + n / 64 % 64), Fin.ofNat (0x80 + n % 64)]

/-- The conversion `[]byte(s)`. -/
def bytesOfString (s : String) : Bytes := s.data.flatMap utf8Char

/-- The statement `copy(key[:], b)` into a zeroed array of `n` bytes: the first `n` bytes
of `b`, followed by zeros. -/
def copyInto (n : Nat) (b : Bytes) : Bytes := (b ++ List.replicate n 0).take n

/-- The function `getFactKeyBytes`. -/
def getFactKeyBytes (factKeyStr : String) : Res Bytes :=
  if (bytesOfString factKeyStr).length ≤ 32 then .ok (copyInto 32 (bytesOfString factKeyStr))
  else .error ("getFactKeyBytes: the factKey '" ++ factKeyStr ++
    "' string should fit into 32 bytes")

/-- Value of a hexadecimal digit, if the byte is one. -/
def fromHexChar (b : Fin 256) : Option Nat :=
  if 48 ≤ b.val ∧ b.val ≤ 57 then some (b.val - 48)
  else if 97 ≤ b.val ∧ b.val ≤ 102 then some (b.val - 97 + 10)
  else if 65 ≤ b.val ∧ b.val ≤ 70 then some (b.val - 65 + 10)
  else none

/-- The function `common.Hex2Bytes`: `hex.DecodeString` with the error dropped, which
leaves the bytes decoded before the first invalid digit. -/
def Hex2Bytes : Bytes → Bytes
  | a :: b :: rest =>
    match fromHexChar a, fromHexChar b with
    | some x, some y => Fin.ofNat (16 * x + y) :: Hex2Bytes rest
    | _, _ => []
  | _ => []

/-- The function `common.FromHex`: an optional `0x`/`0X`, a `0` in front of an odd number
of digits, then `Hex2Bytes`. -/
def FromHex (s : String) : Bytes :=
  let b := bytesOfString s
  let b := if b.take 2 = bytesOfString "0x" ∨ b.take 2 = bytesOfString "0X" then b.drop 2 else b
  let b := if b.length % 2 = 1 then bytesOfString "0" ++ b else b
  Hex2Bytes b

/-- The function `common.HexToAddress`: the last 20 bytes, padded with zeros on the left. -/
def HexToAddress (s : String) : Bytes :=
  let b := FromHex s
  let b := if b.length > 20 then b.drop (b.length - 20) else b
  List.replicate (20 - b.length) 0 ++ b

/-- The function `getBytesFromHexAddress`, whose error is always nil. -/
def getBytesFromHexAddress (hexAddr : String) : Bytes := copyInto 32 (FromHex hexAddr)

/-- Key suffix of the mentor-list fact. -/
def mentorKeySuffix : String := "_mentorees"

/-- Key of the project fact. -/
def factKeyProject : String := "project"

/-- Schema of the project fact. -/
def projectSchemaURL : String := "http://portal.mosoly.live/project.json"

/-- Schema of the mentor-list fact. -/
def mentoreesSchemaURL : String := "http://portal.mosoly.live/mentorees.json"

/-- Schema of the user fact. -/
def userSchemaURL : String := "http://portal.mosoly.live/user.json"

/-- The function `getMentorFactKeyBytes`, for a given `crypto.Keccak256`. -/
def getMentorFactKeyBytes (Keccak256 : Bytes → Bytes) (mentorAddress : String) : Bytes :=
  copyInto 32 (Keccak256 (bytesOfString (mentorAddress ++ mentorKeySuffix)))

/-! ## The fact differ (`getUserFact`, `getMentorFact`, `getProjectFact`) -/

/-- Lexicographic comparison of code points, the order of Go strings. -/
def lexLe : List Nat → List Nat → Bool
  | [], _ => true
  | _ :: _, [] => false
  | a :: as, b :: bs => if a < b then true else if b < a then false else lexLe as bs

/-- The order `a <= b` of Go strings. -/
def stringLe (a b : String) : Bool := lexLe (a.data.map Char.toNat) (b.data.map Char.toNat)

/-- The function `sort.Strings`. -/
def sortStrings (l : List String) : List String :=
  l.insertionSort (fun a b => stringLe a b = true)

/-- The function `getUserFact`; `none` is the nil result. -/
def getUserFact (user : dbmodels.User) (userFact : mosolyapi.BlockchainUserFact) :
    Option mosolyapi.BlockchainFact :=
  let mentors := sortStrings (user.Mentors.map fun mentor => mentor.Account)
  let newFact : mosolyapi.UserFact :=
    { InviteURLHash := user.InviteURLHash, Account := user.Account,
      Validated := user.Validated, Mentors := some mentors }
  if newFact = userFact.Payload then none
  else some { Schema := userSchemaURL, Payload := some (.user newFact) }

/-- The function `getMentorFact`; `none` is the nil result. -/
def getMentorFact (user : dbmodels.User) (mentorFact : mosolyapi.BlockchainMentorFact) :
    Option mosolyapi.BlockchainFact :=
  let newFact := user.Mentorees.map fun mentoree => mentoree.Account
  if newFact.length = 0 ∧ (mentorFact.Payload.getD []).length = 0 then none
  else if some (sortStrings newFact) = mentorFact.Payload then none
  else some { Schema := mentoreesSchemaURL, Payload := some (.mentor (some (sortStrings newFact))) }

/-- The function `getProjectFact`; `none` is the nil result. -/
def getProjectFact (project : dbmodels.Project) (projectFact : mosolyapi.BlockchainProjectFact) :
    Option mosolyapi.BlockchainFact :=
  let fact : mosolyapi.ProjectFact := { Name := project.Name }
  if fact = projectFact.Payload then none
  else some { Schema := projectSchemaURL, Payload := some (.project fact) }

/-! ## The ledger client and the fact writer (`passport.go`, `process_txns.go`) -/

/-- Result of `ReadTxData`: the bytes read, the error `ethereum.NotFound`, or another
error. -/
inductive ReadResult where
  | data (bytes : Bytes)
  | notFound
  | failed (msg : String)
  deriving DecidableEq, Repr

/-- The structure `FactProviderContext`: the requesting address, the fact reader and the
fact provider, acting on a ledger of type `L`. -/
structure FactProviderContext (L : Type) where
  address : Bytes
  ReadTxData : Bytes → Bytes → Bytes → L → L × ReadResult
  WriteTxData : Bytes → Bytes → Bytes → L → L × Res Hash

/-- The functions of `encoding/json` on the fact types: `Marshal`, and `Unmarshal` into
an object of each wrapper type (the object after the call and the error, if any). -/
structure Json where
  Marshal : mosolyapi.BlockchainFact → Bytes
  UnmarshalProject :
    Bytes → mosolyapi.BlockchainProjectFact → mosolyapi.BlockchainProjectFact × Option String
  UnmarshalMentor :
    Bytes → mosolyapi.BlockchainMentorFact → mosolyapi.BlockchainMentorFact × Option String
  UnmarshalUser :
    Bytes → mosolyapi.BlockchainUserFact → mosolyapi.BlockchainUserFact × Option String

/-- What the fact pipeline takes from outside the repository: the ledger client, the
JSON library, the hash function and the configured address of the identity contract. -/
structure Deps (L : Type) where
  ctx : FactProviderContext L
  json : Json
  Keccak256 : Bytes → Bytes
  AppMosolyDidAddress : String

/-- The world of the fact pipeline: the ledger, the database and the lines logged. -/
structure World (L : Type) where
  chain : L
  db : Session
  log : List String

/-- The call `log.Println(err)`. -/
def World.println {L : Type} (w : World L) (line : String) : World L :=
  { w with log := w.log ++ [line] }

namespace TxnProcessing

/-- The function `readFact`: the ledger after the read, the fact object after the call
and the error returned, if any. -/
def readFact {L α : Type} (d : Deps L) (unmarshal : Bytes → α → α × Option String)
    (factKey passportAddress : Bytes) (factObject : α) (chain : L) : L × α × Option String :=
  match d.ctx.ReadTxData passportAddress d.ctx.address factKey chain with
  | (chain₁, .failed e) => (chain₁, factObject, some ("syncToBlockchain: ReadTxData failed: " ++ e))
  | (chain₁, .notFound) => (chain₁, factObject, none)
  | (chain₁, .data resultBytes) =>
    if resultBytes.length > 0 then
      match unmarshal resultBytes factObject with
      | (obj, some e) => (chain₁, obj, some ("readFact: can't unmarshal tx data: " ++ e))
      | (obj, none) => (chain₁, obj, none)
    else (chain₁, factObject, none)

/-- The function `writeFact`; on an error the hash pointer returned is nil. -/
def writeFact {L : Type} (d : Deps L) (factKey passportAddress : Bytes)
    (factObject : mosolyapi.BlockchainFact) (chain : L) : L × Res Hash :=
  match d.ctx.WriteTxData passportAddress factKey (d.json.Marshal factObject) chain with
  | (chain₁, .error e) => (chain₁, .error ("writeFact: WriteTxData  failed: " ++ e))
  | (chain₁, .ok hash) => (chain₁, .ok hash)
  | (chain₁, .panicked p) => (chain₁, .panicked p)

/-- The statement `INSERT INTO transactions ... RETURNING id` of `createTxnData`. -/
def insertTransaction (st : Store) (hash : String) (now : Nat) : Store :=
  { st with
    transactions := st.transactions ++
      [{ id := st.transactions_id_seq + 1, created := now, updated := now,
         modified_by := GetAuditName, transaction_hash := hash,
         transaction_state_id := TxnInProgress }]
    transactions_id_seq := st.transactions_id_seq + 1 }

/-- The method `createTxnData`: the id of the inserted row, or the error of the query.
(The server always returns the id of an inserted row, so the branch that panics on a
missing id is not reached.) -/
def createTxnData (hash : String) (s : Session) : Session × Res Int :=
  match s.step.err with
  | some e => (s.advance s.store, .error e)
  | none => (s.advance (insertTransaction s.store hash s.step.now), .ok (s.store.transactions_id_seq + 1))

/-- The method `updateUserFactTransaction`. -/
def updateUserFactTransaction (userID trxID : Int) (s : Session) : Session × Res Unit :=
  match s.step.err with
  | some e => (s.advance s.store, .error e)
  | none =>
    (s.advance { s.store with user_data := s.store.user_data.map fun row =>
        if row.id = userID then { row with transaction_id := some trxID } else row }, .ok ())

/-- The method `updateMentorFactTransaction`. -/
def updateMentorFactTransaction (userID trxID : Int) (s : Session) : Session × Res Unit :=
  match s.step.err with
  | some e => (s.advance s.store, .error e)
  | none =>
    (s.advance { s.store with mentorship := s.store.mentorship.map fun row =>
        if row.user_id = userID then { row with transaction_id := some trxID } else row }, .ok ())

/-- The method `updateProjectFactTransaction`. -/
def updateProjectFactTransaction (projectID trxID : Int) (s : Session) : Session × Res Unit :=
  match s.step.err with
  | some e => (s.advance s.store, .error e)
  | none =>
    (s.advance { s.store with project_data := s.store.project_data.map fun row =>
        if row.id = projectID then { row with transaction_id := some trxID } else row }, .ok ())

/-- The end of an iteration of `updateProjectsFacts`, `updateMentorsFacts` and
`updateUsersFacts`, which is the same text in the three: write the fact, log the error of
the write if there is one, call `createTxnData(hash.String())` (a nil dereference when
the write failed), log and return its error, then link the transaction to the owning
row, logging the error of that update.  `ok` means that the loop goes on. -/
def writeAndLink {L : Type} (d : Deps L) (factKey passportAddress : Bytes)
    (factToWrite : mosolyapi.BlockchainFact) (link : Int → Session → Session × Res Unit)
    (w : World L) : World L × Res Unit :=
  match writeFact d factKey passportAddress factToWrite w.chain with
  | (chain₁, .panicked p) => ({ w with chain := chain₁ }, .panicked p)
  | (chain₁, .error e) => (({ w with chain := chain₁ } : World L).println e, .panicked nilDeref)
  | (chain₁, .ok hash) =>
    match createTxnData hash.String w.db with
    | (db₁, .panicked p) => ({ w with chain := chain₁, db := db₁ }, .panicked p)
    | (db₁, .error e) => (({ w with chain := chain₁, db := db₁ } : World L).println e, .error e)
    | (db₁, .ok trxID) =>
      match link trxID db₁ with
      | (db₂, .panicked p) => ({ w with chain := chain₁, db := db₂ }, .panicked p)
      | (db₂, .error e) => (({ w with chain := chain₁, db := db₂ } : World L).println e, .ok ())
      | (db₂, .ok _) => ({ w with chain := chain₁, db := db₂ }, .ok ())

/-- The world after `readFact` and the `log.Println(err)` that follows it. -/
def afterRead {L : Type} (w : World L) (chain₁ : L) (err : Option String) : World L :=
  match err with
  | some e => ({ w with chain := chain₁ } : World L).println e
  | none => { w with chain := chain₁ }

/-- The zero value `BlockchainFact{}`. -/
def zeroFact : mosolyapi.BlockchainFact := { Schema := "", Payload := none }

/-- The loop of `updateProjectsFacts`, for the key of the project fact. -/
def updateProjectsFactsLoop {L : Type} (d : Deps L) (factKeyProjectBytes : Bytes) :
    List dbmodels.Project → World L → World L × Res Unit
  | [], w => (w, .ok ())
  | project :: rest, w =>
    match readFact d d.json.UnmarshalProject factKeyProjectBytes
        (HexToAddress project.PassportAddress)
        { BlockchainFact := zeroFact, Payload := { Name := "" } } w.chain with
    | (chain₁, projectFact, err) =>
      match getProjectFact project projectFact with
      | none => updateProjectsFactsLoop d factKeyProjectBytes rest (afterRead w chain₁ err)
      | some factToWrite =>
        match writeAndLink d factKeyProjectBytes (HexToAddress project.PassportAddress)
            factToWrite (updateProjectFactTransaction project.ID) (afterRead w chain₁ err) with
        | (w₁, .ok _) => updateProjectsFactsLoop d factKeyProjectBytes rest w₁
        | (w₁, .error e) => (w₁, .error e)
        | (w₁, .panicked p) => (w₁, .panicked p)

/-- The method `updateProjectsFacts`. -/
def updateProjectsFacts {L : Type} (d : Deps L) (projects : List dbmodels.Project)
    (w : World L) : World L × Res Unit :=
  match getFactKeyBytes factKeyProject with
  | .ok factKeyProjectBytes => updateProjectsFactsLoop d factKeyProjectBytes projects w
  | .error e => (w, .error e)
  | .panicked p => (w, .panicked p)

/-- The method `updateMentorsFacts`. -/
def updateMentorsFacts {L : Type} (d : Deps L) :
    List dbmodels.User → World L → World L × Res Unit
  | [], w => (w, .ok ())
  | user :: rest, w =>
    if user.Mentorees.length = 0 then updateMentorsFacts d rest w
    else
      match readFact d d.json.UnmarshalMentor (getMentorFactKeyBytes d.Keccak256 user.Account)
          (HexToAddress d.AppMosolyDidAddress)
          { BlockchainFact := zeroFact, Payload := none } w.chain with
      | (chain₁, mentorFact, err) =>
        match getMentorFact user mentorFact with
        | none => updateMentorsFacts d rest (afterRead w chain₁ err)
        | some factToWrite =>
          match writeAndLink d (getMentorFactKeyBytes d.Keccak256 user.Account)
              (HexToAddress d.AppMosolyDidAddress) factToWrite
              (updateMentorFactTransaction user.ID) (afterRead w chain₁ err) with
          | (w₁, .ok _) => updateMentorsFacts d rest w₁
          | (w₁, .error e) => (w₁, .error e)
          | (w₁, .panicked p) => (w₁, .panicked p)

/-- The method `updateUsersFacts`. -/
def updateUsersFacts {L : Type} (d : Deps L) :
    List dbmodels.User → World L → World L × Res Unit
  | [], w => (w, .ok ())
  | user :: rest, w =>
    match readFact d d.json.UnmarshalUser (getBytesFromHexAddress user.Account)
        (HexToAddress d.AppMosolyDidAddress)
        { BlockchainFact := zeroFact,
          Payload := { InviteURLHash := "", Account := "", Validated := false, Mentors := none } }
        w.chain with
    | (chain₁, userFact, err) =>
      match getUserFact user userFact with
      | none => updateUsersFacts d rest (afterRead w chain₁ err)
      | some factToWrite =>
        match writeAndLink d (getBytesFromHexAddress user.Account)
            (HexToAddress d.AppMosolyDidAddress) factToWrite
            (updateUserFactTransaction user.ID) (afterRead w chain₁ err) with
        | (w₁, .ok _) => updateUsersFacts d rest w₁
        | (w₁, .error e) => (w₁, .error e)
        | (w₁, .panicked p) => (w₁, .panicked p)

end TxnProcessing

/-! ## Observing the calls of the fact pipeline on the ledger -/

/-- A call on the ledger client. -/
inductive LedgerCall where
  | read (passportAddress requester factKey : Bytes)
  | write (passportAddress factKey data : Bytes)
  deriving DecidableEq, Repr

/-- The key a ledger call reads or writes. -/
def LedgerCall.factKey : LedgerCall → Bytes
  | .read _ _ k => k
  | .write _ k _ => k

/-- Whether a ledger call is a write. -/
def LedgerCall.isWrite : LedgerCall → Bool
  | .read _ _ _ => false
  | .write _ _ _ => true

/-- The writes among the recorded ledger calls, in order. -/
def ledgerWrites (calls : List LedgerCall) : List LedgerCall := calls.filter LedgerCall.isWrite

/-- A ledger client that behaves as `ctx` and records every call made on it. -/
def FactProviderContext.recorded {L : Type} (ctx : FactProviderContext L) :
    FactProviderContext (L × List LedgerCall) where
  address := ctx.address
  ReadTxData := fun p r k l =>
    (((ctx.ReadTxData p r k l.1).1, l.2 ++ [.read p r k]), (ctx.ReadTxData p r k l.1).2)
  WriteTxData := fun p k b l =>
    (((ctx.WriteTxData p k b l.1).1, l.2 ++ [.write p k b]), (ctx.WriteTxData p k b l.1).2)

/-- The dependencies `d` with a recording ledger client. -/
def Deps.recorded {L : Type} (d : Deps L) : Deps (L × List LedgerCall) where
  ctx := d.ctx.recorded
  json := d.json
  Keccak256 := d.Keccak256
  AppMosolyDidAddress := d.AppMosolyDidAddress

/-- The key of the project fact: the bytes of `project` followed by 25 zero bytes. -/
def projectKey : Bytes := bytesOfString "project" ++ List.replicate 25 0

/-! ## `encoding/json` on the fact types

The library is not part of the repository.  Its behaviour on the fact types is modelled
in two layers: the mapping between Go values and JSON values, which follows the rules of
the library for struct tags, embedded structs, nil and empty slices and `null`; and the
JSON text of a value, which is left to a parameter (`JsonText`). -/

/-- A JSON value. -/
inductive JsonValue where
  | null
  | bool (b : Bool)
  | number (literal : String)
  | string (s : String)
  | array (items : List JsonValue)
  | object (members : List (String × JsonValue))

/-- The JSON value of a `[]string`: `null` for the nil slice, an array otherwise. -/
def encodeStrings : Option (List String) → JsonValue
  | none => .null
  | some xs => .array (xs.map .string)

/-- The JSON value of a payload, by the `json` tags of `ProjectFact` and `UserFact`. -/
def encodePayload : mosolyapi.Payload → JsonValue
  | .project f => .object [("name", .string f.Name)]
  | .user f =>
    .object [("inviteUrlHash", .string f.InviteURLHash), ("account", .string f.Account),
             ("validated", .bool f.Validated), ("mentors", encodeStrings f.Mentors)]
  | .mentor f => encodeStrings f

/-- The JSON value of a `BlockchainFact`: what `json.Marshal` writes. -/
def encodeFact (fact : mosolyapi.BlockchainFact) : JsonValue :=
  .object [("schema", .string fact.Schema),
           ("payload", match fact.Payload with
                       | none => .null
                       | some p => encodePayload p)]

/-- Whether a key of a JSON object names the struct field with tag `tag`: the library
matches keys to fields without regard to letter case. -/
def keyMatches (key tag : String) : Bool := decide (ToLower key = ToLower tag)

/-- The first error met while decoding is the one `json.Unmarshal` returns. -/
def firstError (a b : Option String) : Option String :=
  match a with
  | some e => some e
  | none => b

/-- Decoding into a `string`: `null` has no effect, a value of another kind is a type
error and leaves the string as it is. -/
def decodeString (v : JsonValue) (cur : String) : String × Option String :=
  match v with
  | .string s => (s, none)
  | .null => (cur, none)
  | _ => (cur, some "json: cannot unmarshal value into Go value of type string")

/-- Decoding into a `bool`. -/
def decodeBool (v : JsonValue) (cur : Bool) : Bool × Option String :=
  match v with
  | .bool b => (b, none)
  | .null => (cur, none)
  | _ => (cur, some "json: cannot unmarshal value into Go value of type bool")

/-- Decoding the elements of an array into fresh strings. -/
def decodeStringElems : List JsonValue → List String × Option String
  | [] => ([], none)
  | v :: rest =>
    ((decodeString v "").1 :: (decodeStringElems rest).1,
      firstError (decodeString v "").2 (decodeStringElems rest).2)

/-- Decoding into a `[]string`: an array gives a non-nil slice, `null` the nil slice. -/
def decodeStrings (v : JsonValue) (cur : Option (List String)) :
    Option (List String) × Option String :=
  match v with
  | .array items => (some (decodeStringElems items).1, (decodeStringElems items).2)
  | .null => (none, none)
  | _ => (cur, some "json: cannot unmarshal value into Go value of type []string")

/-- One member of a JSON object decoded into a `ProjectFact`. -/
def decodeProjectMember (acc : mosolyapi.ProjectFact × Option String)
    (kv : String × JsonValue) : mosolyapi.ProjectFact × Option String :=
  if keyMatches kv.1 "name" then
    ({ Name := (decodeString kv.2 acc.1.Name).1 }, firstError acc.2 (decodeString kv.2 acc.1.Name).2)
  else acc

/-- Decoding into a `ProjectFact`. -/
def decodeProjectFact (v : JsonValue) (cur : mosolyapi.ProjectFact) :
    mosolyapi.ProjectFact × Option String :=
  match v with
  | .object members => members.foldl decodeProjectMember (cur, none)
  | .null => (cur, none)
  | _ => (cur, some "json: cannot unmarshal value into Go value of type mosolyapi.ProjectFact")

/-- One member of a JSON object decoded into a `UserFact`. -/
def decodeUserMember (acc : mosolyapi.UserFact × Option String)
    (kv : String × JsonValue) : mosolyapi.UserFact × Option String :=
  if keyMatches kv.1 "inviteUrlHash" then
    ({ acc.1 with InviteURLHash := (decodeString kv.2 acc.1.InviteURLHash).1 },
      firstError acc.2 (decodeString kv.2 acc.1.InviteURLHash).2)
  else if keyMatches kv.1 "account" then
    ({ acc.1 with Account := (decodeString kv.2 acc.1.Account).1 },
      firstError acc.2 (decodeString kv.2 acc.1.Account).2)
  else if keyMatches kv.1 "validated" then
    ({ acc.1 with Validated := (decodeBool kv.2 acc.1.Validated).1 },
      firstError acc.2 (decodeBool kv.2 acc.1.Validated).2)
  else if keyMatches kv.1 "mentors" then
    ({ acc.1 with Mentors := (decodeStrings kv.2 acc.1.Mentors).1 },
      firstError acc.2 (decodeStrings kv.2 acc.1.Mentors).2)
  else acc

/-- Decoding into a `UserFact`. -/
def decodeUserFact (v : JsonValue) (cur : mosolyapi.UserFact) :
    mosolyapi.UserFact × Option String :=
  match v with
  | .object members => members.foldl decodeUserMember (cur, none)
  | .null => (cur, none)
  | _ => (cur, some "json: cannot unmarshal value into Go value of type mosolyapi.UserFact")

/-- One member of a JSON object decoded into a typed wrapper: `schema` goes to the field
promoted from the embedded `BlockchainFact`, `payload` to the typed `Payload` of the
wrapper, which hides the `Payload` of the embedded struct. -/
def decodeWrapperMember {α : Type} (decodePayload : JsonValue → α → α × Option String)
    (acc : (mosolyapi.BlockchainFact × α) × Option String) (kv : String × JsonValue) :
    (mosolyapi.BlockchainFact × α) × Option String :=
  if keyMatches kv.1 "schema" then
    (({ acc.1.1 with Schema := (decodeString kv.2 acc.1.1.Schema).1 }, acc.1.2),
      firstError acc.2 (decodeString kv.2 acc.1.1.Schema).2)
  else if keyMatches kv.1 "payload" then
    ((acc.1.1, (decodePayload kv.2 acc.1.2).1), firstError acc.2 (decodePayload kv.2 acc.1.2).2)
  else acc

/-- Decoding into a typed wrapper, given as its embedded `BlockchainFact` and its typed
`Payload`. -/
def decodeWrapper {α : Type} (decodePayload : JsonValue → α → α × Option String)
    (v : JsonValue) (fact : mosolyapi.BlockchainFact) (payload : α) :
    (mosolyapi.BlockchainFact × α) × Option String :=
  match v with
  | .object members => members.foldl (decodeWrapperMember decodePayload) ((fact, payload), none)
  | .null => ((fact, payload), none)
  | _ => ((fact, payload), some "json: cannot unmarshal value into Go value of a struct type")

/-- The text layer of JSON: the text `json.Marshal` writes for a value and the value
`json.Unmarshal` reads from a text, if the text is valid. -/
structure JsonText where
  render : JsonValue → Bytes
  parse : Bytes → Option JsonValue

/-- The functions of `encoding/json` on the fact types, over a text layer.  An invalid
text is reported before anything is decoded, so it leaves the object as it is. -/
def goJson (text : JsonText) : Json where
  Marshal := fun fact => text.render (encodeFact fact)
  UnmarshalProject := fun b obj =>
    match text.parse b with
    | none => (obj, some "json: invalid character")
    | some v =>
      ({ BlockchainFact := (decodeWrapper decodeProjectFact v obj.BlockchainFact obj.Payload).1.1,
         Payload := (decodeWrapper decodeProjectFact v obj.BlockchainFact obj.Payload).1.2 },
       (decodeWrapper decodeProjectFact v obj.BlockchainFact obj.Payload).2)
  UnmarshalMentor := fun b obj =>
    match text.parse b with
    | none => (obj, some "json: invalid character")
    | some v =>
      ({ BlockchainFact := (decodeWrapper decodeStrings v obj.BlockchainFact obj.Payload).1.1,
         Payload := (decodeWrapper decodeStrings v obj.BlockchainFact obj.Payload).1.2 },
       (decodeWrapper decodeStrings v obj.BlockchainFact obj.Payload).2)
  UnmarshalUser := fun b obj =>
    match text.parse b with
    | none => (obj, some "json: invalid character")
    | some v =>
      ({ BlockchainFact := (decodeWrapper decodeUserFact v obj.BlockchainFact obj.Payload).1.1,
         Payload := (decodeWrapper decodeUserFact v obj.BlockchainFact obj.Payload).1.2 },
       (decodeWrapper decodeUserFact v obj.BlockchainFact obj.Payload).2)

/-! ## A JSON text layer for the examples

Compact JSON text in ASCII: characters outside ASCII are written as `\u` escapes, and
the reader accepts ASCII text only. -/

/-- Four hexadecimal digits of a number below `2 ^ 16`. -/
def hex4 (n : Nat) : List Char :=
  [hexDigit (n / 4096), hexDigit (n / 256), hexDigit (n / 16), hexDigit n]

/-- The text of one character inside a JSON string. -/
def escapeChar (c : Char) : List Char :=
  if c = '"' then ['\\', '"']
  else if c = '\\' then ['\\', '\\']
  else if c.toNat < 0x20 ∨ 0x7F ≤ c.toNat ∨ c = '<' ∨ c = '>' ∨ c = '&' then
    '\\' :: 'u' :: hex4 c.toNat
  else [c]

/-- The text of a JSON string. -/
def renderString (s : String) : List Char := '"' :: s.data.flatMap escapeChar ++ ['"']

mutual
/-- The compact text of a JSON value. -/
def renderValue : JsonValue → List Char
  | .null => ['n', 'u', 'l', 'l']
  | .bool true => ['t', 'r', 'u', 'e']
  | .bool false => ['f', 'a', 'l', 's', 'e']
  | .number literal => literal.data
  | .string s => renderString s
  | .array items => '[' :: renderItems items ++ [']']
  | .object members => '{' :: renderMembers members ++ ['}']
/-- The elements of an array, separated by commas. -/
def renderItems : List JsonValue → List Char
  | [] => []
  | v :: rest =>
    renderValue v ++
      (match rest with
       | [] => []
       | _ :: _ => ',' :: renderItems rest)
/-- The members of an object, separated by commas. -/
def renderMembers : List (String × JsonValue) → List Char
  | [] => []
  | (k, v) :: rest =>
    renderString k ++ ':' :: renderValue v ++
      (match rest with
       | [] => []
       | _ :: _ => ',' :: renderMembers rest)
end

/-- Value of a hexadecimal digit character. -/
def hexCharValue (c : Char) : Option Nat := fromHexChar (Fin.ofNat c.toNat)

/-- The rest of a JSON string after its opening quote: the string and the text after
the closing quote. -/
def parseStringBody : Nat → List Char → List Char → Option (String × List Char)
  | 0, _, _ => none
  | fuel + 1, cs, acc =>
    match cs with
    | [] => none
    | c :: rest =>
      if c = '"' then some (String.mk acc.reverse, rest)
      else if c = '\\' then
        match rest with
        | 'u' :: a :: b :: c' :: d :: rest' =>
          match hexCharValue a, hexCharValue b, hexCharValue c', hexCharValue d with
          | some x, some y, some z, some u =>
            parseStringBody fuel rest' (Char.ofNat (4096 * x + 256 * y + 16 * z + u) :: acc)
          | _, _, _, _ => none
        | e :: rest' =>
          if e = '"' ∨ e = '\\' ∨ e = '/' then parseStringBody fuel rest' (e :: acc)
          else if e = 'n' then parseStringBody fuel rest' ('\n' :: acc)
          else if e = 'r' then parseStringBody fuel rest' ('\r' :: acc)
          else if e = 't' then parseStringBody fuel rest' ('\t' :: acc)
          else none
        | [] => none
      else parseStringBody fuel rest (c :: acc)

/-- Whether a character can occur in a JSON number. -/
def isNumberChar (c : Char) : Bool :=
  c.isDigit || c = '-' || c = '+' || c = '.' || c = 'e' || c = 'E'

mutual
/-- Reads a JSON value at the start of a text; the fuel bounds the nesting and length. -/
def parseValue : Nat → List Char → Option (JsonValue × List Char)
  | 0, _ => none
  | fuel + 1, cs =>
    match cs with
    | [] => none
    | c :: rest =>
      if c = '"' then (parseStringBody fuel rest []).map fun r => (.string r.1, r.2)
      else if c = '[' then
        match rest with
        | ']' :: rest' => some (.array [], rest')
        | _ => (parseItems fuel rest).map fun r => (.array r.1, r.2)
      else if c = '{' then
        match rest with
        | '}' :: rest' => some (.object [], rest')
        | _ => (parseMembers fuel rest).map fun r => (.object r.1, r.2)
      else if cs.take 4 = ['n', 'u', 'l', 'l'] then some (.null, cs.drop 4)
      else if cs.take 4 = ['t', 'r', 'u', 'e'] then some (.bool true, cs.drop 4)
      else if cs.take 5 = ['f', 'a', 'l', 's', 'e'] then some (.bool false, cs.drop 5)
      else if isNumberChar c then
        some (.number (String.mk (cs.takeWhile isNumberChar)), cs.dropWhile isNumberChar)
      else none
/-- Reads the elements of an array up to and including the closing bracket. -/
def parseItems : Nat → List Char → Option (List JsonValue × List Char)
  | 0, _ => none
  | fuel + 1, cs =>
    match parseValue fuel cs with
    | none => none
    | some (v, rest) =>
      match rest with
      | ',' :: rest' => (parseItems fuel rest').map fun r => (v :: r.1, r.2)
      | ']' :: rest' => some ([v], rest')
      | _ => none
/-- Reads the members of an object up to and including the closing brace. -/
def parseMembers : Nat → List Char → Option (List (String × JsonValue) × List Char)
  | 0, _ => none
  | fuel + 1, cs =>
    match cs with
    | '"' :: rest =>
      match parseStringBody fuel rest [] with
      | some (k, ':' :: rest') =>
        match parseValue fuel rest' with
        | none => none
        | some (v, rest'') =>
          match rest'' with
          | ',' :: r => (parseMembers fuel r).map fun m => ((k, v) :: m.1, m.2)
          | '}' :: r => some ([(k, v)], r)
          | _ => none
      | _ => none
    | _ => none
end

/-- The characters of an ASCII text, if the bytes are all below 128. -/
def asciiChars : Bytes → Option (List Char)
  | [] => some []
  | b :: rest =>
    if b.val < 128 then (asciiChars rest).map fun cs => Char.ofNat b.val :: cs else none

/-- The JSON text layer of the examples. -/
def asciiJson : JsonText where
  render := fun v => (renderValue v).flatMap utf8Char
  parse := fun b =>
    match asciiChars b with
    | none => none
    | some cs =>
      match parseValue (cs.length + 1) cs with
      | some (v, []) => some v
      | _ => none

/-! ## The baselines the three loops read -/

namespace TxnProcessing

/-- The zero value `BlockchainProjectFact{}`. -/
def zeroProjectFact : mosolyapi.BlockchainProjectFact :=
  { BlockchainFact := zeroFact, Payload := { Name := "" } }

/-- The zero value `BlockchainMentorFact{}`. -/
def zeroMentorFact : mosolyapi.BlockchainMentorFact :=
  { BlockchainFact := zeroFact, Payload := none }

/-- The zero value `BlockchainUserFact{}`. -/
def zeroUserFact : mosolyapi.BlockchainUserFact :=
  { BlockchainFact := zeroFact,
    Payload := { InviteURLHash := "", Account := "", Validated := false, Mentors := none } }

/-- The project fact `updateProjectsFacts` has after `readFact` for a project. -/
def projectBaseline {L : Type} (d : Deps L) (project : dbmodels.Project) (chain : L) :
    mosolyapi.BlockchainProjectFact :=
  (readFact d d.json.UnmarshalProject projectKey (HexToAddress project.PassportAddress)
    zeroProjectFact chain).2.1

/-- The mentor-list fact `updateMentorsFacts` has after `readFact` for a user. -/
def mentorBaseline {L : Type} (d : Deps L) (user : dbmodels.User) (chain : L) :
    mosolyapi.BlockchainMentorFact :=
  (readFact d d.json.UnmarshalMentor (getMentorFactKeyBytes d.Keccak256 user.Account)
    (HexToAddress d.AppMosolyDidAddress) zeroMentorFact chain).2.1

/-- The user fact `updateUsersFacts` has after `readFact` for a user. -/
def userBaseline {L : Type} (d : Deps L) (user : dbmodels.User) (chain : L) :
    mosolyapi.BlockchainUserFact :=
  (readFact d d.json.UnmarshalUser (getBytesFromHexAddress user.Account)
    (HexToAddress d.AppMosolyDidAddress) zeroUserFact chain).2.1

end TxnProcessing

/-- Sequencing of two parts of a loop: the second part runs from the world the first
part left when the first part returned nil; an error or a panic of the first part ends
the loop. -/
def TxnProcessing.thenLoop {L : Type} (first : World L × Res Unit)
    (second : World L → World L × Res Unit) : World L × Res Unit :=
  match first with
  | (w₁, .ok _) => second w₁
  | (w₁, .error e) => (w₁, .error e)
  | (w₁, .panicked p) => (w₁, .panicked p)

/-! ## `mth-core/web/authutils/list.go`

Instants and durations are integers (nanoseconds).  Every method takes the lock of the
list for its whole body, so a method is one step on the list; the instant `time.Now()`
reads is an argument. -/

namespace authutils

/-- The structure `TokenInvalidationData`.  The function `InvalidateFunc` acts on an
environment of type `ε` and returns its error, if any. -/
structure TokenInvalidationData (ε : Type) where
  OldToken : String
  NewToken : String
  InvalidateOldTokenAt : Int
  InvalidateFunc : String → ε → ε × Option String

/-- The structure `InvalidationList`; the map `tokens` is an association list with
distinct keys. -/
structure InvalidationList (ε : Type) where
  tokens : List (String × TokenInvalidationData ε)
  interval : Int

/-- The function `newInvalidationList`: an empty map and an interval of three seconds,
or the interval given. -/
def newInvalidationList {ε : Type} (interval : Option Int) : InvalidationList ε :=
  { tokens := [], interval := interval.getD 3000000000 }

/-- The map read `il.tokens[token]`. -/
def InvalidationList.lookup {ε : Type} (il : InvalidationList ε) (token : String) :
    Option (TokenInvalidationData ε) :=
  (il.tokens.find? (fun kv => decide (kv.1 = token))).map Prod.snd

/-- The method `GetNewTokenForOld`. -/
def InvalidationList.GetNewTokenForOld {ε : Type} (il : InvalidationList ε)
    (oldToken : String) : String × Bool :=
  match il.lookup oldToken with
  | some invalidationData => (invalidationData.NewToken, true)
  | none => ("", false)

/-- The method `InvalidateTokenAfter`, called at the instant `now`. -/
def InvalidationList.InvalidateTokenAfter {ε : Type} (il : InvalidationList ε)
    (token newToken : String) (d : Int) (f : String → ε → ε × Option String) (now : Int) :
    InvalidationList ε :=
  match il.lookup token with
  | some _ => il
  | none =>
    { il with tokens := il.tokens ++
        [(token, { OldToken := token, NewToken := newToken, InvalidateOldTokenAt := now + d,
                   InvalidateFunc := f })] }

/-- The loop of `deleteTokens` over the entries of the map (in some order): an entry
whose instant is after `now` stays; for any other entry `InvalidateFunc` is called, its
error is logged, and the entry is deleted. -/
def deleteTokensLoop {ε : Type} (now : Int) :
    List (String × TokenInvalidationData ε) → ε → List String →
      List (String × TokenInvalidationData ε) × ε × List String
  | [], env, log => ([], env, log)
  | (key, invalidationData) :: rest, env, log =>
    if now < invalidationData.InvalidateOldTokenAt then
      ((key, invalidationData) :: (deleteTokensLoop now rest env log).1,
        (deleteTokensLoop now rest env log).2)
    else
      match invalidationData.InvalidateFunc invalidationData.OldToken env with
      | (env₁, some err) =>
        deleteTokensLoop now rest env₁
          (log ++ ["InvalidationList: failed to invalidate old token: " ++ err])
      | (env₁, none) => deleteTokensLoop now rest env₁ log

/-- The method `deleteTokens`, called at the instant `now`: the list, the environment of
the invalidation functions and the log afterwards. -/
def InvalidationList.deleteTokens {ε : Type} (il : InvalidationList ε) (now : Int) (env : ε)
    (log : List String) : InvalidationList ε × ε × List String :=
  ({ il with tokens := (deleteTokensLoop now il.tokens env log).1 },
    (deleteTokensLoop now il.tokens env log).2)

end authutils

/-! ## Passport provisioning (`deployPassports` of `passport.go`) -/

/-- The method `common.Address.Hex`, which is also `Address.String`: `0x` followed by the
hexadecimal digits of the address, a letter being in upper case when the nibble of the
hash of the digits at its position is above 7. -/
def addressHex (Keccak256 : Bytes → Bytes) (a : Bytes) : String :=
  let unchecksummed := a.flatMap hexByte
  let hash := Keccak256 (unchecksummed.flatMap utf8Char)
  let result := unchecksummed.enum.map fun ic =>
    let hashByte := (hash.getD (ic.1 / 2) 0).val
    let nibble := if ic.1 % 2 = 0 then hashByte / 16 else hashByte % 16
    if ic.2.toNat > ('9' : Char).toNat ∧ nibble > 7 then Char.ofNat (ic.2.toNat - 32) else ic.2
  String.mk ('0' :: 'x' :: result)

/-- The passport deployer of the ledger library on a ledger of type `L`, with the hash
function of addresses and the configured address of the passport factory. -/
structure PassportDeployer (L : Type) where
  DeployPassport : Bytes → L → L × Res Bytes
  Keccak256 : Bytes → Bytes
  EthereumPassportFactoryAddress : String

/-- A deployer that behaves as `dp` on a ledger that also records what each call of
`DeployPassport` returned, in the order of the calls. -/
def PassportDeployer.recorded {L : Type} (dp : PassportDeployer L) :
    PassportDeployer (L × List (Res Bytes)) where
  DeployPassport := fun factory l =>
    (((dp.DeployPassport factory l.1).1, l.2 ++ [(dp.DeployPassport factory l.1).2]),
      (dp.DeployPassport factory l.1).2)
  Keccak256 := dp.Keccak256
  EthereumPassportFactoryAddress := dp.EthereumPassportFactoryAddress

/-- The map assignment `projectsPassports[id] = address` on a `map[int]common.Address`,
as an association list with distinct keys. -/
def passportsAssign : List (Int × Bytes) → Int → Bytes → List (Int × Bytes)
  | [], id, a => [(id, a)]
  | (id', a') :: rest, id, a =>
    if id' = id then (id, a) :: rest else (id', a') :: passportsAssign rest id a

/-- The map read `projectsPassports[id]`. -/
def passportsLookup (m : List (Int × Bytes)) (id : Int) : Option Bytes :=
  (m.find? (fun kv => decide (kv.1 = id))).map Prod.snd

/-- The loop of `deployPassports`.  The projects are distinct objects, updated in place:
the result holds the projects after the call, the map, and nil or the error of the
deployment that failed. -/
def deployPassportsLoop {L : Type} (dp : PassportDeployer L) :
    List dbmodels.Project → List (Int × Bytes) → World L →
      World L × List dbmodels.Project × List (Int × Bytes) × Res Unit
  | [], projectsPassports, w => (w, [], projectsPassports, .ok ())
  | project :: rest, projectsPassports, w =>
    if project.PassportAddress ≠ "" then
      ((deployPassportsLoop dp rest projectsPassports w).1,
        project :: (deployPassportsLoop dp rest projectsPassports w).2.1,
        (deployPassportsLoop dp rest projectsPassports w).2.2)
    else
      match dp.DeployPassport (HexToAddress dp.EthereumPassportFactoryAddress) w.chain with
      | (chain₁, .error e) => ({ w with chain := chain₁ }, project :: rest, projectsPassports, .error e)
      | (chain₁, .panicked p) =>
        ({ w with chain := chain₁ }, project :: rest, projectsPassports, .panicked p)
      | (chain₁, .ok passportAddress) =>
        ((deployPassportsLoop dp rest (passportsAssign projectsPassports project.ID passportAddress)
            (({ w with chain := chain₁ } : World L).println
              ("syncToBlockchain: deployPassports - new address:  " ++
                addressHex dp.Keccak256 passportAddress))).1,
          { project with PassportAddress := addressHex dp.Keccak256 passportAddress } ::
            (deployPassportsLoop dp rest
              (passportsAssign projectsPassports project.ID passportAddress)
              (({ w with chain := chain₁ } : World L).println
                ("syncToBlockchain: deployPassports - new address:  " ++
                  addressHex dp.Keccak256 passportAddress))).2.1,
          (deployPassportsLoop dp rest
            (passportsAssign projectsPassports project.ID passportAddress)
            (({ w with chain := chain₁ } : World L).println
              ("syncToBlockchain: deployPassports - new address:  " ++
                addressHex dp.Keccak256 passportAddress))).2.2)

/-- The function `deployPassports`. -/
def deployPassports {L : Type} (dp : PassportDeployer L) (projects : List dbmodels.Project)
    (w : World L) : World L × List dbmodels.Project × List (Int × Bytes) × Res Unit :=
  deployPassportsLoop dp projects [] w

/-! ## `mth-core/web/swagger/validators/price.go`

The validators of `go-openapi/validate` and `strconv.FormatFloat` are not among the
repository sources: the comparisons follow the Go operators `<` and `>` on `float64`,
and the text of a value is a parameter. -/

/-- A `float64` value: not-a-number, an infinity, or a finite value
`± mantissa · 2 ^ exponent` (a zero of either sign is a finite value). -/
inductive Float64 where
  | nan
  | inf (negative : Bool)
  | finite (negative : Bool) (mantissa : Nat) (exponent : Int)
  deriving DecidableEq, Repr

/-- A finite value as an integer, in units of `2 ^ unit` for a `unit` not above the
exponent. -/
def Float64.scaled (negative : Bool) (mantissa : Nat) (exponent unit : Int) : Int :=
  (if negative then -1 else 1) * ((mantissa * 2 ^ (exponent - unit).toNat : Nat) : Int)

/-- The Go operator `a < b` on `float64`: false when either operand is not a number. -/
def Float64.lt : Float64 → Float64 → Bool
  | .nan, _ => false
  | _, .nan => false
  | .inf n₁, .inf n₂ => n₁ && !n₂
  | .inf n₁, .finite _ _ _ => n₁
  | .finite _ _ _, .inf n₂ => !n₂
  | .finite n₁ m₁ e₁, .finite n₂ m₂ e₂ =>
    decide (Float64.scaled n₁ m₁ e₁ (min e₁ e₂) < Float64.scaled n₂ m₂ e₂ (min e₁ e₂))

/-- The Go operator `a <= b` on `float64`: false when either operand is not a number. -/
def Float64.le : Float64 → Float64 → Bool
  | .nan, _ => false
  | _, .nan => false
  | .inf n₁, .inf n₂ => n₁ || !n₂
  | .inf n₁, .finite _ _ _ => n₁
  | .finite _ _ _, .inf n₂ => !n₂
  | .finite n₁ m₁ e₁, .finite n₂ m₂ e₂ =>
    decide (Float64.scaled n₁ m₁ e₁ (min e₁ e₂) ≤ Float64.scaled n₂ m₂ e₂ (min e₁ e₂))

namespace validators

/-- The constant `0.01` of type `float64`: the value nearest to one hundredth,
`5764607523034235 · 2 ^ -59`. -/
def oneCent : Float64 := .finite false 5764607523034235 (-59)

/-- The constant `tenMillion`. -/
def tenMillion : Float64 := .finite false 10000000 0

/-- The function `validate.Minimum(path, in, data, min, false)`: an error when
`data < min`. -/
def Minimum (data min : Float64) : Res Unit :=
  if Float64.lt data min then .error "body should be greater than or equal to the minimum"
  else .ok ()

/-- The function `validate.Maximum(path, in, data, max, false)`: an error when
`data > max`. -/
def Maximum (data max : Float64) : Res Unit :=
  if Float64.lt max data then .error "body should be less than or equal to the maximum"
  else .ok ()

/-- The loop behind `strings.LastIndex(s, ".")` on the bytes of `s`: the index of the
last occurrence of the byte at or after position `i`, or `found` when there is none. -/
def lastIndexFrom (c : Fin 256) : Bytes → Nat → Int → Int
  | [], _, found => found
  | b :: rest, i, found => lastIndexFrom c rest (i + 1) (if b = c then (i : Int) else found)

/-- The call `strings.LastIndex(s, ".")`: the index of the last dot, or -1. -/
def lastIndexDot (s : String) : Int := lastIndexFrom 46 (bytesOfString s) 0 (-1)

/-- The function `validateDigitsAfterComma`, over the text `strconv.FormatFloat(data, 'f',
-1, 64)` of the value. -/
def validateDigitsAfterComma (FormatFloat : Float64 → String) (data : Float64)
    (digitsAfterComma : Nat) : Res Unit :=
  let s := FormatFloat data
  if lastIndexDot s ≥ 0 then
    if ((bytesOfString s).length : Int) - 1 > lastIndexDot s + digitsAfterComma then
      .error ("body should match 'number with max. " ++ toString digitsAfterComma ++
        " digits after a comma'")
    else .ok ()
  else .ok ()

/-- The method `Price.Validate`. -/
def Price.Validate (FormatFloat : Float64 → String) (m : Float64) : Res Unit :=
  match Minimum m oneCent with
  | .error e => .error e
  | .panicked p => .panicked p
  | .ok _ =>
    match Maximum m tenMillion with
    | .error e => .error e
    | .panicked p => .panicked p
    | .ok _ =>
      match validateDigitsAfterComma FormatFloat m 2 with
      | .error e => .error e
      | .panicked p => .panicked p
      | .ok _ => .ok ()

end validators

/-! ## Instants of package `time` and `processing/txnprocessing/helper.go`

An instant is its Unix time in nanoseconds; the calendar fields are those of the
location UTC.  Durations are nanoseconds. -/

/-- The calendar date (year, month, day) of a day number counted from 1 January 1970, in
the proleptic Gregorian calendar of package `time`. -/
def civilFromDays (days : Int) : Int × Int × Int :=
  let z := days + 719468
  let era := z / 146097
  let doe := z - era * 146097
  let yoe := (doe - doe / 1460 + doe / 36524 - doe / 146096) / 365
  let y := yoe + era * 400
  let doy := doe - (365 * yoe + yoe / 4 - yoe / 100)
  let mp := (5 * doy + 2) / 153
  let d := doy - (153 * mp + 2) / 5 + 1
  let m := if mp < 10 then mp + 3 else mp - 9
  (if m ≤ 2 then y + 1 else y, m, d)

/-- The day number, counted from 1 January 1970, of a calendar date. -/
def daysFromCivil (year month day : Int) : Int :=
  let y := if month ≤ 2 then year - 1 else year
  let era := y / 400
  let yoe := y - era * 400
  let doy := (153 * (if month > 2 then month - 3 else month + 9) + 2) / 5 + day - 1
  let doe := yoe * 365 + yoe / 4 - yoe / 100 + doy
  era * 146097 + doe - 719468

namespace Time

/-- The Unix time of an instant in whole seconds. -/
def Unix (t : Int) : Int := t / 1000000000

/-- The method `Time.Year` in UTC. -/
def Year (t : Int) : Int := (civilFromDays (Unix t / 86400)).1

/-- The method `Time.Month` in UTC. -/
def Month (t : Int) : Int := (civilFromDays (Unix t / 86400)).2.1

/-- The method `Time.Day` in UTC. -/
def Day (t : Int) : Int := (civilFromDays (Unix t / 86400)).2.2

/-- The method `Time.Hour` in UTC. -/
def Hour (t : Int) : Int := Unix t % 86400 / 3600

/-- The method `Time.Minute`. -/
def Minute (t : Int) : Int := Unix t % 3600 / 60

/-- The method `Time.Second`. -/
def Second (t : Int) : Int := Unix t % 60

/-- The function `time.Date(year, month, day, hour, min, sec, nsec, time.UTC)`. -/
def Date (year month day hour min sec nsec : Int) : Int :=
  (daysFromCivil year month day * 86400 + hour * 3600 + min * 60 + sec) * 1000000000 + nsec

/-- The method `Time.Add`. -/
def Add (t d : Int) : Int := t + d

/-- The method `Time.Truncate` for a positive duration (instants are counted from the
zero time, which is a whole number of minutes before the Unix epoch). -/
def Truncate (t d : Int) : Int := t / d * d

end Time

/-- The duration `time.Second`. -/
def timeSecond : Int := 1000000000

/-- The duration `time.Minute`. -/
def timeMinute : Int := 60 * timeSecond

/-- The function `getTxnProcessRunAt`. -/
def getTxnProcessRunAt (now : Int) : Int :=
  Time.Add
    (Time.Date (Time.Year now) (Time.Month now) (Time.Day now) (Time.Hour now)
      (Time.Minute now) (Time.Second now) 0)
    (30 * timeSecond)

/-! ## Sample data -/

/-- A case table for the examples: the Latin-1 part of the Unicode table, which maps the
capital letters from `À` (192) to `Þ` (222), the sign `×` (215) apart, to the letter 32
places further; the other characters are left as they are. -/
def sampleCaseTable : Char → Char := fun c =>
  if 192 ≤ c.toNat ∧ c.toNat ≤ 222 ∧ c.toNat ≠ 215 then Char.ofNat (c.toNat + 32) else c

/-- A user of the update source whose account and whose mentoree's account hold capital
letters beyond ASCII. -/
def userOfLatinAccount : mosolyapi.User :=
  { ID := 9, InviteURLHash := "invite", Account := "ÀB", Validated := true, JoinedAt := 0,
    UpdatedAt := 5, CreatedAt := 0,
    Mentorees := [{ UserID := 2, CustomNameForMentor := "", Account := "0xÉf",
                    Validated := true, MentorshipStarted := 0 }],
    Mentors := [] }

/-- A sample hash: thirty zero bytes followed by `0x0a 0xbc`. -/
def sampleHash : Hash := ⟨List.replicate 30 0 ++ [0x0a, 0xbc], by decide⟩

/-- A transaction of a block whose status pointer is nil. -/
def txWithoutStatus : Transaction := { Hash := sampleHash, Status := none }

/-- A successful transaction with the sample hash. -/
def txSuccessful : Transaction := { Hash := sampleHash, Status := some TransactionSuccessful }

/-- A transaction with the sample hash whose status is neither successful nor failed. -/
def txOtherStatus : Transaction := { Hash := sampleHash, Status := some ⟨2⟩ }

/-- Block number 100 holding one successful transaction, whose hash is the sample hash. -/
def block100 : Block := { Number := 100, Transactions := [some txSuccessful] }

/-- A transaction row in progress that carries the sample hash. -/
def sampleRow : TransactionRow :=
  { id := 7, created := 10, updated := 10, modified_by := "mosoly-txnprocessing",
    transaction_hash := sampleHash.String, transaction_state_id := TxnInProgress }

/-- A user of the update source with id 1 whose only mentoree is user 2. -/
def mentorOfTwo : mosolyapi.User :=
  { ID := 1, InviteURLHash := "invite", Account := "0xAA", Validated := true, JoinedAt := 0,
    UpdatedAt := 5, CreatedAt := 0,
    Mentorees := [{ UserID := 2, CustomNameForMentor := "", Account := "0xBB", Validated := true,
                    MentorshipStarted := 0 }],
    Mentors := [] }

/-- A user of the update source with id 2, without mentorees. -/
def mentoreeTwo : mosolyapi.User :=
  { ID := 2, InviteURLHash := "invite2", Account := "0xBB", Validated := true, JoinedAt := 0,
    UpdatedAt := 6, CreatedAt := 0, Mentorees := [],
    Mentors := [{ UserID := 1, Account := "0xAA", MentorshipStarted := 0 }] }

/-- A user of the update source with id 3 whose only mentoree is user 1. -/
def mentorOfOne : mosolyapi.User :=
  { ID := 3, InviteURLHash := "invite3", Account := "0xCC", Validated := false, JoinedAt := 0,
    UpdatedAt := 7, CreatedAt := 0,
    Mentorees := [{ UserID := 1, CustomNameForMentor := "", Account := "0xAA", Validated := true,
                    MentorshipStarted := 0 }],
    Mentors := [] }

/-- Two projects with provisioned passports. -/
def sampleProjects : List dbmodels.Project :=
  [{ ID := 1, Name := "X", UpdatedAt := 1, PassportAddress := "0x11" },
   { ID := 2, Name := "Y", UpdatedAt := 2, PassportAddress := "0x22" }]

/-- A ledger client on which every read finds nothing and the successive writes end as
the list says (a write beyond the list succeeds with the sample hash). -/
def scriptedLedger : FactProviderContext (List (Res Hash)) where
  address := []
  ReadTxData := fun _ _ _ l => (l, .notFound)
  WriteTxData := fun _ _ _ l => (l.tail, l.headD (.ok sampleHash))

/-- The scripted ledger with a JSON library and a hash function that are never consulted
for a result (nothing is ever read back). -/
def sampleDeps : Deps (List (Res Hash)) where
  ctx := scriptedLedger
  json :=
    { Marshal := fun _ => []
      UnmarshalProject := fun _ o => (o, none)
      UnmarshalMentor := fun _ o => (o, none)
      UnmarshalUser := fun _ o => (o, none) }
  Keccak256 := fun b => b
  AppMosolyDidAddress := "0x01"

/-- A world in which the first ledger write fails and the database has no rows. -/
def worldFirstWriteFails : World (List (Res Hash)) :=
  { chain := [.error "rpc: connection reset"],
    db := { store := { transactions := [], user_data := [], project_data := [],
                       mentorship := [], ethereum_blockchain := [],
                       transactions_id_seq := 0 },
            script := [] },
    log := [] }

/-- A store without rows. -/
def emptyStore : Store :=
  { transactions := [], user_data := [], project_data := [], mentorship := [],
    ethereum_blockchain := [], transactions_id_seq := 0 }

/-- A store with no rows but the cursor row, holding `c`. -/
def storeWithCursor (c : Nat) : Store :=
  { transactions := [], user_data := [], project_data := [], mentorship := [],
    ethereum_blockchain := [{ id := 1, latest_processed_block_number := c }],
    transactions_id_seq := 0 }

/-- A block without transactions. -/
def emptyBlock (n : Int) : Block := { Number := n, Transactions := [] }

/-- A statement the server executes (at instant 0). -/
def executed : Step := { err := none, now := 0 }

/-- A statement on which the driver reports a lost connection. -/
def connectionLost : Step := { err := some "driver: bad connection", now := 0 }

/-- A store whose only row is the sample row, referenced by no other row. -/
def sampleStore : Store :=
  { transactions := [sampleRow], user_data := [], project_data := [], mentorship := [],
    ethereum_blockchain := [], transactions_id_seq := 7 }

/-- A ledger client that keeps what is written, latest first, as triples of passport,
key and data; a write is visible to the next read and succeeds with the sample hash. -/
def storageLedger : FactProviderContext (List (Bytes × Bytes × Bytes)) where
  address := []
  ReadTxData := fun p _ k st =>
    (st, match st.find? (fun e => decide (e.1 = p ∧ e.2.1 = k)) with
         | some e => .data e.2.2
         | none => .notFound)
  WriteTxData := fun p k b st => ((p, k, b) :: st, .ok sampleHash)

/-- The storage ledger with the JSON library over the text layer of the examples; the
identity stands in for the hash function. -/
def storageDeps : Deps (List (Bytes × Bytes × Bytes)) where
  ctx := storageLedger
  json := goJson asciiJson
  Keccak256 := fun b => b
  AppMosolyDidAddress := "0x01"

/-- The project fact with name `X`. -/
def factNamedX : mosolyapi.BlockchainFact :=
  { Schema := projectSchemaURL, Payload := some (.project { Name := "X" }) }

/-- A project named `X` with passport `0x11`. -/
def projectX : dbmodels.Project :=
  { ID := 1, Name := "X", UpdatedAt := 1, PassportAddress := "0x11" }

/-- A ledger on which the passport of project `X` holds the fact with name `X`. -/
def chainWithX : List (Bytes × Bytes × Bytes) :=
  [(HexToAddress "0x11", projectKey, (goJson asciiJson).Marshal factNamedX)]

/-- A user without mentors: the transformed user 1 of the examples. -/
def userWithoutMentors : dbmodels.User := TransformUser sampleCaseTable mentorOfTwo

/-- A baseline with the fields of the user without mentors and a nil mentor list, as
decoded from a payload whose `mentors` is `null` or missing. -/
def baselineNilMentors : mosolyapi.BlockchainUserFact :=
  { BlockchainFact := { Schema := userSchemaURL, Payload := none },
    Payload := { InviteURLHash := "invite", Account := "0xaa", Validated := true,
                 Mentors := none } }

/-- The mentor-list fact with the single mentoree `0xaa`. -/
def factMentoreesAA : mosolyapi.BlockchainFact :=
  { Schema := mentoreesSchemaURL, Payload := some (.mentor (some ["0xaa"])) }

/-- A user without mentorees: the transformed user 2 of the examples. -/
def userWithoutMentorees : dbmodels.User := TransformUser sampleCaseTable mentoreeTwo

/-- A ledger on which the identity contract holds, under the mentor-list key of the user
without mentorees, the list with the single mentoree `0xaa`. -/
def chainWithMentorees : List (Bytes × Bytes × Bytes) :=
  [(HexToAddress "0x01", getMentorFactKeyBytes (fun b => b) "0xbb",
    (goJson asciiJson).Marshal factMentoreesAA)]

/-- A second hash: thirty zero bytes followed by `0x0a 0xbd`. -/
def secondHash : Hash := ⟨List.replicate 30 0 ++ [0x0a, 0xbd], by decide⟩

/-- A store holding the row of user 1 and the mentorship row of user 1 with user 2, with
no transaction linked. -/
def storeOfUserOne : Store :=
  { transactions := [],
    user_data := [{ id := 1, invite_url_hash := "invite", account := "0xaa", updated_at := 5,
                    validated := true, transaction_id := none }],
    project_data := [],
    mentorship := [{ user_id := 1, mentoree_id := 2, transaction_id := none }],
    ethereum_blockchain := [], transactions_id_seq := 0 }

/-- A world on the scripted ledger in which the two writes to come succeed, with the
sample hash and with the second hash, the calls on the ledger are recorded, and the
database holds user 1. -/
def worldOfUserOne : World (List (Res Hash) × List LedgerCall) :=
  { chain := ([.ok sampleHash, .ok secondHash], []),
    db := { store := storeOfUserOne, script := [] },
    log := [] }

/-- The user fact of user 1 of the examples. -/
def factOfUserOne : mosolyapi.BlockchainFact :=
  { Schema := userSchemaURL,
    Payload := some (.user { InviteURLHash := "invite", Account := "0xaa", Validated := true,
                             Mentors := some [] }) }

/-- A world on the storage ledger in which the identity contract holds, under the key of
user 1, the text written for the user fact of user 1, and the database holds user 1. -/
def worldAfterWrite : World (List (Bytes × Bytes × Bytes)) :=
  { chain := [(HexToAddress "0x01", getBytesFromHexAddress "0xaa",
      (goJson asciiJson).Marshal factOfUserOne)],
    db := { store := storeOfUserOne, script := [] },
    log := [] }

/-- A store with four transactions — in progress, failed, successful and linked to user 1,
successful and linked to nothing — and the row of user 1. -/
def storeOfFourTransactions : Store :=
  { transactions :=
      [{ id := 1, created := 0, updated := 0, modified_by := "mosoly-txnprocessing",
         transaction_hash := "0x01", transaction_state_id := TxnInProgress },
       { id := 2, created := 0, updated := 1, modified_by := "mosoly-txnvalidating",
         transaction_hash := "0x02", transaction_state_id := TxnFailed },
       { id := 3, created := 0, updated := 1, modified_by := "mosoly-txnvalidating",
         transaction_hash := "0x03", transaction_state_id := TxnSuccessful },
       { id := 4, created := 0, updated := 1, modified_by := "mosoly-txnvalidating",
         transaction_hash := "0x04", transaction_state_id := TxnSuccessful }],
    user_data := [{ id := 1, invite_url_hash := "invite", account := "0xaa", updated_at := 5,
                    validated := true, transaction_id := some 3 }],
    project_data := [], mentorship := [], ethereum_blockchain := [],
    transactions_id_seq := 4 }

/-- An invalidation function that succeeds and has no effect, as in the test of the
list. -/
def testInvalidateFunc : String → Unit → Unit × Option String := fun _ env => (env, none)

/-- The list of the test: new, with an interval of one millisecond. -/
def testList : authutils.InvalidationList Unit := authutils.newInvalidationList (some 1000000)

/-- The list of the test after `InvalidateTokenAfter(testToken, testNewToken, -time.Hour,
testInvalidateFunc)` at the instant 0. -/
def testListWithToken : authutils.InvalidationList Unit :=
  testList.InvalidateTokenAfter "test_token" "test_new_token" (-3600000000000)
    testInvalidateFunc 0

/-- A store in which user 1 has a row and mentorship rows for the mentorees 2 and 3, and
user 5 has a row and a mentorship row for the mentoree 6. -/
def storeOfTwoMentorees : Store :=
  { transactions := [],
    user_data := [{ id := 1, invite_url_hash := "invite", account := "0xaa", updated_at := 4,
                    validated := true, transaction_id := none },
                  { id := 5, invite_url_hash := "invite5", account := "0xee", updated_at := 4,
                    validated := true, transaction_id := none }],
    project_data := [],
    mentorship := [{ user_id := 1, mentoree_id := 2, transaction_id := none },
                   { user_id := 5, mentoree_id := 6, transaction_id := none },
                   { user_id := 1, mentoree_id := 3, transaction_id := none }],
    ethereum_blockchain := [], transactions_id_seq := 0 }

/-- A passport address: nineteen zero bytes followed by `0xa1`. -/
def passportA : Bytes := List.replicate 19 0 ++ [0xa1]

/-- A passport address: nineteen zero bytes followed by `0xb2`. -/
def passportB : Bytes := List.replicate 19 0 ++ [0xb2]

/-- A deployer whose successive deployments end as the list says (a deployment beyond the
list succeeds with the address `passportA`); the identity stands in for the hash
function. -/
def scriptedDeployer : PassportDeployer (List (Res Bytes)) where
  DeployPassport := fun _ l => (l.tail, l.headD (.ok passportA))
  Keccak256 := fun b => b
  EthereumPassportFactoryAddress := "0x0f"

/-- A world of the recording scripted deployer in which the two deployments to come give
`passportA` and `passportB`. -/
def worldOfTwoDeployments : World (List (Res Bytes) × List (Res Bytes)) :=
  { chain := ([.ok passportA, .ok passportB], []),
    db := { store := emptyStore, script := [] },
    log := [] }

/-- Project 1 without passport and project 2 with the passport `0x22`. -/
def projectsOneUnprovisioned : List dbmodels.Project :=
  [{ ID := 1, Name := "X", UpdatedAt := 1, PassportAddress := "" },
   { ID := 2, Name := "Y", UpdatedAt := 2, PassportAddress := "0x22" }]

/-- Two projects without passport that carry the same id. -/
def projectsSameID : List dbmodels.Project :=
  [{ ID := 1, Name := "X", UpdatedAt := 1, PassportAddress := "" },
   { ID := 1, Name := "Y", UpdatedAt := 2, PassportAddress := "" }]

/-! ## A text of `float64` values for the examples

The shortest decimal text that reads back as the value, in the format `'f'`: what
`strconv.FormatFloat(x, 'f', -1, 64)` writes. -/

namespace shortest

/-- The decimal digits of a number, the last digit first (none for zero). -/
def digitsReversed : Nat → Nat → List Char
  | 0, _ => []
  | fuel + 1, n => if n = 0 then [] else hexDigit (n % 10) :: digitsReversed fuel (n / 10)

/-- The decimal text of a number. -/
def decimal (n : Nat) : String :=
  if n = 0 then "0" else String.mk (digitsReversed 400 n).reverse

/-- The number of bits of a number. -/
def bitLength : Nat → Nat → Nat
  | 0, _ => 0
  | fuel + 1, n => if n = 0 then 0 else bitLength fuel (n / 2) + 1

/-- The mantissa and exponent of a finite non-zero value as the `float64` format holds
them: the mantissa has 53 bits, or the exponent is the least one. -/
def canonical (m : Nat) (e : Int) : Nat × Int :=
  (m * 2 ^ min (53 - bitLength 64 m) (e + 1074).toNat,
    e - (min (53 - bitLength 64 m) (e + 1074).toNat : Nat))

/-- The number `d · 10 ^ k`, scaled to be compared with a number `v · 2 ^ e`. -/
def decimalSide (d : Nat) (k e : Int) : Nat := d * 10 ^ k.toNat * 2 ^ (-e).toNat

/-- The number `v · 2 ^ e`, scaled to be compared with a number `d · 10 ^ k`. -/
def binarySide (v : Nat) (k e : Int) : Nat := v * 2 ^ e.toNat * 10 ^ (-k).toNat

/-- The integer part of `v · 2 ^ e / 10 ^ k`. -/
def quotient (v : Nat) (k e : Int) : Nat :=
  binarySide v k e / (10 ^ k.toNat * 2 ^ (-e).toNat)

/-- For a value below one, minus the position of its first digit after the point. -/
def firstDigitBelowOne (v : Nat) (e : Int) : Nat → Nat → Int
  | 0, j => -(j : Int)
  | fuel + 1, j =>
    if quotient v (-(j : Int)) e ≥ 1 then -(j : Int) else firstDigitBelowOne v e fuel (j + 1)

/-- The decimal exponent of the first digit of `v · 2 ^ e`. -/
def firstDigit (v : Nat) (e : Int) : Int :=
  if quotient v 0 e ≥ 1 then ((decimal (quotient v 0 e)).length : Int) - 1
  else firstDigitBelowOne v e 400 1

/-- Whether `d · 10 ^ k` lies between `lo · 2 ^ e` and `hi · 2 ^ e`, the ends included
when `inclusive`. -/
def between (lo hi : Nat) (inclusive : Bool) (e k : Int) (d : Nat) : Bool :=
  if inclusive then
    decide (binarySide lo k e ≤ decimalSide d k e) && decide (decimalSide d k e ≤ binarySide hi k e)
  else
    decide (binarySide lo k e < decimalSide d k e) && decide (decimalSide d k e < binarySide hi k e)

/-- The decimal with `n` digits nearest to `x · 2 ^ e` among those between the bounds, if
there is one: its digits as a number, and its decimal exponent. -/
def withDigits (x lo hi : Nat) (inclusive : Bool) (e first : Int) (n : Nat) :
    Option (Nat × Int) :=
  let k := first - n + 1
  let down := quotient x k e
  let up := down + 1
  let okDown := between lo hi inclusive e k down
  let okUp := between lo hi inclusive e k up
  let upNearer :=
    decide (decimalSide down k e + decimalSide up k e < 2 * binarySide x k e) ||
    (decide (decimalSide down k e + decimalSide up k e = 2 * binarySide x k e) &&
      decide (down % 2 = 1))
  if okDown && okUp then some (if upNearer then up else down, k)
  else if okDown then some (down, k)
  else if okUp then some (up, k)
  else none

/-- The shortest decimal between the bounds: the least number of digits is tried first. -/
def search (x lo hi : Nat) (inclusive : Bool) (e first : Int) : Nat → Nat → Nat × Int
  | 0, n => (quotient x (first - n + 1) e, first - n + 1)
  | fuel + 1, n =>
    match withDigits x lo hi inclusive e first n with
    | some r => r
    | none => search x lo hi inclusive e first fuel (n + 1)

/-- A decimal without zeros at its end. -/
def stripZeros : Nat → Nat × Int → Nat × Int
  | 0, r => r
  | fuel + 1, (d, k) => if d ≠ 0 ∧ d % 10 = 0 then stripZeros fuel (d / 10, k + 1) else (d, k)

/-- The text of `d · 10 ^ k` in the format `'f'`. -/
def text (d : Nat) (k : Int) : String :=
  if k ≥ 0 then decimal d ++ String.mk (List.replicate k.toNat '0')
  else
    decimal (d / 10 ^ (-k).toNat) ++ "." ++
      String.mk (List.replicate ((-k).toNat - (decimal (d % 10 ^ (-k).toNat)).length) '0') ++
      decimal (d % 10 ^ (-k).toNat)

/-- The shortest text of a finite positive value `m · 2 ^ e`.  The bounds are the middles
between the value and its neighbours, counted in quarters of the last binary place. -/
def positive (m : Nat) (e : Int) : String :=
  let c := canonical m e
  let x := 4 * c.1
  let lo := if c.1 = 2 ^ 52 ∧ c.2 > -1074 then 4 * c.1 - 1 else 4 * c.1 - 2
  let hi := 4 * c.1 + 2
  let r := stripZeros 400
    (search x lo hi (decide (c.1 % 2 = 0)) (c.2 - 2) (firstDigit x (c.2 - 2)) 17 1)
  text r.1 r.2

end shortest

/-- The text `strconv.FormatFloat(x, 'f', -1, 64)` of a value. -/
def shortestText : Float64 → String
  | .nan => "NaN"
  | .inf false => "+Inf"
  | .inf true => "-Inf"
  | .finite negative m e =>
    (if negative then "-" else "") ++ (if m = 0 then "0" else shortest.positive m e)

/-- The world `worldOfUserOne` on a server that executes the next statement and loses the
connection on the one after it. -/
def worldOfLostLink : World (List (Res Hash) × List LedgerCall) :=
  { chain := ([.ok sampleHash, .ok secondHash], []),
    db := { store := storeOfUserOne, script := [executed, connectionLost] },
    log := [] }

end LedgerBridge

/-! # Properties -/

namespace LedgerBridge

open TxnValidating

/-! ## `getTxHashesByStatus` -/

theorem mapAssign_keys (m : transactionsByHash) (k : String) (v : Transaction) :
    (mapAssign m k v).map Prod.fst =
      if k ∈ m.map Prod.fst then m.map Prod.fst else m.map Prod.fst ++ [k] := by
  induction m with
  | nil => simp [mapAssign]
  | cons kv rest ih =>
    obtain ⟨k', v'⟩ := kv
    by_cases hk : k' = k
    · subst hk; simp [mapAssign]
    · have hk' : ¬ k = k' := fun h => hk h.symm
      by_cases hin : k ∈ rest.map Prod.fst
      · simp only [mapAssign, if_neg hk, List.map_cons, ih, if_pos hin]
        simp [hin]
      · simp only [mapAssign, if_neg hk, List.map_cons, ih, if_neg hin]
        have : ¬ k ∈ k' :: rest.map Prod.fst := by
          simp only [List.mem_cons, not_or]; exact ⟨hk', hin⟩
        simp [this]

theorem mapAssign_mem_keys (m : transactionsByHash) (k : String) (v : Transaction) (x : String) :
    x ∈ (mapAssign m k v).map Prod.fst ↔ x ∈ m.map Prod.fst ∨ x = k := by
  rw [mapAssign_keys]
  by_cases hin : k ∈ m.map Prod.fst
  · rw [if_pos hin]
    constructor
    · intro h; exact Or.inl h
    · rintro (h | h)
      · exact h
      · subst h; exact hin
  · rw [if_neg hin]; simp

theorem mapAssign_nodup (m : transactionsByHash) (k : String) (v : Transaction)
    (h : (m.map Prod.fst).Nodup) : ((mapAssign m k v).map Prod.fst).Nodup := by
  rw [mapAssign_keys]
  by_cases hin : k ∈ m.map Prod.fst
  · rw [if_pos hin]; exact h
  · rw [if_neg hin]
    exact List.Nodup.append h (List.nodup_singleton k) (by
      intro a ha hb
      rw [List.mem_singleton] at hb
      subst hb; exact hin ha)

/-- On a list in which every transaction carries a status the first loop returns a
map whose keys are the old keys and the lower-case hashes of the matching transactions. -/
theorem collectByStatus_ok (status : TransactionStatus) (txs : List (Option Transaction)) :
    ∀ m : transactionsByHash, (∀ tx, some tx ∈ txs → tx.Status ≠ none) →
      ∃ m', collectByStatus status txs m = .ok m' ∧
        (∀ k, k ∈ m'.map Prod.fst ↔ k ∈ m.map Prod.fst ∨
          ∃ tx, some tx ∈ txs ∧ tx.Status = some status ∧ k = ToLower tx.Hash.Hex) ∧
        ((m.map Prod.fst).Nodup → (m'.map Prod.fst).Nodup) := by
  induction txs with
  | nil =>
    intro m _
    exact ⟨m, rfl, by simp, fun h => h⟩
  | cons x rest ih =>
    intro m hwf
    have hrest : ∀ tx, some tx ∈ rest → tx.Status ≠ none :=
      fun tx h => hwf tx (List.mem_cons_of_mem _ h)
    cases x with
    | none =>
      obtain ⟨m', h1, h2, h3⟩ := ih m hrest
      refine ⟨m', by simpa [collectByStatus] using h1, ?_, h3⟩
      intro k; rw [h2 k]; simp
    | some tx =>
      cases hst : tx.Status with
      | none => exact absurd hst (hwf tx (List.mem_cons_self _ _))
      | some st =>
        by_cases heq : st = status
        · obtain ⟨m', h1, h2, h3⟩ := ih (mapAssign m (ToLower tx.Hash.Hex) tx) hrest
          refine ⟨m', by simp [collectByStatus, hst, heq, h1], ?_, ?_⟩
          · intro k
            rw [h2 k, mapAssign_mem_keys]
            constructor
            · rintro ((h | h) | ⟨tx', hmem, hs, hk⟩)
              · exact Or.inl h
              · exact Or.inr ⟨tx, List.mem_cons_self _ _, by rw [hst, heq], h⟩
              · exact Or.inr ⟨tx', List.mem_cons_of_mem _ hmem, hs, hk⟩
            · rintro (h | ⟨tx', hmem, hs, hk⟩)
              · exact Or.inl (Or.inl h)
              · rcases List.mem_cons.1 hmem with h | h
                · have : tx' = tx := Option.some.inj h
                  subst this
                  exact Or.inl (Or.inr hk)
                · exact Or.inr ⟨tx', h, hs, hk⟩
          · intro hnd
            exact h3 (mapAssign_nodup m _ tx hnd)
        · obtain ⟨m', h1, h2, h3⟩ := ih m hrest
          refine ⟨m', by simp [collectByStatus, hst, heq, h1], ?_, h3⟩
          intro k
          rw [h2 k]
          constructor
          · rintro (h | ⟨tx', hmem, hs, hk⟩)
            · exact Or.inl h
            · exact Or.inr ⟨tx', List.mem_cons_of_mem _ hmem, hs, hk⟩
          · rintro (h | ⟨tx', hmem, hs, hk⟩)
            · exact Or.inl h
            · rcases List.mem_cons.1 hmem with h | h
              · have : tx' = tx := Option.some.inj h
                subst this
                rw [hst] at hs
                exact absurd (Option.some.inj hs) heq
              · exact Or.inr ⟨tx', h, hs, hk⟩

/-- A transaction whose status differs from the requested one leaves the first loop
as if it were not in the list. -/
theorem collectByStatus_skip (status : TransactionStatus) (tx : Transaction)
    (hne : tx.Status ≠ some status) (hsome : tx.Status ≠ none)
    (pre post : List (Option Transaction)) :
    ∀ m : transactionsByHash, collectByStatus status (pre ++ some tx :: post) m =
      collectByStatus status (pre ++ post) m := by
  induction pre with
  | nil =>
    intro m
    cases hst : tx.Status with
    | none => exact absurd hst hsome
    | some st =>
      have : ¬ st = status := fun h => hne (by rw [hst, h])
      simp [collectByStatus, hst, this]
  | cons x rest ih =>
    intro m
    cases x with
    | none => simpa [collectByStatus] using ih m
    | some tx' =>
      cases hst : tx'.Status with
      | none => simp [collectByStatus, hst]
      | some st =>
        by_cases heq : st = status
        · simp [collectByStatus, hst, heq, ih]
        · simp [collectByStatus, hst, heq, ih]

/-- C6 (as amended): on every transaction list in which each non-nil transaction carries
a status, `getTxHashesByStatus` returns a list that contains a string exactly when some
transaction of the list has the requested status and the string is the lower-case hex
form of its hash; the list has no duplicates; and a transaction whose status is neither
successful nor failed contributes to neither the successful nor the failed hashes (both
are what they would be without it). -/
theorem getTxHashesByStatus_spec (txs : List (Option Transaction)) (status : TransactionStatus)
    (hwf : ∀ tx, some tx ∈ txs → tx.Status ≠ none) :
    ∃ keys, getTxHashesByStatus txs status = .ok keys ∧
      (∀ h, h ∈ keys ↔
        ∃ tx, some tx ∈ txs ∧ tx.Status = some status ∧ h = ToLower tx.Hash.Hex) ∧
      keys.Nodup ∧
      (∀ pre tx post, txs = pre ++ some tx :: post →
        tx.Status ≠ some TransactionSuccessful → tx.Status ≠ some TransactionFailed →
        getTxHashesByStatus txs TransactionSuccessful =
            getTxHashesByStatus (pre ++ post) TransactionSuccessful ∧
          getTxHashesByStatus txs TransactionFailed =
            getTxHashesByStatus (pre ++ post) TransactionFailed) := by
  obtain ⟨m', h1, h2, h3⟩ := collectByStatus_ok status txs [] hwf
  refine ⟨m'.map Prod.fst, by simp [getTxHashesByStatus, h1], ?_, h3 List.nodup_nil, ?_⟩
  · intro h
    rw [h2 h]
    simp
  · intro pre tx post htxs hs hf
    have hsome : tx.Status ≠ none := hwf tx (by rw [htxs]; simp)
    subst htxs
    constructor
    · simp only [getTxHashesByStatus, collectByStatus_skip _ tx hs hsome pre post []]
    · simp only [getTxHashesByStatus, collectByStatus_skip _ tx hf hsome pre post []]

/-- C6, witness: the amended statement applied to a block with a successful transaction,
a nil entry and a transaction of another status. -/
theorem getTxHashesByStatus_spec_witness :
    ∃ keys, getTxHashesByStatus [some txSuccessful, none, some txOtherStatus]
        TransactionSuccessful = .ok keys ∧
      (∀ h, h ∈ keys ↔
        ∃ tx, some tx ∈ [some txSuccessful, none, some txOtherStatus] ∧
          tx.Status = some TransactionSuccessful ∧ h = ToLower tx.Hash.Hex) ∧
      keys.Nodup ∧
      (∀ pre tx post, [some txSuccessful, none, some txOtherStatus] = pre ++ some tx :: post →
        tx.Status ≠ some TransactionSuccessful → tx.Status ≠ some TransactionFailed →
        getTxHashesByStatus [some txSuccessful, none, some txOtherStatus] TransactionSuccessful =
            getTxHashesByStatus (pre ++ post) TransactionSuccessful ∧
          getTxHashesByStatus [some txSuccessful, none, some txOtherStatus] TransactionFailed =
            getTxHashesByStatus (pre ++ post) TransactionFailed) :=
  getTxHashesByStatus_spec [some txSuccessful, none, some txOtherStatus] TransactionSuccessful
    (by
      intro tx htx
      simp only [List.mem_cons, Option.some.injEq, List.mem_singleton, List.not_mem_nil,
        or_false] at htx
      rcases htx with h | h | h
      · subst h; simp [txSuccessful]
      · exact absurd h (by simp)
      · subst h; simp [txOtherStatus])

/-- C6, counterexample: on a list holding a transaction whose status pointer is nil
`getTxHashesByStatus` panics on the dereference and returns no list at all. -/
theorem getTxHashesByStatus_nil_status_panics :
    getTxHashesByStatus [some txWithoutStatus] TransactionSuccessful = .panicked nilDeref ∧
      ¬ ∃ keys, getTxHashesByStatus [some txWithoutStatus] TransactionSuccessful = .ok keys := by
  have h : getTxHashesByStatus [some txWithoutStatus] TransactionSuccessful
      = .panicked nilDeref := rfl
  refine ⟨h, ?_⟩
  rintro ⟨keys, hk⟩
  rw [h] at hk
  exact Res.noConfusion hk

/-! ## The status update -/

theorem forall₂_rel_trans {α : Type} {R : α → α → Prop}
    (htrans : ∀ a b c, R a b → R b c → R a c) :
    ∀ l₁ l₂ l₃ : List α, List.Forall₂ R l₁ l₂ → List.Forall₂ R l₂ l₃ → List.Forall₂ R l₁ l₃ := by
  intro l₁ l₂ l₃ h₁
  induction h₁ generalizing l₃ with
  | nil => intro h₂; cases h₂; exact List.Forall₂.nil
  | cons hab _ ih =>
    intro h₂
    cases h₂ with
    | cons hbc hrest => exact List.Forall₂.cons (htrans _ _ _ hab hbc) (ih _ hrest)

theorem forall₂_map_self {α : Type} {R : α → α → Prop} (f : α → α) (h : ∀ a, R a (f a)) :
    ∀ l : List α, List.Forall₂ R l (l.map f) := by
  intro l
  induction l with
  | nil => exact List.Forall₂.nil
  | cons a rest ih => exact List.Forall₂.cons (h a) ih

/-- The relation between a row before and after: `after.finalizedFrom before`. -/
theorem finalizedFrom_refl (r : TransactionRow) : r.finalizedFrom r :=
  ⟨fun _ => rfl, fun h => absurd rfl h⟩

theorem finalizedFrom_trans (a b c : TransactionRow)
    (hab : b.finalizedFrom a) (hbc : c.finalizedFrom b) : c.finalizedFrom a := by
  obtain ⟨hab1, hab2⟩ := hab
  obtain ⟨hbc1, hbc2⟩ := hbc
  constructor
  · intro ha
    have hb : b = a := hab1 ha
    subst hb
    exact hbc1 ha
  · intro hne
    by_cases hba : b.transaction_state_id = a.transaction_state_id
    · have := hbc2 (by rw [hba]; exact hne)
      rw [hba] at this
      exact this
    · obtain ⟨ha, hb⟩ := hab2 hba
      have hcb : c = b := hbc1 hb
      subst hcb
      exact ⟨ha, hb⟩

theorem finalizes_refl (st : Store) : finalizes st st := by
  refine ⟨?_, rfl, rfl, rfl, rfl⟩
  have h := forall₂_map_self (fun r : TransactionRow => r) (fun a => finalizedFrom_refl a)
    st.transactions
  simpa using h

theorem finalizes_trans (a b c : Store) (hab : finalizes a b) (hbc : finalizes b c) :
    finalizes a c := by
  obtain ⟨h1, h2, h3, h4, h5⟩ := hab
  obtain ⟨k1, k2, k3, k4, k5⟩ := hbc
  exact ⟨forall₂_rel_trans (fun x y z hxy hyz => finalizedFrom_trans x y z hxy hyz) _ _ _ h1 k1,
    k2.trans h2, k3.trans h3, k4.trans h4, k5.trans h5⟩

theorem updateTxnsStatus_finalizes (st : Store) (txHashes : List String) (status : Int)
    (auditName : String) (now : Nat) (hstatus : status = TxnSuccessful ∨ status = TxnFailed) :
    finalizes st (st.updateTxnsStatus txHashes status auditName now) := by
  refine ⟨?_, rfl, rfl, rfl, rfl⟩
  apply forall₂_map_self
  intro r
  unfold updateRow
  by_cases hsel : inProgressWithHash txHashes r = true
  · rw [if_pos hsel]
    have hip : r.transaction_state_id = TxnInProgress := by
      simp only [inProgressWithHash, Bool.and_eq_true, decide_eq_true_eq] at hsel
      exact hsel.1
    constructor
    · intro h
      rw [hip] at h
      rcases h with h | h
      · exact absurd h (by decide)
      · exact absurd h (by decide)
    · intro _
      exact ⟨hip, hstatus⟩
  · rw [if_neg hsel]
    exact finalizedFrom_refl r

/-- Whatever the server does, `UpdateTxnsStatus` to a final status only finalizes. -/
theorem UpdateTxnsStatus_finalizes (txHashes : List String) (status : Int) (auditName : String)
    (s : Session) (hstatus : status = TxnSuccessful ∨ status = TxnFailed) :
    finalizes s.store (UpdateTxnsStatus txHashes status auditName s).1.store := by
  unfold UpdateTxnsStatus
  split
  · exact finalizes_refl _
  · split
    · exact finalizes_refl _
    · exact updateTxnsStatus_finalizes _ _ _ _ _ hstatus

theorem guardedUpdate_finalizes (txHashes : List String) (status : Int) (s : Session)
    (hstatus : status = TxnSuccessful ∨ status = TxnFailed) (s' : Session) (res : Res Unit)
    (h : (if txHashes.length > 0 then
        sqlRepository.UpdateTxnsStatus txHashes status GetAuditName s else (s, .ok ())) = (s', res)) :
    finalizes s.store s'.store := by
  have hs : s' = (if txHashes.length > 0 then
        sqlRepository.UpdateTxnsStatus txHashes status GetAuditName s else (s, .ok ())).1 := by
    rw [h]
  rw [hs]
  split
  · exact UpdateTxnsStatus_finalizes _ _ _ _ hstatus
  · exact finalizes_refl _

theorem validateBlockTxns_finalizes (block : Block) (s : Session) :
    finalizes s.store (validateBlockTxns sqlRepository block s).1.store := by
  unfold validateBlockTxns
  split
  · exact finalizes_refl _
  · exact finalizes_refl _
  · split
    · next h => exact guardedUpdate_finalizes _ _ _ (Or.inl rfl) _ _ h
    · next h => exact guardedUpdate_finalizes _ _ _ (Or.inl rfl) _ _ h
    · next s1 _ h =>
      have h1 := guardedUpdate_finalizes _ _ _ (Or.inl rfl) _ _ h
      split
      · exact h1
      · exact h1
      · split
        · next h' => exact finalizes_trans _ _ _ h1 (guardedUpdate_finalizes _ _ _ (Or.inr rfl) _ _ h')
        · next h' => exact finalizes_trans _ _ _ h1 (guardedUpdate_finalizes _ _ _ (Or.inr rfl) _ _ h')
        · next h' => exact finalizes_trans _ _ _ h1 (guardedUpdate_finalizes _ _ _ (Or.inr rfl) _ _ h')

/-- C3: whatever the block and the store, and whatever the server does with the
statements, `validateBlockTxns` leaves every transaction row that is already successful
or failed exactly as it is (all columns, among them state, updated and modified_by), and
the only state changes it makes are from in progress to successful or to failed; rows are
neither added nor removed and the other tables are untouched. -/
theorem validateBlockTxns_terminal_rows_unchanged (block : Block) (s : Session) :
    List.Forall₂
        (fun old new : TransactionRow =>
          (old.transaction_state_id = TxnSuccessful ∨ old.transaction_state_id = TxnFailed →
            new = old) ∧
          (new.transaction_state_id ≠ old.transaction_state_id →
            old.transaction_state_id = TxnInProgress ∧
              (new.transaction_state_id = TxnSuccessful ∨ new.transaction_state_id = TxnFailed)))
        s.store.transactions (validateBlockTxns sqlRepository block s).1.store.transactions ∧
      (validateBlockTxns sqlRepository block s).1.store.user_data = s.store.user_data ∧
      (validateBlockTxns sqlRepository block s).1.store.project_data = s.store.project_data ∧
      (validateBlockTxns sqlRepository block s).1.store.mentorship = s.store.mentorship ∧
      (validateBlockTxns sqlRepository block s).1.store.ethereum_blockchain =
        s.store.ethereum_blockchain :=
  validateBlockTxns_finalizes block s

/-! ## One iteration of the consumer on a server without faults -/

theorem noFaults_step (s : Session) (h : s.noFaults) : s.step.err = none := by
  unfold Session.step
  cases hs : s.script with
  | nil => rfl
  | cons stp rest =>
    exact h stp (by rw [hs]; exact List.mem_cons_self _ _)

theorem noFaults_advance (s : Session) (st : Store) (h : s.noFaults) : (s.advance st).noFaults := by
  intro stp hstp
  exact h stp (List.mem_of_mem_tail hstp)

theorem updateTxnsStatus_nil (st : Store) (status : Int) (auditName : String) (now : Nat) :
    st.updateTxnsStatus [] status auditName now = st := by
  unfold Store.updateTxnsStatus
  have : updateRow [] status auditName now = id := by
    funext r
    simp [updateRow, inProgressWithHash]
  rw [this, List.map_id]

/-- On a server without faults the guarded call of `validateBlockTxns` returns nil and
leaves the store as the `UPDATE` statement would. -/
theorem guardedUpdate_exec (txHashes : List String) (status : Int) (s : Session)
    (h : s.noFaults) :
    ∃ s' t, (if txHashes.length > 0 then
        sqlRepository.UpdateTxnsStatus txHashes status GetAuditName s else (s, .ok ())) = (s', .ok ()) ∧
      s'.noFaults ∧ s'.store = s.store.updateTxnsStatus txHashes status GetAuditName t := by
  by_cases hlen : txHashes.length > 0
  · have hne : txHashes ≠ [] := by
      intro h0; rw [h0] at hlen; exact absurd hlen (by decide)
    refine ⟨s.advance (s.store.updateTxnsStatus txHashes status GetAuditName s.step.now),
      s.step.now, ?_, noFaults_advance _ _ h, rfl⟩
    rw [if_pos hlen]
    simp only [sqlRepository, UpdateTxnsStatus, if_neg hne, noFaults_step s h]
  · have h0 : txHashes = [] := by
      cases txHashes with
      | nil => rfl
      | cons a l => exact absurd (by simp) hlen
    refine ⟨s, 0, by rw [if_neg hlen], h, ?_⟩
    rw [h0, updateTxnsStatus_nil]

/-- The store after the two status updates of `validateBlockTxns`. -/
theorem validateBlockTxns_exec (block : Block) (successful failed : List String)
    (hS : getTxHashesByStatus block.Transactions TransactionSuccessful = .ok successful)
    (hF : getTxHashesByStatus block.Transactions TransactionFailed = .ok failed)
    (s : Session) (h : s.noFaults) :
    ∃ s' t₁ t₂, validateBlockTxns sqlRepository block s = (s', .ok ()) ∧ s'.noFaults ∧
      s'.store = (s.store.updateTxnsStatus successful TxnSuccessful GetAuditName t₁).updateTxnsStatus
        failed TxnFailed GetAuditName t₂ := by
  obtain ⟨s1, t₁, h1, hn1, hs1⟩ := guardedUpdate_exec successful TxnSuccessful s h
  obtain ⟨s2, t₂, h2, hn2, hs2⟩ := guardedUpdate_exec failed TxnFailed s1 hn1
  refine ⟨s2, t₁, t₂, ?_, hn2, by rw [hs2, hs1]⟩
  unfold validateBlockTxns
  simp only [hS, hF, h1, h2]

/-- The store after one iteration of the loop of `Run`. -/
theorem processBlock_exec (block : Block) (successful failed : List String)
    (hS : getTxHashesByStatus block.Transactions TransactionSuccessful = .ok successful)
    (hF : getTxHashesByStatus block.Transactions TransactionFailed = .ok failed)
    (s : Session) (h : s.noFaults) :
    ∃ s' t₁ t₂, processBlock sqlRepository block s = (s', .ok ()) ∧ s'.noFaults ∧
      s'.store = ((s.store.deleteSuccessfulTransactions.updateTxnsStatus successful TxnSuccessful
        GetAuditName t₁).updateTxnsStatus failed TxnFailed GetAuditName t₂).setLatestBlockNumber
          blockNumberID (cursorOf block) := by
  have hn0 := noFaults_advance s s.store.deleteSuccessfulTransactions h
  obtain ⟨s2, t₁, t₂, h2, hn2, hs2⟩ := validateBlockTxns_exec block successful failed hS hF _ hn0
  refine ⟨s2.advance (s2.store.setLatestBlockNumber blockNumberID (cursorOf block)), t₁, t₂, ?_,
    noFaults_advance _ _ hn2, ?_⟩
  · unfold processBlock
    simp only [sqlRepository, DeleteSuccessfulTransactions, noFaults_step s h]
    have h2' := h2
    simp only [sqlRepository] at h2'
    simp only [h2', SetLatestProcessedEthereumBlockNumber, noFaults_step s2 hn2]
  · simp only [Session.advance, hs2]

theorem cursor_setLatestBlockNumber (st : Store) (n : Nat) :
    (st.setLatestBlockNumber blockNumberID n).cursor = some n := by
  unfold Store.cursor Store.setLatestBlockNumber
  simp only
  induction st.ethereum_blockchain with
  | nil => simp [upsertBlockNumber]
  | cons row rest ih =>
    by_cases hid : row.id = blockNumberID
    · simp [upsertBlockNumber, hid]
    · simp only [upsertBlockNumber, if_neg hid, List.find?_cons, decide_eq_false hid]
      exact ih

/-- C5: when the server executes the statement, `UpdateTxnsStatus` gives a row the target
state, the audit name as modified_by (and the current instant as updated) if the row was
in progress and its hash is in the list, and leaves every other row and every other table
unchanged; in particular one iteration of `Run` over block 100 holding the successful
transaction `0x…0abc` turns an in-progress row with that hash into a successful one, and
the stored cursor is then 100. -/
theorem UpdateTxnsStatus_spec (txHashes : List String) (status : Int) (auditName : String)
    (s : Session) (hexec : s.step.err = none) :
    (List.Forall₂
        (fun old new : TransactionRow =>
          if old.transaction_state_id = TxnInProgress ∧ old.transaction_hash ∈ txHashes then
            new = { old with transaction_state_id := status, updated := s.step.now,
                             modified_by := auditName }
          else new = old)
        s.store.transactions (UpdateTxnsStatus txHashes status auditName s).1.store.transactions ∧
      (UpdateTxnsStatus txHashes status auditName s).1.store.user_data = s.store.user_data ∧
      (UpdateTxnsStatus txHashes status auditName s).1.store.project_data = s.store.project_data ∧
      (UpdateTxnsStatus txHashes status auditName s).1.store.mentorship = s.store.mentorship ∧
      (UpdateTxnsStatus txHashes status auditName s).1.store.ethereum_blockchain =
        s.store.ethereum_blockchain) ∧
    (∀ (st : Store) (script : List Step) (row : TransactionRow),
      (∀ stp ∈ script, stp.err = none) → row ∈ st.transactions →
      row.transaction_state_id = TxnInProgress → row.transaction_hash = sampleHash.String →
      ∃ s' t, processBlock sqlRepository block100 { store := st, script := script } = (s', .ok ()) ∧
        { row with transaction_state_id := TxnSuccessful, updated := t,
                   modified_by := "mosoly-txnvalidating" } ∈ s'.store.transactions ∧
        s'.store.cursor = some 100) := by
  constructor
  · by_cases hnil : txHashes = []
    · subst hnil
      refine ⟨?_, rfl, rfl, rfl, rfl⟩
      simp [UpdateTxnsStatus]
    · simp only [UpdateTxnsStatus, if_neg hnil, hexec]
      refine ⟨?_, rfl, rfl, rfl, rfl⟩
      apply forall₂_map_self
      intro r
      unfold updateRow
      by_cases hsel : r.transaction_state_id = TxnInProgress ∧ r.transaction_hash ∈ txHashes
      · have : inProgressWithHash txHashes r = true := by
          simp [inProgressWithHash, hsel.1, hsel.2]
        rw [if_pos hsel, if_pos this]
      · have : ¬ inProgressWithHash txHashes r = true := by
          simp only [inProgressWithHash, Bool.and_eq_true, decide_eq_true_eq]
          exact hsel
        rw [if_neg hsel, if_neg this]
  · intro st script row hscript hrow hstate hhash
    obtain ⟨s', t₁, t₂, hrun, _, hstore⟩ :=
      processBlock_exec block100 [sampleHash.String] [] rfl rfl
        { store := st, script := script } hscript
    refine ⟨s', t₁, hrun, ?_, ?_⟩
    · rw [hstore, updateTxnsStatus_nil]
      have hgc : row ∈ st.deleteSuccessfulTransactions.transactions := by
        simp only [Store.deleteSuccessfulTransactions, List.mem_filter]
        refine ⟨hrow, ?_⟩
        simp [Store.collectable, hstate, TxnInProgress, TxnSuccessful]
      have hsel : inProgressWithHash [sampleHash.String] row = true := by
        simp [inProgressWithHash, hstate, hhash]
      simp only [Store.setLatestBlockNumber, Store.updateTxnsStatus, List.mem_map]
      exact ⟨row, hgc, by unfold updateRow; rw [if_pos hsel]; rfl⟩
    · rw [hstore, cursor_setLatestBlockNumber]
      rfl

/-- C5, witness: the statement at the sample store, whose in-progress row carries the
hash of the transaction of block 100. -/
theorem UpdateTxnsStatus_spec_witness :
    ({ store := sampleStore, script := [] } : Session).step.err = none ∧
    ∃ s' t, processBlock sqlRepository block100 { store := sampleStore, script := [] }
        = (s', .ok ()) ∧
      { sampleRow with transaction_state_id := TxnSuccessful, updated := t,
                       modified_by := "mosoly-txnvalidating" } ∈ s'.store.transactions ∧
      s'.store.cursor = some 100 :=
  ⟨rfl, (UpdateTxnsStatus_spec [sampleHash.String] TxnSuccessful "mosoly-txnvalidating"
      { store := sampleStore, script := [] } rfl).2 sampleStore [] sampleRow
      (fun _ h => absurd h (List.not_mem_nil _)) (List.mem_singleton.2 rfl) rfl rfl⟩

/-! ## Processing a block twice -/

theorem getTxHashesByStatus_ok (txs : List (Option Transaction)) (status : TransactionStatus)
    (hwf : ∀ tx, some tx ∈ txs → tx.Status ≠ none) :
    ∃ keys, getTxHashesByStatus txs status = .ok keys := by
  obtain ⟨m', h1, _, _⟩ := collectByStatus_ok status txs [] hwf
  exact ⟨m'.map Prod.fst, by simp [getTxHashesByStatus, h1]⟩

theorem inProgressWithHash_of_state_ne (txHashes : List String) (r : TransactionRow)
    (h : r.transaction_state_id ≠ TxnInProgress) : inProgressWithHash txHashes r = false := by
  simp [inProgressWithHash, h]

theorem updateRow_not_selected (txHashes : List String) (status : Int) (a : String) (t : Nat)
    (r : TransactionRow) (h : inProgressWithHash txHashes r = false) :
    updateRow txHashes status a t r = r := by
  simp [updateRow, h]

theorem updateRow_selected_state (txHashes : List String) (status : Int) (a : String) (t : Nat)
    (r : TransactionRow) (h : inProgressWithHash txHashes r = true) :
    (updateRow txHashes status a t r).transaction_state_id = status := by
  simp [updateRow, h]

/-- After the two status updates of a block no row is selected by either of them. -/
theorem not_selected_after_updates (st : Store) (successful failed : List String)
    (a : String) (t₁ t₂ : Nat) :
    ∀ r ∈ ((st.updateTxnsStatus successful TxnSuccessful a t₁).updateTxnsStatus failed TxnFailed
        a t₂).transactions,
      inProgressWithHash successful r = false ∧ inProgressWithHash failed r = false := by
  intro r hr
  simp only [Store.updateTxnsStatus, List.map_map, List.mem_map, Function.comp] at hr
  obtain ⟨r0, _, hr0⟩ := hr
  subst hr0
  cases h1 : inProgressWithHash successful r0 with
  | true =>
    have hs : (updateRow successful TxnSuccessful a t₁ r0).transaction_state_id ≠ TxnInProgress := by
      rw [updateRow_selected_state _ _ _ _ _ h1]; decide
    rw [updateRow_not_selected failed _ _ _ _ (inProgressWithHash_of_state_ne _ _ hs)]
    exact ⟨inProgressWithHash_of_state_ne _ _ hs, inProgressWithHash_of_state_ne _ _ hs⟩
  | false =>
    rw [updateRow_not_selected successful _ _ _ _ h1]
    cases h2 : inProgressWithHash failed r0 with
    | true =>
      have hs : (updateRow failed TxnFailed a t₂ r0).transaction_state_id ≠ TxnInProgress := by
        rw [updateRow_selected_state _ _ _ _ _ h2]; decide
      exact ⟨inProgressWithHash_of_state_ne _ _ hs, inProgressWithHash_of_state_ne _ _ hs⟩
    | false =>
      rw [updateRow_not_selected failed _ _ _ _ h2]
      exact ⟨h1, h2⟩

theorem updateTxnsStatus_of_not_selected (st : Store) (txHashes : List String) (status : Int)
    (a : String) (t : Nat) (h : ∀ r ∈ st.transactions, inProgressWithHash txHashes r = false) :
    st.updateTxnsStatus txHashes status a t = st := by
  unfold Store.updateTxnsStatus
  have : st.transactions.map (updateRow txHashes status a t) = st.transactions := by
    conv_rhs => rw [← List.map_id st.transactions]
    apply List.map_congr_left
    intro r hr
    simp [updateRow_not_selected _ _ _ _ _ (h r hr)]
  rw [this]

theorem deleteSuccessful_setLatest (st : Store) (i : Int) (n : Nat) :
    (st.setLatestBlockNumber i n).deleteSuccessfulTransactions =
      st.deleteSuccessfulTransactions.setLatestBlockNumber i n := rfl

theorem upsertBlockNumber_idem (i : Int) (n : Nat) (rows : List BlockchainRow) :
    upsertBlockNumber i n (upsertBlockNumber i n rows) = upsertBlockNumber i n rows := by
  induction rows with
  | nil => simp [upsertBlockNumber]
  | cons row rest ih =>
    by_cases hid : row.id = i
    · simp [upsertBlockNumber, hid]
    · simp [upsertBlockNumber, hid, ih]

theorem setLatest_idem (st : Store) (i : Int) (n : Nat) :
    (st.setLatestBlockNumber i n).setLatestBlockNumber i n = st.setLatestBlockNumber i n := by
  simp [Store.setLatestBlockNumber, upsertBlockNumber_idem]

theorem deleteSuccessful_of_referenced (st : Store)
    (h : ∀ r ∈ st.transactions, r.transaction_state_id = TxnSuccessful →
      st.referenced r.id = true) :
    st.deleteSuccessfulTransactions = st := by
  unfold Store.deleteSuccessfulTransactions
  have : st.transactions.filter (fun r => !st.collectable r) = st.transactions := by
    rw [List.filter_eq_self]
    intro r hr
    by_cases hs : r.transaction_state_id = TxnSuccessful
    · simp [Store.collectable, hs, h r hr hs]
    · simp [Store.collectable, hs]
  rw [this]

/-- C4 (as amended): on a server without faults and a block whose transactions all carry
a status, processing the block a second time right after the first succeeds, keeps the
cursor at the number of the block, and leaves the store as garbage collection leaves the
store of the first processing: the tables are the same except that successful rows
referenced by no user, project or mentorship row are deleted.  When every successful row
is referenced the two stores are identical, and `validateBlockTxns` run twice leaves the
store as running it once does. -/
theorem processBlock_twice (block : Block) (s : Session) (hfaults : s.noFaults)
    (hwf : ∀ tx, some tx ∈ block.Transactions → tx.Status ≠ none) :
    ∃ s₁ s₂, processBlock sqlRepository block s = (s₁, .ok ()) ∧
      processBlock sqlRepository block s₁ = (s₂, .ok ()) ∧
      s₁.store.cursor = some (cursorOf block) ∧ s₂.store.cursor = s₁.store.cursor ∧
      s₂.store = s₁.store.deleteSuccessfulTransactions ∧
      ((∀ r ∈ s₁.store.transactions, r.transaction_state_id = TxnSuccessful →
          s₁.store.referenced r.id = true) → s₂.store = s₁.store) ∧
      (validateBlockTxns sqlRepository block (validateBlockTxns sqlRepository block s).1).1.store =
        (validateBlockTxns sqlRepository block s).1.store := by
  obtain ⟨successful, hS⟩ := getTxHashesByStatus_ok block.Transactions TransactionSuccessful hwf
  obtain ⟨failed, hF⟩ := getTxHashesByStatus_ok block.Transactions TransactionFailed hwf
  obtain ⟨s₁, t₁, t₂, hrun₁, hn₁, hst₁⟩ := processBlock_exec block successful failed hS hF s hfaults
  obtain ⟨s₂, t₃, t₄, hrun₂, _, hst₂⟩ := processBlock_exec block successful failed hS hF s₁ hn₁
  have hgc : s₁.store.deleteSuccessfulTransactions =
      (((s.store.deleteSuccessfulTransactions.updateTxnsStatus successful TxnSuccessful
        GetAuditName t₁).updateTxnsStatus failed TxnFailed
        GetAuditName t₂).deleteSuccessfulTransactions).setLatestBlockNumber
          blockNumberID (cursorOf block) := by
    rw [hst₁, deleteSuccessful_setLatest]
  have hsel : ∀ r ∈ s₁.store.deleteSuccessfulTransactions.transactions,
      inProgressWithHash successful r = false ∧ inProgressWithHash failed r = false := by
    intro r hr
    rw [hgc] at hr
    simp only [Store.setLatestBlockNumber, Store.deleteSuccessfulTransactions,
      List.mem_filter] at hr
    exact not_selected_after_updates _ _ _ _ _ _ r hr.1
  have hstore₂ : s₂.store = s₁.store.deleteSuccessfulTransactions := by
    rw [hst₂, updateTxnsStatus_of_not_selected _ successful _ _ _ (fun r hr => (hsel r hr).1),
      updateTxnsStatus_of_not_selected _ failed _ _ _ (fun r hr => (hsel r hr).2), hgc,
      setLatest_idem]
  have hc₁ : s₁.store.cursor = some (cursorOf block) := by
    rw [hst₁, cursor_setLatestBlockNumber]
  refine ⟨s₁, s₂, hrun₁, hrun₂, hc₁, ?_, hstore₂, ?_, ?_⟩
  · rw [hstore₂, hgc, cursor_setLatestBlockNumber, hc₁]
  · intro href
    rw [hstore₂, deleteSuccessful_of_referenced _ href]
  · obtain ⟨v₁, u₁, u₂, hv₁, hvn₁, hvs₁⟩ :=
      validateBlockTxns_exec block successful failed hS hF s hfaults
    obtain ⟨v₂, u₃, u₄, hv₂, _, hvs₂⟩ :=
      validateBlockTxns_exec block successful failed hS hF v₁ hvn₁
    rw [hv₁]
    simp only
    rw [hv₂]
    simp only
    have hsel' := not_selected_after_updates s.store successful failed GetAuditName u₁ u₂
    rw [← hvs₁] at hsel'
    rw [hvs₂, updateTxnsStatus_of_not_selected _ successful _ _ _ (fun r hr => (hsel' r hr).1),
      updateTxnsStatus_of_not_selected _ failed _ _ _ (fun r hr => (hsel' r hr).2)]

theorem block100_statuses : ∀ tx, some tx ∈ block100.Transactions → tx.Status ≠ none := by
  intro tx htx
  simp only [block100, List.mem_singleton, Option.some.injEq] at htx
  subst htx
  simp [txSuccessful]

/-- C4, witness: the amended statement at the sample store and block 100. -/
theorem processBlock_twice_witness :
    ({ store := sampleStore, script := [] } : Session).noFaults ∧
    (∀ tx, some tx ∈ block100.Transactions → tx.Status ≠ none) ∧
    ∃ s₁ s₂, processBlock sqlRepository block100 { store := sampleStore, script := [] }
        = (s₁, .ok ()) ∧
      processBlock sqlRepository block100 s₁ = (s₂, .ok ()) ∧
      s₁.store.cursor = some (cursorOf block100) ∧ s₂.store.cursor = s₁.store.cursor ∧
      s₂.store = s₁.store.deleteSuccessfulTransactions ∧
      ((∀ r ∈ s₁.store.transactions, r.transaction_state_id = TxnSuccessful →
          s₁.store.referenced r.id = true) → s₂.store = s₁.store) ∧
      (validateBlockTxns sqlRepository block100
          (validateBlockTxns sqlRepository block100
            { store := sampleStore, script := [] }).1).1.store =
        (validateBlockTxns sqlRepository block100 { store := sampleStore, script := [] }).1.store :=
  ⟨by decide, block100_statuses,
    processBlock_twice block100 { store := sampleStore, script := [] } (by decide)
      block100_statuses⟩

/-- C4, counterexample: the sample store holds one in-progress row that no other row
references; processing block 100 once leaves it in the table as successful, processing
the block a second time deletes it, so the two transactions tables differ. -/
theorem processBlock_twice_differs :
    (processBlock sqlRepository block100 { store := sampleStore, script := [] }).1.store.transactions
        = [{ sampleRow with transaction_state_id := TxnSuccessful, updated := 0,
                            modified_by := "mosoly-txnvalidating" }] ∧
      (processBlock sqlRepository block100
        (processBlock sqlRepository block100
          { store := sampleStore, script := [] }).1).1.store.transactions = [] ∧
      (processBlock sqlRepository block100
        (processBlock sqlRepository block100
          { store := sampleStore, script := [] }).1).1.store ≠
      (processBlock sqlRepository block100 { store := sampleStore, script := [] }).1.store := by
  refine ⟨by rfl, by rfl, by decide⟩

/-! ## The record of calls of the consumer -/

theorem cursorWrites_append (a b : List Event) :
    cursorWrites (a ++ b) = cursorWrites a ++ cursorWrites b := by
  induction a with
  | nil => rfl
  | cons e rest ih =>
    cases hc : e.call <;> simp [cursorWrites, hc, ih]

/-- The guarded status update of `validateBlockTxns` on a recording repository appends
status updates only, and on a nil error every appended call returned nil. -/
theorem guardedUpdate_recorded {σ : Type} (r : Repository σ) (txHashes : List String)
    (status : Int) (w w' : σ × List Event) (res : Res Unit)
    (h : (if txHashes.length > 0 then
        r.recorded.UpdateTxnsStatus txHashes status GetAuditName w else (w, .ok ())) = (w', res)) :
    ∃ evs, w'.2 = w.2 ++ evs ∧ cursorWrites evs = [] ∧
      (res.isOk = true → ∀ e ∈ evs, e.ok = true) := by
  by_cases hlen : txHashes.length > 0
  · rw [if_pos hlen] at h
    simp only [Repository.recorded, record, Prod.mk.injEq] at h
    obtain ⟨hw, hres⟩ := h
    refine ⟨[{ call := .updateTxnsStatus txHashes status GetAuditName,
               ok := (r.UpdateTxnsStatus txHashes status GetAuditName w.1).2.isOk }], ?_, rfl, ?_⟩
    · rw [← hw]
    · intro hok e he
      rw [List.mem_singleton] at he
      rw [he, hres]
      exact hok
  · rw [if_neg hlen] at h
    simp only [Prod.mk.injEq] at h
    refine ⟨[], by rw [← h.1]; simp, rfl, ?_⟩
    intro _ e he
    exact absurd he (List.not_mem_nil _)

/-- On a recording repository `validateBlockTxns` appends status updates only, and when
it returns nil every one of them returned nil. -/
theorem validateBlockTxns_recorded {σ : Type} (r : Repository σ) (block : Block)
    (w : σ × List Event) :
    ∃ evs, (validateBlockTxns r.recorded block w).1.2 = w.2 ++ evs ∧ cursorWrites evs = [] ∧
      ((validateBlockTxns r.recorded block w).2.isOk = true → ∀ e ∈ evs, e.ok = true) := by
  have hnil : ∃ evs : List Event, w.2 = w.2 ++ evs ∧ cursorWrites evs = [] ∧
      ((false : Bool) = true → ∀ e ∈ evs, e.ok = true) :=
    ⟨[], by simp, rfl, fun h => absurd h (by decide)⟩
  unfold validateBlockTxns
  split
  · exact hnil
  · exact hnil
  · split
    · next h =>
      obtain ⟨evs, h1, h2, _⟩ := guardedUpdate_recorded r _ _ _ _ _ h
      exact ⟨evs, h1, h2, fun hf => absurd hf (by simp [Res.isOk])⟩
    · next h =>
      obtain ⟨evs, h1, h2, _⟩ := guardedUpdate_recorded r _ _ _ _ _ h
      exact ⟨evs, h1, h2, fun hf => absurd hf (by simp [Res.isOk])⟩
    · next w1 _ h =>
      obtain ⟨evs, h1, h2, h3⟩ := guardedUpdate_recorded r _ _ _ _ _ h
      have hok1 : ∀ e ∈ evs, e.ok = true := h3 rfl
      split
      · exact ⟨evs, h1, h2, fun hf => absurd hf (by simp [Res.isOk])⟩
      · exact ⟨evs, h1, h2, fun hf => absurd hf (by simp [Res.isOk])⟩
      · split
        · next h' =>
          obtain ⟨evs', k1, k2, _⟩ := guardedUpdate_recorded r _ _ _ _ _ h'
          exact ⟨evs ++ evs', by rw [k1, h1, List.append_assoc],
            by rw [cursorWrites_append, h2, k2]; rfl, fun hf => absurd hf (by simp [Res.isOk])⟩
        · next h' =>
          obtain ⟨evs', k1, k2, _⟩ := guardedUpdate_recorded r _ _ _ _ _ h'
          exact ⟨evs ++ evs', by rw [k1, h1, List.append_assoc],
            by rw [cursorWrites_append, h2, k2]; rfl, fun hf => absurd hf (by simp [Res.isOk])⟩
        · next h' =>
          obtain ⟨evs', k1, k2, k3⟩ := guardedUpdate_recorded r _ _ _ _ _ h'
          refine ⟨evs ++ evs', by rw [k1, h1, List.append_assoc],
            by rw [cursorWrites_append, h2, k2]; rfl, ?_⟩
          intro _ e he
          rcases List.mem_append.1 he with he | he
          · exact hok1 e he
          · exact k3 rfl e he

theorem record_eq {σ α : Type} (c : Call) (f : σ → σ × Res α) (w w' : σ × List Event)
    (res : Res α) (h : record c f w = (w', res)) :
    w'.2 = w.2 ++ [{ call := c, ok := res.isOk }] := by
  simp only [record, Prod.mk.injEq] at h
  rw [← h.1, ← h.2]

/-- One iteration of the loop on a recording repository: either no cursor write is
recorded and the iteration does not return nil, or exactly one is recorded, for the
number of the block, as the last call, after a garbage collection and status updates
that all returned nil. -/
theorem processBlock_recorded {σ : Type} (r : Repository σ) (block : Block)
    (w : σ × List Event) :
    ∃ evs, (processBlock r.recorded block w).1.2 = w.2 ++ evs ∧
      ((cursorWrites evs = [] ∧ (processBlock r.recorded block w).2.isOk = false) ∨
        ∃ pre ok, evs = pre ++ [{ call := .setLatest blockNumberID (cursorOf block), ok := ok }] ∧
          { call := .deleteSuccessful, ok := true } ∈ pre ∧ (∀ e ∈ pre, e.ok = true) ∧
          cursorWrites pre = []) := by
  unfold processBlock
  split
  · next h =>
    have h1 := record_eq _ _ _ _ _ h
    exact ⟨_, h1, Or.inl ⟨rfl, rfl⟩⟩
  · next h =>
    have h1 := record_eq _ _ _ _ _ h
    exact ⟨_, h1, Or.inl ⟨rfl, rfl⟩⟩
  · next w1 _ h =>
    have h1 := record_eq _ _ _ _ _ h
    obtain ⟨evs, hv1, hv2, hv3⟩ := validateBlockTxns_recorded r block w1
    have hpre : cursorWrites ({ call := Call.deleteSuccessful, ok := true } :: evs) = [] := by
      simp only [cursorWrites]; exact hv2
    split
    · next hv =>
      rw [hv] at hv1
      exact ⟨_ :: evs, by rw [hv1, h1]; simp [Res.isOk], Or.inl ⟨hpre, rfl⟩⟩
    · next hv =>
      rw [hv] at hv1
      exact ⟨_ :: evs, by rw [hv1, h1]; simp [Res.isOk], Or.inl ⟨hpre, rfl⟩⟩
    · next w2 _ hv =>
      rw [hv] at hv1 hv3
      have hok : ∀ e ∈ evs, e.ok = true := hv3 rfl
      have hwrite : ∀ (w3 : σ × List Event) (res : Res Unit),
          r.recorded.SetLatestProcessedEthereumBlockNumber blockNumberID (cursorOf block) w2
            = (w3, res) →
          w3.2 = w.2 ++ (({ call := Call.deleteSuccessful, ok := true } :: evs) ++
            [{ call := .setLatest blockNumberID (cursorOf block), ok := res.isOk }]) := by
        intro w3 res hset
        have h3 := record_eq _ _ _ _ _ hset
        rw [h3, hv1, h1]
        simp [Res.isOk]
      have hmem : ∀ e ∈ ({ call := Call.deleteSuccessful, ok := true } :: evs : List Event),
          e.ok = true := by
        intro e he
        rcases List.mem_cons.1 he with he | he
        · rw [he]
        · exact hok e he
      split
      · next hset =>
        exact ⟨_, hwrite _ _ hset, Or.inr ⟨_, _, rfl, List.mem_cons_self _ _, hmem, hpre⟩⟩
      · next hset =>
        exact ⟨_, hwrite _ _ hset, Or.inr ⟨_, _, rfl, List.mem_cons_self _ _, hmem, hpre⟩⟩

/-- The cursor writes recorded by the loop are the block numbers of a leading part of
the delivered blocks, in order of delivery. -/
theorem processBlocks_cursorWrites {σ : Type} (r : Repository σ) (blocks : List Block) :
    ∀ w : σ × List Event, ∃ k evs, (processBlocks r.recorded blocks w).1.2 = w.2 ++ evs ∧
      cursorWrites evs = (blocks.take k).map cursorOf := by
  induction blocks with
  | nil =>
    intro w
    exact ⟨0, [], by simp [processBlocks], rfl⟩
  | cons block rest ih =>
    intro w
    obtain ⟨evs, h1, h2⟩ := processBlock_recorded r block w
    have hstop : ∀ evs' : List Event, cursorWrites evs' = [] ∨ cursorWrites evs' = [cursorOf block] →
        ∃ k, cursorWrites evs' = ((block :: rest).take k).map cursorOf := by
      intro evs' h
      rcases h with h | h
      · exact ⟨0, by rw [h]; rfl⟩
      · exact ⟨1, by rw [h]; rfl⟩
    have hcw : cursorWrites evs = [] ∨ cursorWrites evs = [cursorOf block] := by
      rcases h2 with ⟨h, _⟩ | ⟨pre, ok, hevs, _, _, hpre⟩
      · exact Or.inl h
      · right
        rw [hevs, cursorWrites_append, hpre]
        rfl
    unfold processBlocks
    split
    · next w1 _ hpb =>
      rw [hpb] at h1 h2
      have hw : cursorWrites evs = [cursorOf block] := by
        rcases h2 with ⟨_, h⟩ | ⟨pre, ok, hevs, _, _, hpre⟩
        · exact absurd h (by simp [Res.isOk])
        · rw [hevs, cursorWrites_append, hpre]
          rfl
      obtain ⟨k, evs', k1, k2⟩ := ih w1
      refine ⟨k + 1, evs ++ evs', ?_, ?_⟩
      · rw [k1, h1, List.append_assoc]
      · rw [cursorWrites_append, hw, k2]
        rfl
    · next hpb =>
      rw [hpb] at h1
      obtain ⟨k, hk⟩ := hstop evs hcw
      exact ⟨k, evs, h1, hk⟩
    · next hpb =>
      rw [hpb] at h1
      obtain ⟨k, hk⟩ := hstop evs hcw
      exact ⟨k, evs, h1, hk⟩

/-! ## `Run` -/

/-- The record of `Run` starts with the read of the cursor and the creation of the
block source at `startBlockOf` of the number read. -/
theorem Run_opens {σ : Type} (r : Repository σ) (bsc : BlockSourceCreator σ) (s s₁ : σ)
    (c : Nat)
    (hget : r.GetLatestProcessedEthereumBlockNumber blockNumberID defaultStartBlock s
      = (s₁, .ok (some c))) :
    ∃ ok rest, (Run r.recorded bsc.recorded (s, [])).1.2 =
      { call := .getLatest blockNumberID defaultStartBlock, ok := true } ::
      { call := .createBlockSource (startBlockOf c) confirmations, ok := ok } :: rest := by
  unfold Run
  simp only [Repository.recorded, BlockSourceCreator.recorded, record, hget, Res.isOk,
    List.nil_append]
  cases hsrc : bsc.CreateBlockSource (startBlockOf c) confirmations s₁ with
  | mk s₂ res =>
    cases res with
    | error e => exact ⟨false, [], rfl⟩
    | panicked p => exact ⟨false, [], rfl⟩
    | ok bs =>
      simp only [Res.isOk, List.singleton_append]
      obtain ⟨k, evs, h1, _⟩ := processBlocks_cursorWrites r bs.Blocks
        (s₂, [{ call := .getLatest blockNumberID defaultStartBlock, ok := true },
              { call := .createBlockSource (startBlockOf c) confirmations, ok := true }])
      refine ⟨true, evs, ?_⟩
      simp only [Repository.recorded] at h1
      split
      · next h => rw [h] at h1; exact h1
      · next h => rw [h] at h1; exact h1
      · next h =>
        rw [h] at h1
        split <;> exact h1

/-- The cursor writes recorded by `Run` are the block numbers of a leading part of the
delivered blocks. -/
theorem Run_cursorWrites {σ : Type} (r : Repository σ) (bsc : BlockSourceCreator σ)
    (s s₁ s₂ : σ) (c : Nat) (bs : BlockSource)
    (hget : r.GetLatestProcessedEthereumBlockNumber blockNumberID defaultStartBlock s
      = (s₁, .ok (some c)))
    (hsrc : bsc.CreateBlockSource (startBlockOf c) confirmations s₁ = (s₂, .ok bs)) :
    ∃ k, cursorWrites (Run r.recorded bsc.recorded (s, [])).1.2 =
      (bs.Blocks.take k).map cursorOf := by
  obtain ⟨k, evs, h1, h2⟩ := processBlocks_cursorWrites r bs.Blocks
    (s₂, [{ call := .getLatest blockNumberID defaultStartBlock, ok := true },
          { call := .createBlockSource (startBlockOf c) confirmations, ok := true }])
  refine ⟨k, ?_⟩
  have key : (Run r.recorded bsc.recorded (s, [])).1.2 =
      [{ call := .getLatest blockNumberID defaultStartBlock, ok := true },
       { call := .createBlockSource (startBlockOf c) confirmations, ok := true }] ++ evs := by
    unfold Run
    simp only [Repository.recorded, BlockSourceCreator.recorded, record, hget, hsrc, Res.isOk,
      List.nil_append, List.singleton_append]
    simp only [Repository.recorded] at h1
    split
    · next h => rw [h] at h1; exact h1
    · next h => rw [h] at h1; exact h1
    · next h =>
      rw [h] at h1
      split <;> exact h1
  rw [key, cursorWrites_append, h2]
  rfl

/-! ## Block numbers and the cursor -/

theorem startBlockOf_small (c : Nat) (h : c + 1 < 2 ^ 63) : startBlockOf c = (c : Int) + 1 := by
  unfold startBlockOf int64OfUint64
  have h1 : (c + 1) % 2 ^ 64 % 2 ^ 64 = c + 1 := by omega
  rw [h1, if_pos h]
  push_cast
  rfl

theorem cursorOf_small (b : Block) (h0 : 0 ≤ b.Number) (h1 : b.Number < 2 ^ 63) :
    ((cursorOf b : Nat) : Int) = b.Number := by
  unfold cursorOf uint64OfInt64 bigIntInt64 int64OfUint64
  simp only
  have h2 : b.Number.natAbs % 2 ^ 64 % 2 ^ 64 = b.Number.natAbs := by omega
  have h3 : b.Number.natAbs < 2 ^ 63 := by omega
  rw [h2, if_pos h3, if_neg (by omega)]
  omega

/-- Blocks delivered in non-decreasing order from the cursor on, with numbers below
`2 ^ 63`, are stored in non-decreasing order. -/
theorem chain_cursorOf (blocks : List Block) :
    ∀ c : Nat, List.Chain' (· ≤ ·) ((c : Int) :: blocks.map Block.Number) →
      (∀ b ∈ blocks, b.Number < 2 ^ 63) →
      List.Chain' (· ≤ ·) (c :: blocks.map cursorOf) := by
  induction blocks with
  | nil => intro c _ _; exact List.chain'_singleton c
  | cons b rest ih =>
    intro c hchain hbound
    rw [List.map_cons, List.chain'_cons] at hchain
    obtain ⟨hcb, hrest⟩ := hchain
    have hb : b.Number < 2 ^ 63 := hbound b (List.mem_cons_self _ _)
    have hb0 : 0 ≤ b.Number := le_trans (Int.ofNat_nonneg c) hcb
    have hcur := cursorOf_small b hb0 hb
    rw [List.map_cons, List.chain'_cons]
    refine ⟨?_, ih (cursorOf b) ?_ (fun b' hb' => hbound b' (List.mem_cons_of_mem _ hb'))⟩
    · have : (c : Int) ≤ (cursorOf b : Int) := by rw [hcur]; exact hcb
      exact_mod_cast this
    · rw [hcur]; exact hrest

theorem chain_take {α : Type} (R : α → α → Prop) (a : α) (l : List α) (k : Nat)
    (h : List.Chain' R (a :: l)) : List.Chain' R (a :: l.take k) := by
  have := List.Chain'.take h (k + 1)
  simpa using this

/-- C9 (as amended): when the block source delivers blocks whose numbers are
non-decreasing, not below the cursor read at the start and below `2 ^ 63`, every value
`Run` writes through `SetLatestProcessedEthereumBlockNumber` is greater than or equal to
the value written before it, the first one to the cursor read at the start; and, for
every repository and block, one iteration of the loop writes the cursor only as its last
call, for the number of that block, after the garbage collection and the status updates
of that block have all returned nil. -/
theorem cursor_writes_monotone {σ : Type} (r : Repository σ) (bsc : BlockSourceCreator σ)
    (s s₁ s₂ : σ) (c : Nat) (bs : BlockSource)
    (hget : r.GetLatestProcessedEthereumBlockNumber blockNumberID defaultStartBlock s
      = (s₁, .ok (some c)))
    (hsrc : bsc.CreateBlockSource (startBlockOf c) confirmations s₁ = (s₂, .ok bs))
    (hchain : List.Chain' (· ≤ ·) ((c : Int) :: bs.Blocks.map Block.Number))
    (hbound : ∀ b ∈ bs.Blocks, b.Number < 2 ^ 63) :
    List.Chain' (· ≤ ·) (c :: cursorWrites (Run r.recorded bsc.recorded (s, [])).1.2) ∧
    ∀ (block : Block) (w : σ × List Event),
      ∃ evs, (processBlock r.recorded block w).1.2 = w.2 ++ evs ∧
        ((cursorWrites evs = [] ∧ (processBlock r.recorded block w).2.isOk = false) ∨
          ∃ pre ok,
            evs = pre ++ [{ call := .setLatest blockNumberID (cursorOf block), ok := ok }] ∧
            { call := .deleteSuccessful, ok := true } ∈ pre ∧ (∀ e ∈ pre, e.ok = true) ∧
            cursorWrites pre = []) := by
  constructor
  · obtain ⟨k, hk⟩ := Run_cursorWrites r bsc s s₁ s₂ c bs hget hsrc
    rw [hk]
    have h := chain_cursorOf bs.Blocks c hchain hbound
    have h' := chain_take (· ≤ ·) c (bs.Blocks.map cursorOf) k h
    rw [← List.map_take] at h'
    exact h'
  · intro block w
    exact processBlock_recorded r block w

/-- C9, witness: the amended statement for the SQL repository with cursor 4 and a source
that delivers blocks 5 and 6. -/
theorem cursor_writes_monotone_witness :
    List.Chain' (· ≤ ·) (4 :: cursorWrites
      (Run sqlRepository.recorded (fixedSource [emptyBlock 5, emptyBlock 6]).recorded
        ({ store := storeWithCursor 4, script := [] }, [])).1.2) :=
  (cursor_writes_monotone sqlRepository (fixedSource [emptyBlock 5, emptyBlock 6])
    { store := storeWithCursor 4, script := [] } { store := storeWithCursor 4, script := [] }
    { store := storeWithCursor 4, script := [] } 4
    { Blocks := [emptyBlock 5, emptyBlock 6], Close := none } rfl rfl
    (by simp [emptyBlock]) (by simp [emptyBlock])).1

/-- C9, counterexample: with cursor 4 and a source that delivers block 6 and then
block 5, `Run` writes 6 and then 5, and the stored cursor ends at 5. -/
theorem cursor_rewinds_on_unordered_source :
    cursorWrites (Run sqlRepository.recorded (fixedSource [emptyBlock 6, emptyBlock 5]).recorded
        ({ store := storeWithCursor 4, script := [] }, [])).1.2 = [6, 5] ∧
      (Run sqlRepository (fixedSource [emptyBlock 6, emptyBlock 5])
        { store := storeWithCursor 4, script := [] }).1.store.cursor = some 5 ∧
      ¬ List.Chain' (· ≤ ·) (4 :: cursorWrites
        (Run sqlRepository.recorded (fixedSource [emptyBlock 6, emptyBlock 5]).recorded
          ({ store := storeWithCursor 4, script := [] }, [])).1.2) := by
  refine ⟨by rfl, by rfl, ?_⟩
  have h : cursorWrites (Run sqlRepository.recorded
      (fixedSource [emptyBlock 6, emptyBlock 5]).recorded
      ({ store := storeWithCursor 4, script := [] }, [])).1.2 = [6, 5] := by rfl
  rw [h]
  simp

/-! ## The start block -/

theorem GetLatest_of_cursor (s : Session) (c : Nat) (hexec : s.step.err = none)
    (hc : s.store.cursor = some c) :
    GetLatestProcessedEthereumBlockNumber blockNumberID defaultStartBlock s =
      (s.advance s.store, .ok (some c)) := by
  unfold Store.cursor at hc
  unfold GetLatestProcessedEthereumBlockNumber
  rw [hexec]
  cases hf : s.store.ethereum_blockchain.find? (fun row => decide (row.id = blockNumberID)) with
  | none => rw [hf] at hc; exact absurd hc (by simp)
  | some row =>
    rw [hf] at hc
    simp only [Option.map_some', Option.some.injEq] at hc
    simp only [hc]

theorem GetLatest_of_no_cursor (s : Session) (hexec : s.step.err = none)
    (hc : s.store.cursor = none) :
    GetLatestProcessedEthereumBlockNumber blockNumberID defaultStartBlock s =
      (s.advance s.store, .ok (some defaultStartBlock)) := by
  unfold Store.cursor at hc
  unfold GetLatestProcessedEthereumBlockNumber
  rw [hexec]
  cases hf : s.store.ethereum_blockchain.find? (fun row => decide (row.id = blockNumberID)) with
  | none => rfl
  | some row => rw [hf] at hc; exact absurd hc (by simp)

/-- C10 (as amended): when the server executes the read of the cursor and the stored
cursor `c` satisfies `c + 1 < 2 ^ 63`, `Run` opens the block source at start block `c + 1`
with confirmation depth 2; when no cursor row exists,
`GetLatestProcessedEthereumBlockNumber` returns the default 4029220 without error and
`Run` opens the source at 4029221 with confirmation depth 2. -/
theorem Run_opens_source_after_cursor (bsc : BlockSourceCreator Session) (s : Session)
    (hexec : s.step.err = none) :
    (∀ c : Nat, s.store.cursor = some c → c + 1 < 2 ^ 63 →
      ∃ ok rest, (Run sqlRepository.recorded bsc.recorded (s, [])).1.2 =
        { call := .getLatest 1 4029220, ok := true } ::
        { call := .createBlockSource ((c : Int) + 1) 2, ok := ok } :: rest) ∧
    (s.store.cursor = none →
      (GetLatestProcessedEthereumBlockNumber 1 4029220 s).2 = .ok (some 4029220) ∧
      ∃ ok rest, (Run sqlRepository.recorded bsc.recorded (s, [])).1.2 =
        { call := .getLatest 1 4029220, ok := true } ::
        { call := .createBlockSource 4029221 2, ok := ok } :: rest) := by
  constructor
  · intro c hc hsmall
    have h := Run_opens sqlRepository bsc s _ c (GetLatest_of_cursor s c hexec hc)
    rw [startBlockOf_small c hsmall] at h
    exact h
  · intro hc
    have hget := GetLatest_of_no_cursor s hexec hc
    refine ⟨by rw [show (1 : Int) = blockNumberID from rfl,
      show (4029220 : Nat) = defaultStartBlock from rfl, hget], ?_⟩
    have h := Run_opens sqlRepository bsc s _ defaultStartBlock hget
    rw [startBlockOf_small defaultStartBlock (by decide)] at h
    exact h

/-- C10, witness: the amended statement at the store whose cursor is 100. -/
theorem Run_opens_source_after_cursor_witness :
    ({ store := storeWithCursor 100, script := [] } : Session).step.err = none ∧
    ∃ ok rest, (Run sqlRepository.recorded (fixedSource [block100]).recorded
        ({ store := storeWithCursor 100, script := [] }, [])).1.2 =
      { call := .getLatest 1 4029220, ok := true } ::
      { call := .createBlockSource ((100 : Nat) + 1 : Int) 2, ok := ok } :: rest :=
  ⟨rfl, (Run_opens_source_after_cursor (fixedSource [block100])
    { store := storeWithCursor 100, script := [] } rfl).1 100 rfl (by decide)⟩

/-- C10, counterexample: with the stored cursor `2 ^ 63 - 1`, the largest number a signed
64-bit column holds, `Run` opens the block source at `-2 ^ 63`, not at `2 ^ 63`. -/
theorem Run_start_block_wraps :
    (Run sqlRepository.recorded (fixedSource []).recorded
        ({ store := storeWithCursor (2 ^ 63 - 1), script := [] }, [])).1.2 =
      [{ call := .getLatest 1 4029220, ok := true },
       { call := .createBlockSource (-9223372036854775808) 2, ok := true }] ∧
    startBlockOf (2 ^ 63 - 1) ≠ ((2 ^ 63 - 1 : Nat) : Int) + 1 := by
  refine ⟨by rfl, by decide⟩

/-! ## Repository failures during `Run` -/

/-- A repository call that returns an error ends the iteration with that error, wrapped:
the garbage collection and the status updates of `validateBlockTxns` are checked. -/
theorem processBlock_returns_error {σ : Type} (r : Repository σ) (block : Block) (s : σ) :
    (∀ s₁ e, r.DeleteSuccessfulTransactions s = (s₁, .error e) →
      processBlock r block s =
        (s₁, .error ("txnvalidating: deleting successful completed transactions: " ++ e))) ∧
    (∀ s₁ s₂ e u, r.DeleteSuccessfulTransactions s = (s₁, .ok u) →
      validateBlockTxns r block s₁ = (s₂, .error e) →
      processBlock r block s =
        (s₂, .error ("txnvalidating: validate block transactions: " ++ e))) := by
  constructor
  · intro s₁ e h
    unfold processBlock
    rw [h]
  · intro s₁ s₂ e u h hv
    unfold processBlock
    rw [h]
    simp only
    rw [hv]

/-- C7: the code at the failing input.  The sample store holds an in-progress row with the
hash of the successful transaction of block 100; the server executes the read of the
cursor and the garbage collection and then loses the connection on the `UPDATE` of
`UpdateTxnsStatus`.  `UpdateTxnsStatus` calls `rows.Close()` on the nil result, so `Run`
ends in a panic instead of returning an error; no cursor write is made and the store is
unchanged. -/
theorem Run_panics_when_status_update_fails :
    Run sqlRepository.recorded (fixedSource [block100]).recorded
        ({ store := sampleStore, script := [executed, executed, connectionLost] }, []) =
      (({ store := sampleStore, script := [] },
        [{ call := .getLatest 1 4029220, ok := true },
         { call := .createBlockSource 4029221 2, ok := true },
         { call := .deleteSuccessful, ok := true },
         { call := .updateTxnsStatus [sampleHash.String] 2 "mosoly-txnvalidating",
           ok := false }]),
       .panicked nilDeref) ∧
    (Run sqlRepository (fixedSource [block100])
        { store := sampleStore, script := [executed, executed, connectionLost] }).2.isError
      = false := by
  refine ⟨by rfl, by rfl⟩

/-- C8: the code at the failing input.  With cursor 99 and blocks 100 and 101 delivered,
the server loses the connection on the cursor write for block 100: `Run` discards the
error, goes on to block 101 and returns nil; and when block 100 is the only block
delivered, `Run` returns nil although the stored cursor is still 99. -/
theorem Run_ignores_failed_cursor_write :
    Run sqlRepository.recorded (fixedSource [emptyBlock 100, emptyBlock 101]).recorded
        ({ store := storeWithCursor 99, script := [executed, executed, connectionLost] }, []) =
      (({ store := storeWithCursor 101, script := [] },
        [{ call := .getLatest 1 4029220, ok := true },
         { call := .createBlockSource 100 2, ok := true },
         { call := .deleteSuccessful, ok := true },
         { call := .setLatest 1 100, ok := false },
         { call := .deleteSuccessful, ok := true },
         { call := .setLatest 1 101, ok := true }]),
       .ok ()) ∧
    Run sqlRepository (fixedSource [emptyBlock 100])
        { store := storeWithCursor 99, script := [executed, executed, connectionLost] } =
      ({ store := storeWithCursor 99, script := [] }, .ok ()) := by
  refine ⟨by rfl, by rfl⟩

/-! ## The fact pipeline -/

/-- C1: the code at the failing input.  The ledger write fails for the first entity of a
batch of two.  Each of `updateProjectsFacts`, `updateMentorsFacts` and `updateUsersFacts`
logs the failure and creates no transaction row, but then dereferences the nil hash and
ends in a panic: the second entity is not processed (no second write is attempted, and
nothing else is logged). -/
theorem updateFacts_panic_when_write_fails :
    TxnProcessing.updateUsersFacts sampleDeps
        [TransformUser sampleCaseTable mentorOfTwo, TransformUser sampleCaseTable mentoreeTwo]
        worldFirstWriteFails =
      ({ chain := [], db := worldFirstWriteFails.db,
         log := ["writeFact: WriteTxData  failed: rpc: connection reset"] },
       .panicked nilDeref) ∧
    TxnProcessing.updateMentorsFacts sampleDeps
        [TransformUser sampleCaseTable mentorOfTwo, TransformUser sampleCaseTable mentorOfOne]
        worldFirstWriteFails =
      ({ chain := [], db := worldFirstWriteFails.db,
         log := ["writeFact: WriteTxData  failed: rpc: connection reset"] },
       .panicked nilDeref) ∧
    TxnProcessing.updateProjectsFacts sampleDeps sampleProjects worldFirstWriteFails =
      ({ chain := [], db := worldFirstWriteFails.db,
         log := ["writeFact: WriteTxData  failed: rpc: connection reset"] },
       .panicked nilDeref) ∧
    (TxnProcessing.updateUsersFacts sampleDeps
        [TransformUser sampleCaseTable mentorOfTwo, TransformUser sampleCaseTable mentoreeTwo]
        { worldFirstWriteFails with chain := [] }).1.db.store.transactions.length = 2 := by
  refine ⟨by rfl, by rfl, by rfl, by rfl⟩

/-- C2: the code at the failing input.  User 1, with mentoree 2, has no row yet; a
successful `syncUsers` inserts the user row and goes on to the next user, so that no
mentorship row exists for user 1 although the mentoree list of the batch gives the pair
`(1, 2)`.  Synchronising the same batch again, the user now existing, creates the row. -/
theorem syncUsers_new_user_gets_no_mentorship :
    TxnProcessing.syncUsers sampleCaseTable [mentorOfTwo] { store := emptyStore, script := [] } =
      ({ store := { emptyStore with
                    user_data := [{ id := 1, invite_url_hash := "invite", account := "0xaa",
                                    updated_at := 5, validated := true, transaction_id := none }] },
         script := [] },
       .ok [TransformUser sampleCaseTable mentorOfTwo]) ∧
    (TxnProcessing.syncUsers sampleCaseTable [mentorOfTwo]
        { store := emptyStore, script := [] }).1.store.mentorship = [] ∧
    (TransformUser sampleCaseTable mentorOfTwo).Mentorees.map
        (fun mentoree => ((TransformUser sampleCaseTable mentorOfTwo).ID, mentoree.ID)) =
      [(1, 2)] ∧
    (TxnProcessing.syncUsers sampleCaseTable [mentorOfTwo]
        (TxnProcessing.syncUsers sampleCaseTable [mentorOfTwo]
          { store := emptyStore, script := [] }).1).1.store.mentorship =
      [{ user_id := 1, mentoree_id := 2, transaction_id := none }] := by
  refine ⟨by rfl, by rfl, by rfl, by rfl⟩

/-! ## The record of ledger calls of the fact pipeline -/

theorem readFact_recorded_calls {L α : Type} (d : Deps L)
    (unmarshal : Bytes → α → α × Option String) (factKey passportAddress : Bytes)
    (factObject : α) (chain : L × List LedgerCall) :
    (TxnProcessing.readFact d.recorded unmarshal factKey passportAddress factObject chain).1.2 =
      chain.2 ++ [.read passportAddress d.ctx.address factKey] := by
  unfold TxnProcessing.readFact
  simp only [Deps.recorded, FactProviderContext.recorded]
  cases (d.ctx.ReadTxData passportAddress d.ctx.address factKey chain.1).2 with
  | failed e => rfl
  | notFound => rfl
  | data resultBytes =>
    simp only
    split
    · split <;> rfl
    · rfl

theorem writeFact_recorded_calls {L : Type} (d : Deps L) (factKey passportAddress : Bytes)
    (factObject : mosolyapi.BlockchainFact) (chain : L × List LedgerCall) :
    (TxnProcessing.writeFact d.recorded factKey passportAddress factObject chain).1.2 =
      chain.2 ++ [.write passportAddress factKey (d.json.Marshal factObject)] := by
  unfold TxnProcessing.writeFact
  simp only [Deps.recorded, FactProviderContext.recorded]
  cases (d.ctx.WriteTxData passportAddress factKey (d.json.Marshal factObject) chain.1).2 <;> rfl

/-- The end of an iteration issues exactly one ledger call, the write of the fact. -/
theorem writeAndLink_recorded_calls {L : Type} (d : Deps L) (factKey passportAddress : Bytes)
    (factToWrite : mosolyapi.BlockchainFact) (link : Int → Session → Session × Res Unit)
    (w : World (L × List LedgerCall)) :
    (TxnProcessing.writeAndLink d.recorded factKey passportAddress factToWrite link w).1.chain.2 =
      w.chain.2 ++ [.write passportAddress factKey (d.json.Marshal factToWrite)] := by
  have h := writeFact_recorded_calls d factKey passportAddress factToWrite w.chain
  unfold TxnProcessing.writeAndLink
  split
  · next heq => rw [heq] at h; exact h
  · next heq => rw [heq] at h; exact h
  · next heq =>
    rw [heq] at h
    split
    · exact h
    · exact h
    · split <;> exact h

theorem afterRead_chain {L : Type} (w : World L) (chain₁ : L) (err : Option String) :
    (TxnProcessing.afterRead w chain₁ err).chain = chain₁ := by
  cases err <;> rfl

/-- Every ledger call of the loop of `updateProjectsFacts` reads or writes the key the
loop was given. -/
theorem updateProjectsFactsLoop_keys {L : Type} (d : Deps L) (key : Bytes)
    (projects : List dbmodels.Project) :
    ∀ w : World (L × List LedgerCall),
      ∃ evs, (TxnProcessing.updateProjectsFactsLoop d.recorded key projects w).1.chain.2 =
          w.chain.2 ++ evs ∧ ∀ e ∈ evs, e.factKey = key := by
  induction projects with
  | nil => intro w; exact ⟨[], by simp [TxnProcessing.updateProjectsFactsLoop], by simp⟩
  | cons project rest ih =>
    intro w
    have hr := readFact_recorded_calls d d.recorded.json.UnmarshalProject key
      (HexToAddress project.PassportAddress)
      ({ BlockchainFact := TxnProcessing.zeroFact, Payload := { Name := "" } } :
        mosolyapi.BlockchainProjectFact) w.chain
    unfold TxnProcessing.updateProjectsFactsLoop
    generalize TxnProcessing.readFact _ _ key _ _ w.chain = rd at hr ⊢
    obtain ⟨chain₁, projectFact, err⟩ := rd
    simp only at hr ⊢
    split
    · obtain ⟨evs, h1, h2⟩ := ih (TxnProcessing.afterRead w chain₁ err)
      rw [afterRead_chain, hr] at h1
      refine ⟨LedgerCall.read (HexToAddress project.PassportAddress) d.ctx.address key :: evs,
        by rw [h1]; simp, ?_⟩
      intro e he
      rcases List.mem_cons.1 he with he | he
      · rw [he]; rfl
      · exact h2 e he
    · next factToWrite _ =>
      have hw := writeAndLink_recorded_calls d key (HexToAddress project.PassportAddress)
        factToWrite (TxnProcessing.updateProjectFactTransaction project.ID)
        (TxnProcessing.afterRead w chain₁ err)
      rw [afterRead_chain, hr] at hw
      have hkeys : ∀ e ∈ ([.read (HexToAddress project.PassportAddress) d.ctx.address key,
          .write (HexToAddress project.PassportAddress) key (d.json.Marshal factToWrite)] :
          List LedgerCall), e.factKey = key := by
        intro e he
        simp only [List.mem_cons, List.mem_singleton, List.not_mem_nil, or_false] at he
        rcases he with he | he <;> rw [he] <;> rfl
      split
      · next w₁ _ heq =>
        rw [heq] at hw
        obtain ⟨evs, h1, h2⟩ := ih w₁
        simp only at hw
        rw [hw] at h1
        refine ⟨[.read (HexToAddress project.PassportAddress) d.ctx.address key,
          .write (HexToAddress project.PassportAddress) key (d.json.Marshal factToWrite)] ++ evs,
          by rw [h1]; simp, ?_⟩
        intro e he
        rcases List.mem_append.1 he with he | he
        · exact hkeys e he
        · exact h2 e he
      · next heq =>
        rw [heq] at hw
        exact ⟨_, by rw [hw]; simp, hkeys⟩
      · next heq =>
        rw [heq] at hw
        exact ⟨_, by rw [hw]; simp, hkeys⟩

/-! ## Fact keys -/

theorem copyInto_of_le (n : Nat) (b : Bytes) (h : b.length ≤ n) :
    copyInto n b = b ++ List.replicate (n - b.length) 0 := by
  unfold copyInto
  rw [List.take_append_eq_append_take, List.take_of_length_le h, List.take_replicate]
  congr 2
  omega

/-- C18 (as amended): for every string `s` of at most 32 bytes `getFactKeyBytes` succeeds
and returns the 32-byte key that consists of the bytes of `s` followed by zero padding on
the right; for `s = "project"` this key is the one under which `updateProjectsFacts`
makes every read and every write of the ledger. -/
theorem getFactKeyBytes_pads_right (s : String) (h : (bytesOfString s).length ≤ 32) :
    getFactKeyBytes s =
        .ok (bytesOfString s ++ List.replicate (32 - (bytesOfString s).length) 0) ∧
      (bytesOfString s ++ List.replicate (32 - (bytesOfString s).length) 0).length = 32 ∧
      getFactKeyBytes factKeyProject = .ok projectKey ∧
      ∀ (L : Type) (d : Deps L) (projects : List dbmodels.Project)
        (w : World (L × List LedgerCall)),
        ∃ evs, (TxnProcessing.updateProjectsFacts d.recorded projects w).1.chain.2 =
            w.chain.2 ++ evs ∧ ∀ e ∈ evs, e.factKey = projectKey := by
  refine ⟨?_, ?_, by rfl, ?_⟩
  · unfold getFactKeyBytes
    rw [if_pos h, copyInto_of_le 32 _ h]
  · rw [List.length_append, List.length_replicate]
    omega
  · intro L d projects w
    have hk : getFactKeyBytes factKeyProject = .ok projectKey := by rfl
    unfold TxnProcessing.updateProjectsFacts
    rw [hk]
    exact updateProjectsFactsLoop_keys d projectKey projects w

/-- C18, witness: the amended statement for the string `project`. -/
theorem getFactKeyBytes_pads_right_witness :
    (bytesOfString "project").length ≤ 32 ∧
      getFactKeyBytes "project" =
        .ok (bytesOfString "project" ++
          List.replicate (32 - (bytesOfString "project").length) 0) :=
  ⟨by decide, (getFactKeyBytes_pads_right "project" (by decide)).1⟩

/-- C18, counterexample: the key of `project` starts with the seven bytes of the string
and ends with 25 zero bytes; it is not the string with zero padding on the left. -/
theorem getFactKeyBytes_not_left_padded :
    getFactKeyBytes "project" =
        .ok ([112, 114, 111, 106, 101, 99, 116] ++ List.replicate 25 0) ∧
      getFactKeyBytes "project" ≠ .ok (List.replicate 25 0 ++ bytesOfString "project") := by
  refine ⟨by rfl, by decide⟩

/-! ## The project fact -/

theorem ledgerWrites_append (a b : List LedgerCall) :
    ledgerWrites (a ++ b) = ledgerWrites a ++ ledgerWrites b := by
  simp [ledgerWrites]

theorem getProjectFact_eq_none_iff (project : dbmodels.Project)
    (projectFact : mosolyapi.BlockchainProjectFact) :
    getProjectFact project projectFact = none ↔ project.Name = projectFact.Payload.Name := by
  unfold getProjectFact
  simp only
  constructor
  · intro h
    by_cases hn : ({ Name := project.Name } : mosolyapi.ProjectFact) = projectFact.Payload
    · rw [← hn]
    · rw [if_neg hn] at h
      exact absurd h (by simp)
  · intro h
    have hn : ({ Name := project.Name } : mosolyapi.ProjectFact) = projectFact.Payload := by
      cases hp : projectFact.Payload with
      | mk n => rw [hp] at h; rw [h]
    rw [if_pos hn]

/-- When every project of the batch reads a baseline with its own name, the loop of
`updateProjectsFacts` makes no write. -/
theorem updateProjectsFactsLoop_no_write {L : Type} (d : Deps L)
    (projects : List dbmodels.Project)
    (hsame : ∀ p ∈ projects, ∀ chain : L × List LedgerCall,
      (TxnProcessing.projectBaseline d.recorded p chain).Payload.Name = p.Name) :
    ∀ w : World (L × List LedgerCall),
      ledgerWrites (TxnProcessing.updateProjectsFactsLoop d.recorded projectKey projects
        w).1.chain.2 = ledgerWrites w.chain.2 := by
  induction projects with
  | nil => intro w; rfl
  | cons project rest ih =>
    intro w
    have hr := readFact_recorded_calls d d.recorded.json.UnmarshalProject projectKey
      (HexToAddress project.PassportAddress) TxnProcessing.zeroProjectFact w.chain
    have hb := hsame project (List.mem_cons_self _ _) w.chain
    unfold TxnProcessing.projectBaseline at hb
    unfold TxnProcessing.zeroProjectFact at hr hb
    unfold TxnProcessing.updateProjectsFactsLoop
    generalize TxnProcessing.readFact _ _ projectKey _ _ w.chain = rd at hr hb ⊢
    obtain ⟨chain₁, projectFact, err⟩ := rd
    simp only at hr hb ⊢
    have hnone : getProjectFact project projectFact = none :=
      (getProjectFact_eq_none_iff project projectFact).2 hb.symm
    rw [hnone]
    simp only
    rw [ih (fun p hp => hsame p (List.mem_cons_of_mem _ hp)), afterRead_chain, hr,
      ledgerWrites_append]
    simp [ledgerWrites, LedgerCall.isWrite]

theorem afterRead_db {L : Type} (w : World L) (chain₁ : L) (err : Option String) :
    (TxnProcessing.afterRead w chain₁ err).db = w.db := by
  cases err <;> rfl

/-- A project that reads a baseline with its own name is passed over: only the read is
made on the ledger, the database is untouched, and the loop goes on. -/
theorem updateProjectsFacts_same_name {L : Type} (d : Deps L) (project : dbmodels.Project)
    (rest : List dbmodels.Project) (w : World (L × List LedgerCall))
    (hsame : (TxnProcessing.projectBaseline d.recorded project w.chain).Payload.Name =
      project.Name) :
    ∃ w', TxnProcessing.updateProjectsFacts d.recorded (project :: rest) w =
        TxnProcessing.updateProjectsFacts d.recorded rest w' ∧
      w'.chain.2 = w.chain.2 ++
        [.read (HexToAddress project.PassportAddress) d.ctx.address projectKey] ∧
      w'.db = w.db := by
  have hk : getFactKeyBytes factKeyProject = .ok projectKey := by rfl
  have hr := readFact_recorded_calls d d.recorded.json.UnmarshalProject projectKey
    (HexToAddress project.PassportAddress) TxnProcessing.zeroProjectFact w.chain
  unfold TxnProcessing.projectBaseline at hsame
  unfold TxnProcessing.zeroProjectFact at hr hsame
  rcases hrd : TxnProcessing.readFact d.recorded d.recorded.json.UnmarshalProject projectKey
    (HexToAddress project.PassportAddress)
    ({ BlockchainFact := TxnProcessing.zeroFact, Payload := { Name := "" } } :
      mosolyapi.BlockchainProjectFact) w.chain with ⟨chain₁, projectFact, err⟩
  rw [hrd] at hr hsame
  simp only at hr hsame
  have hnone : getProjectFact project projectFact = none :=
    (getProjectFact_eq_none_iff project projectFact).2 hsame.symm
  refine ⟨TxnProcessing.afterRead w chain₁ err, ?_, by rw [afterRead_chain, hr],
    afterRead_db w chain₁ err⟩
  unfold TxnProcessing.updateProjectsFacts
  rw [hk]
  simp only
  rw [TxnProcessing.updateProjectsFactsLoop, hrd]
  simp only
  rw [hnone]

/-- C14: `getProjectFact` returns nil if and only if the name of the project equals
the name of the baseline payload, and otherwise returns the fact with the project schema
URL and the payload `{name: project.Name}`; so a project whose baseline read from the
ledger carries its own name (on-chain `{name:"X"}`, local name `"X"`) causes no write in
`updateProjectsFacts`: the only ledger call made for it is the read, and no database
statement is issued. -/
theorem getProjectFact_spec {L : Type} (d : Deps L) (project : dbmodels.Project)
    (projectFact : mosolyapi.BlockchainProjectFact) (rest : List dbmodels.Project)
    (w : World (L × List LedgerCall)) :
    (getProjectFact project projectFact = none ↔ project.Name = projectFact.Payload.Name) ∧
    (project.Name ≠ projectFact.Payload.Name →
      getProjectFact project projectFact =
        some { Schema := projectSchemaURL,
               Payload := some (.project { Name := project.Name }) }) ∧
    ((TxnProcessing.projectBaseline d.recorded project w.chain).Payload.Name = project.Name →
      ∃ w', TxnProcessing.updateProjectsFacts d.recorded (project :: rest) w =
          TxnProcessing.updateProjectsFacts d.recorded rest w' ∧
        w'.chain.2 = w.chain.2 ++
          [.read (HexToAddress project.PassportAddress) d.ctx.address projectKey] ∧
        w'.db = w.db) := by
  refine ⟨getProjectFact_eq_none_iff project projectFact, ?_,
    updateProjectsFacts_same_name d project rest w⟩
  intro hne
  have h : ¬ getProjectFact project projectFact = none :=
    fun h => hne ((getProjectFact_eq_none_iff project projectFact).1 h)
  unfold getProjectFact at h ⊢
  simp only at h ⊢
  by_cases hn : ({ Name := project.Name } : mosolyapi.ProjectFact) = projectFact.Payload
  · rw [if_pos hn] at h; exact absurd rfl h
  · rw [if_neg hn]

set_option maxRecDepth 100000 in
/-- C14, witness: on the storage ledger whose passport `0x11` holds the JSON text of the
fact named `X`, the project named `X` reads that name back and is passed over. -/
theorem getProjectFact_spec_witness :
    (TxnProcessing.projectBaseline storageDeps.recorded projectX (chainWithX, [])).Payload.Name
        = projectX.Name ∧
    ∃ w', TxnProcessing.updateProjectsFacts storageDeps.recorded [projectX]
          { chain := (chainWithX, []), db := { store := emptyStore, script := [] }, log := [] } =
        TxnProcessing.updateProjectsFacts storageDeps.recorded [] w' ∧
      w'.chain.2 = [] ++ [.read (HexToAddress projectX.PassportAddress) [] projectKey] ∧
      w'.db = { store := emptyStore, script := [] } :=
  ⟨by rfl, (getProjectFact_spec storageDeps projectX TxnProcessing.zeroProjectFact []
    { chain := (chainWithX, []), db := { store := emptyStore, script := [] }, log := [] }).2.2
    (by rfl)⟩

/-! ## The order of strings and the sorted payloads -/

theorem lexLe_total : ∀ a b : List Nat, lexLe a b = true ∨ lexLe b a = true
  | [], _ => Or.inl (by simp [lexLe])
  | _ :: _, [] => Or.inr (by simp [lexLe])
  | a :: as, b :: bs => by
    rcases Nat.lt_trichotomy a b with h | h | h
    · left; simp [lexLe, h]
    · subst h
      rcases lexLe_total as bs with h' | h'
      · left; simp [lexLe, h']
      · right; simp [lexLe, h']
    · right; simp [lexLe, h]

theorem lexLe_trans : ∀ a b c : List Nat, lexLe a b = true → lexLe b c = true → lexLe a c = true
  | [], _, _, _, _ => by simp [lexLe]
  | _ :: _, [], _, h, _ => by simp [lexLe] at h
  | _ :: _, _ :: _, [], _, h => by simp [lexLe] at h
  | a :: as, b :: bs, c :: cs, hab, hbc => by
    unfold lexLe at hab hbc ⊢
    by_cases h1 : a < b
    · by_cases h2 : b < c
      · have : a < c := lt_trans h1 h2
        simp [this]
      · by_cases h3 : c < b
        · simp [h2, h3] at hbc
        · have hbc' : b = c := by omega
          subst hbc'
          simp [h1]
    · by_cases h1' : b < a
      · simp [h1, h1'] at hab
      · have hab' : a = b := by omega
        subst hab'
        simp only [h1, if_false] at hab
        by_cases h2 : a < c
        · simp [h2]
        · by_cases h3 : c < a
          · simp [h2, h3] at hbc
          · simp only [h2, h3, if_false] at hbc ⊢
            exact lexLe_trans as bs cs hab hbc

theorem sortStrings_sorted (l : List String) :
    List.Sorted (fun a b => stringLe a b = true) (sortStrings l) := by
  haveI : IsTotal String (fun a b => stringLe a b = true) := ⟨fun _ _ => lexLe_total _ _⟩
  haveI : IsTrans String (fun a b => stringLe a b = true) :=
    ⟨fun _ _ _ hab hbc => lexLe_trans _ _ _ hab hbc⟩
  exact List.sorted_insertionSort _ l

theorem sortStrings_perm (l : List String) : (sortStrings l).Perm l :=
  List.perm_insertionSort _ l

theorem sortStrings_eq_nil_iff (l : List String) : sortStrings l = [] ↔ l = [] := by
  constructor
  · intro h
    have := (sortStrings_perm l).length_eq
    rw [h] at this
    exact List.length_eq_zero.1 this.symm
  · intro h; subst h; rfl

/-! ## The user fact and the mentor-list fact -/

/-- The result of `getUserFact`, case by case. -/
theorem getUserFact_cases (user : dbmodels.User) (userFact : mosolyapi.BlockchainUserFact) :
    (getUserFact user userFact = none ↔
      userFact.Payload.InviteURLHash = user.InviteURLHash ∧
      userFact.Payload.Account = user.Account ∧
      userFact.Payload.Validated = user.Validated ∧
      userFact.Payload.Mentors =
        some (sortStrings (user.Mentors.map fun mentor => mentor.Account))) ∧
    (getUserFact user userFact ≠ none →
      getUserFact user userFact =
        some { Schema := userSchemaURL,
               Payload := some (.user
                 { InviteURLHash := user.InviteURLHash, Account := user.Account,
                   Validated := user.Validated,
                   Mentors := some (sortStrings (user.Mentors.map fun mentor =>
                     mentor.Account)) }) }) ∧
    List.Sorted (fun a b => stringLe a b = true)
      (sortStrings (user.Mentors.map fun mentor => mentor.Account)) ∧
    (sortStrings (user.Mentors.map fun mentor => mentor.Account)).Perm
      (user.Mentors.map fun mentor => mentor.Account) := by
  refine ⟨?_, ?_, sortStrings_sorted _, sortStrings_perm _⟩
  · unfold getUserFact
    simp only
    constructor
    · intro h
      split at h
      · next hn =>
        rw [← hn]
        exact ⟨rfl, rfl, rfl, rfl⟩
      · exact absurd h (by simp)
    · rintro ⟨h1, h2, h3, h4⟩
      split
      · rfl
      · next hn =>
        exfalso
        apply hn
        cases hp : userFact.Payload with
        | mk i a v m =>
          rw [hp] at h1 h2 h3 h4
          simp only at h1 h2 h3 h4
          rw [h1, h2, h3, h4]
  · intro hne
    unfold getUserFact at hne ⊢
    simp only at hne ⊢
    split
    · next hn => rw [if_pos hn] at hne; exact absurd rfl hne
    · rfl

/-- C11 (as amended): `getUserFact` returns nil exactly when the baseline payload has the
same invite hash, the same account, the same validated flag and a non-nil mentor list
equal to the mentor accounts of the user sorted ascending (a nil baseline list is not
equal to the list built for a user, not even for a user without mentors); otherwise it
returns a fact with the user schema URL whose payload carries those fields and whose
mentor list is the ascending-sorted permutation of the mentor accounts of the user. -/
theorem getUserFact_spec (user : dbmodels.User) (userFact : mosolyapi.BlockchainUserFact) :
    (getUserFact user userFact = none ↔
      userFact.Payload.InviteURLHash = user.InviteURLHash ∧
      userFact.Payload.Account = user.Account ∧
      userFact.Payload.Validated = user.Validated ∧
      userFact.Payload.Mentors =
        some (sortStrings (user.Mentors.map fun mentor => mentor.Account))) ∧
    (getUserFact user userFact ≠ none →
      getUserFact user userFact =
        some { Schema := userSchemaURL,
               Payload := some (.user
                 { InviteURLHash := user.InviteURLHash, Account := user.Account,
                   Validated := user.Validated,
                   Mentors := some (sortStrings (user.Mentors.map fun mentor =>
                     mentor.Account)) }) }) ∧
    List.Sorted (fun a b => stringLe a b = true)
      (sortStrings (user.Mentors.map fun mentor => mentor.Account)) ∧
    (sortStrings (user.Mentors.map fun mentor => mentor.Account)).Perm
      (user.Mentors.map fun mentor => mentor.Account) :=
  getUserFact_cases user userFact

/-- C11, counterexample: the user has no mentors and the baseline payload has the same
invite hash, account and validated flag and a nil mentor list, so both mentor
sequences are empty; `getUserFact` nevertheless returns a fact to write. -/
theorem getUserFact_nil_mentors_differ :
    baselineNilMentors.Payload.InviteURLHash = userWithoutMentors.InviteURLHash ∧
    baselineNilMentors.Payload.Account = userWithoutMentors.Account ∧
    baselineNilMentors.Payload.Validated = userWithoutMentors.Validated ∧
    baselineNilMentors.Payload.Mentors.getD [] =
      sortStrings (userWithoutMentors.Mentors.map fun mentor => mentor.Account) ∧
    getUserFact userWithoutMentors baselineNilMentors =
      some { Schema := userSchemaURL,
             Payload := some (.user { InviteURLHash := "invite", Account := "0xaa",
                                      Validated := true, Mentors := some [] }) } := by
  refine ⟨by rfl, by rfl, by rfl, by rfl, by rfl⟩

/-- The result of `getMentorFact`, case by case. -/
theorem getMentorFact_cases (user : dbmodels.User)
    (mentorFact : mosolyapi.BlockchainMentorFact) :
    (getMentorFact user mentorFact = none ↔
      sortStrings (user.Mentorees.map fun mentoree => mentoree.Account) =
        mentorFact.Payload.getD []) ∧
    (getMentorFact user mentorFact ≠ none →
      getMentorFact user mentorFact =
        some { Schema := mentoreesSchemaURL,
               Payload := some (.mentor (some (sortStrings
                 (user.Mentorees.map fun mentoree => mentoree.Account)))) }) ∧
    List.Sorted (fun a b => stringLe a b = true)
      (sortStrings (user.Mentorees.map fun mentoree => mentoree.Account)) ∧
    (sortStrings (user.Mentorees.map fun mentoree => mentoree.Account)).Perm
      (user.Mentorees.map fun mentoree => mentoree.Account) := by
  refine ⟨?_, ?_, sortStrings_sorted _, sortStrings_perm _⟩
  · unfold getMentorFact
    simp only
    by_cases h0 : (user.Mentorees.map fun mentoree => mentoree.Account).length = 0 ∧
        (mentorFact.Payload.getD []).length = 0
    · rw [if_pos h0]
      have h1 : (user.Mentorees.map fun mentoree => mentoree.Account) = [] :=
        List.length_eq_zero.1 h0.1
      have h2 : mentorFact.Payload.getD [] = [] := List.length_eq_zero.1 h0.2
      rw [h1, h2]
      exact ⟨fun _ => rfl, fun _ => rfl⟩
    · rw [if_neg h0]
      by_cases h1 : some (sortStrings (user.Mentorees.map fun mentoree => mentoree.Account)) =
          mentorFact.Payload
      · rw [if_pos h1, ← h1]
        exact ⟨fun _ => rfl, fun _ => rfl⟩
      · rw [if_neg h1]
        constructor
        · intro h; exact absurd h (by simp)
        · intro h
          exfalso
          cases hp : mentorFact.Payload with
          | some l =>
            rw [hp] at h h1
            simp only [Option.getD_some] at h
            exact h1 (by rw [h])
          | none =>
            rw [hp] at h
            simp only [Option.getD_none] at h
            apply h0
            refine ⟨?_, by rw [hp]; rfl⟩
            rw [(sortStrings_eq_nil_iff _).1 h]
            rfl
  · intro hne
    unfold getMentorFact at hne ⊢
    simp only at hne ⊢
    split
    · next h0 => rw [if_pos h0] at hne; exact absurd rfl hne
    · next h0 =>
      rw [if_neg h0] at hne
      split
      · next h1 => rw [if_pos h1] at hne; exact absurd rfl hne
      · rfl

/-- C12: `getMentorFact` returns nil exactly when the mentoree accounts of the user
sorted ascending equal the baseline payload as sequences, a nil baseline counting as the
empty sequence; otherwise it returns a fact with the mentorees schema URL whose payload
is the ascending-sorted permutation of the mentoree accounts of the user. -/
theorem getMentorFact_spec (user : dbmodels.User)
    (mentorFact : mosolyapi.BlockchainMentorFact) :
    (getMentorFact user mentorFact = none ↔
      sortStrings (user.Mentorees.map fun mentoree => mentoree.Account) =
        mentorFact.Payload.getD []) ∧
    (getMentorFact user mentorFact ≠ none →
      getMentorFact user mentorFact =
        some { Schema := mentoreesSchemaURL,
               Payload := some (.mentor (some (sortStrings
                 (user.Mentorees.map fun mentoree => mentoree.Account)))) }) ∧
    List.Sorted (fun a b => stringLe a b = true)
      (sortStrings (user.Mentorees.map fun mentoree => mentoree.Account)) ∧
    (sortStrings (user.Mentorees.map fun mentoree => mentoree.Account)).Perm
      (user.Mentorees.map fun mentoree => mentoree.Account) :=
  getMentorFact_cases user mentorFact

/-! ## The writes of `updateMentorsFacts` -/

/-- The loop of `updateMentorsFacts` processes the first user as a batch of one and goes
on with the rest when that batch returns nil. -/
theorem updateMentorsFacts_cons {L : Type} (d : Deps L) (user : dbmodels.User)
    (rest : List dbmodels.User) (w : World L) :
    TxnProcessing.updateMentorsFacts d (user :: rest) w =
      TxnProcessing.thenLoop (TxnProcessing.updateMentorsFacts d [user] w)
        (TxnProcessing.updateMentorsFacts d rest) := by
  unfold TxnProcessing.thenLoop
  rw [TxnProcessing.updateMentorsFacts, TxnProcessing.updateMentorsFacts]
  split
  · simp [TxnProcessing.updateMentorsFacts]
  · split
    next chain₁ mentorFact err _ =>
    split
    · simp [TxnProcessing.updateMentorsFacts]
    · split
      · next heq => simp [TxnProcessing.updateMentorsFacts]
      · next heq => simp
      · next heq => simp

/-- The ledger calls of `updateMentorsFacts` for one user: none for a user without
mentorees, the read alone when the differ returns nil, the read and one write of the
fact otherwise. -/
theorem updateMentorsFacts_single_calls {L : Type} (d : Deps L) (user : dbmodels.User)
    (w : World (L × List LedgerCall)) :
    (user.Mentorees = [] → TxnProcessing.updateMentorsFacts d.recorded [user] w = (w, .ok ())) ∧
    (user.Mentorees ≠ [] →
      (TxnProcessing.updateMentorsFacts d.recorded [user] w).1.chain.2 =
        w.chain.2 ++
          (.read (HexToAddress d.AppMosolyDidAddress) d.ctx.address
              (getMentorFactKeyBytes d.Keccak256 user.Account) ::
            match getMentorFact user (TxnProcessing.mentorBaseline d.recorded user w.chain) with
            | none => []
            | some fact =>
              [.write (HexToAddress d.AppMosolyDidAddress)
                (getMentorFactKeyBytes d.Keccak256 user.Account) (d.json.Marshal fact)])) := by
  constructor
  · intro h
    rw [TxnProcessing.updateMentorsFacts]
    simp [h, TxnProcessing.updateMentorsFacts]
  · intro h
    have hlen : ¬ user.Mentorees.length = 0 := fun h0 => h (List.length_eq_zero.1 h0)
    have hr := readFact_recorded_calls d d.recorded.json.UnmarshalMentor
      (getMentorFactKeyBytes d.recorded.Keccak256 user.Account)
      (HexToAddress d.recorded.AppMosolyDidAddress) TxnProcessing.zeroMentorFact w.chain
    unfold TxnProcessing.mentorBaseline
    unfold TxnProcessing.zeroMentorFact at hr ⊢
    rcases hrd : TxnProcessing.readFact d.recorded d.recorded.json.UnmarshalMentor
      (getMentorFactKeyBytes d.recorded.Keccak256 user.Account)
      (HexToAddress d.recorded.AppMosolyDidAddress)
      ({ BlockchainFact := TxnProcessing.zeroFact, Payload := none } :
        mosolyapi.BlockchainMentorFact) w.chain with ⟨chain₁, mentorFact, err⟩
    rw [hrd] at hr
    simp only at hr
    rw [TxnProcessing.updateMentorsFacts, if_neg hlen, hrd]
    simp only
    cases hf : getMentorFact user mentorFact with
    | none =>
      simp only [TxnProcessing.updateMentorsFacts]
      rw [afterRead_chain, hr]
      rfl
    | some fact =>
      simp only
      have hw := writeAndLink_recorded_calls d
        (getMentorFactKeyBytes d.recorded.Keccak256 user.Account)
        (HexToAddress d.recorded.AppMosolyDidAddress) fact
        (TxnProcessing.updateMentorFactTransaction user.ID)
        (TxnProcessing.afterRead w chain₁ err)
      rw [afterRead_chain, hr] at hw
      have hgoal : ∀ out : World (L × List LedgerCall) × Res Unit,
          out.1.chain.2 = (TxnProcessing.writeAndLink d.recorded
            (getMentorFactKeyBytes d.recorded.Keccak256 user.Account)
            (HexToAddress d.recorded.AppMosolyDidAddress) fact
            (TxnProcessing.updateMentorFactTransaction user.ID)
            (TxnProcessing.afterRead w chain₁ err)).1.chain.2 →
          out.1.chain.2 = w.chain.2 ++
            [.read (HexToAddress d.AppMosolyDidAddress) d.ctx.address
                (getMentorFactKeyBytes d.Keccak256 user.Account),
             .write (HexToAddress d.AppMosolyDidAddress)
                (getMentorFactKeyBytes d.Keccak256 user.Account) (d.json.Marshal fact)] := by
        intro out ho
        rw [ho, hw, List.append_assoc]
        rfl
      apply hgoal
      split
      · next heq => rw [heq]; rfl
      · next heq => rw [heq]
      · next heq => rw [heq]

/-- C13 (as amended): `updateMentorsFacts` processes the users of the batch one after the
other for as long as each returns nil.  For a user with a non-empty mentoree list whose
sorted mentoree accounts differ from the mentor-list payload read from the identity
contract, exactly one write is issued, of the fact with the sorted list, after the read;
when they are equal only the read is made.  A user whose mentoree list is empty is passed
over without any ledger call, whatever the contract holds. -/
theorem updateMentorsFacts_writes {L : Type} (d : Deps L) (user : dbmodels.User)
    (rest : List dbmodels.User) (w : World (L × List LedgerCall)) :
    (TxnProcessing.updateMentorsFacts d.recorded (user :: rest) w =
      TxnProcessing.thenLoop (TxnProcessing.updateMentorsFacts d.recorded [user] w)
        (TxnProcessing.updateMentorsFacts d.recorded rest)) ∧
    (user.Mentorees = [] → TxnProcessing.updateMentorsFacts d.recorded [user] w = (w, .ok ())) ∧
    (user.Mentorees ≠ [] →
      sortStrings (user.Mentorees.map fun mentoree => mentoree.Account) ≠
        (TxnProcessing.mentorBaseline d.recorded user w.chain).Payload.getD [] →
      (TxnProcessing.updateMentorsFacts d.recorded [user] w).1.chain.2 =
        w.chain.2 ++
          [.read (HexToAddress d.AppMosolyDidAddress) d.ctx.address
              (getMentorFactKeyBytes d.Keccak256 user.Account),
           .write (HexToAddress d.AppMosolyDidAddress)
              (getMentorFactKeyBytes d.Keccak256 user.Account)
              (d.json.Marshal
                { Schema := mentoreesSchemaURL,
                  Payload := some (.mentor (some (sortStrings
                    (user.Mentorees.map fun mentoree => mentoree.Account)))) })]) ∧
    (user.Mentorees ≠ [] →
      sortStrings (user.Mentorees.map fun mentoree => mentoree.Account) =
        (TxnProcessing.mentorBaseline d.recorded user w.chain).Payload.getD [] →
      (TxnProcessing.updateMentorsFacts d.recorded [user] w).1.chain.2 =
        w.chain.2 ++
          [.read (HexToAddress d.AppMosolyDidAddress) d.ctx.address
              (getMentorFactKeyBytes d.Keccak256 user.Account)]) := by
  obtain ⟨hskip, hcalls⟩ := updateMentorsFacts_single_calls d user w
  obtain ⟨hiff, hsome, _, _⟩ :=
    getMentorFact_cases user (TxnProcessing.mentorBaseline d.recorded user w.chain)
  refine ⟨updateMentorsFacts_cons d.recorded user rest w, hskip, ?_, ?_⟩
  · intro hne hdiff
    have hnn : getMentorFact user (TxnProcessing.mentorBaseline d.recorded user w.chain) ≠ none :=
      fun h => hdiff (hiff.1 h)
    rw [hcalls hne, hsome hnn]
  · intro hne hsame
    rw [hcalls hne, hiff.2 hsame]

set_option maxRecDepth 100000 in
/-- C13, witness: on the empty storage ledger the user with the mentoree `0xbb` reads
nothing, and one write of the list with `0xbb` follows the read. -/
theorem updateMentorsFacts_writes_witness :
    (TransformUser sampleCaseTable mentorOfTwo).Mentorees ≠ [] ∧
    sortStrings ((TransformUser sampleCaseTable mentorOfTwo).Mentorees.map
        fun mentoree => mentoree.Account) ≠
      (TxnProcessing.mentorBaseline storageDeps.recorded (TransformUser sampleCaseTable mentorOfTwo)
        ([], [])).Payload.getD [] ∧
    (TxnProcessing.updateMentorsFacts storageDeps.recorded
        [TransformUser sampleCaseTable mentorOfTwo]
        { chain := ([], []), db := { store := emptyStore, script := [] }, log := [] }).1.chain.2 =
      [] ++
        [.read (HexToAddress "0x01") [] (getMentorFactKeyBytes (fun b => b) "0xaa"),
         .write (HexToAddress "0x01") (getMentorFactKeyBytes (fun b => b) "0xaa")
            ((goJson asciiJson).Marshal
              { Schema := mentoreesSchemaURL,
                Payload := some (.mentor (some (sortStrings
                  ((TransformUser sampleCaseTable mentorOfTwo).Mentorees.map fun mentoree =>
                    mentoree.Account)))) })] :=
  ⟨by decide, by decide,
    (updateMentorsFacts_writes storageDeps (TransformUser sampleCaseTable mentorOfTwo) []
      { chain := ([], []), db := { store := emptyStore, script := [] }, log := [] }).2.2.1
      (by decide) (by decide)⟩

set_option maxRecDepth 100000 in
/-- C13, counterexample: the identity contract holds the mentor list `["0xaa"]` for a
user whose mentoree list is now empty, so the sorted list of the user differs from the
payload on the ledger; `updateMentorsFacts` passes the user over and makes no ledger
call, hence no write. -/
theorem updateMentorsFacts_skips_emptied_list :
    (TxnProcessing.mentorBaseline storageDeps.recorded userWithoutMentorees
        (chainWithMentorees, [])).Payload = some ["0xaa"] ∧
    sortStrings (userWithoutMentorees.Mentorees.map fun mentoree => mentoree.Account) = [] ∧
    (TxnProcessing.updateMentorsFacts storageDeps.recorded [userWithoutMentorees]
        { chain := (chainWithMentorees, []), db := { store := emptyStore, script := [] },
          log := [] }).1.chain.2 = [] ∧
    ledgerWrites
      (TxnProcessing.updateMentorsFacts storageDeps.recorded [userWithoutMentorees]
        { chain := (chainWithMentorees, []), db := { store := emptyStore, script := [] },
          log := [] }).1.chain.2 = [] := by
  refine ⟨by rfl, by rfl, by rfl, by rfl⟩

/-! ## `readFact` -/

/-- The iteration of `updateUsersFacts` for the first user, given what `readFact`
returned for that user. -/
theorem updateUsersFacts_cons_of_read {L : Type} (d : Deps L) (user : dbmodels.User)
    (rest : List dbmodels.User) (w : World L) (chain₁ : L)
    (userFact : mosolyapi.BlockchainUserFact) (err : Option String)
    (hrd : TxnProcessing.readFact d d.json.UnmarshalUser (getBytesFromHexAddress user.Account)
      (HexToAddress d.AppMosolyDidAddress) TxnProcessing.zeroUserFact w.chain =
        (chain₁, userFact, err)) :
    (getUserFact user userFact = none →
      TxnProcessing.updateUsersFacts d (user :: rest) w =
        TxnProcessing.updateUsersFacts d rest (TxnProcessing.afterRead w chain₁ err)) ∧
    (∀ fact, getUserFact user userFact = some fact →
      TxnProcessing.updateUsersFacts d (user :: rest) w =
        TxnProcessing.thenLoop
          (TxnProcessing.writeAndLink d (getBytesFromHexAddress user.Account)
            (HexToAddress d.AppMosolyDidAddress) fact
            (TxnProcessing.updateUserFactTransaction user.ID)
            (TxnProcessing.afterRead w chain₁ err))
          (TxnProcessing.updateUsersFacts d rest)) := by
  unfold TxnProcessing.zeroUserFact at hrd
  constructor
  · intro hnone
    rw [TxnProcessing.updateUsersFacts, hrd]
    simp only
    rw [hnone]
  · intro fact hsome
    rw [TxnProcessing.updateUsersFacts, hrd]
    simp only
    rw [hsome]
    unfold TxnProcessing.thenLoop
    simp only

/-- C20: when the contract read returns NotFound, `readFact` returns nil and leaves the
fact object as it was; when the read returns any other error, `readFact` returns a
non-nil error and leaves the fact object as it was, and `updateUsersFacts` logs the error
and applies the differ to the zero baseline; when the read returns non-empty bytes with
no error, the fact object is what `json.Unmarshal` makes of it from those bytes, and the
error of `readFact` is the error of the decoding, if any. -/
theorem readFact_spec {L α : Type} (d : Deps L) (unmarshal : Bytes → α → α × Option String)
    (factKey passportAddress : Bytes) (factObject : α) (chain : L)
    (user : dbmodels.User) (rest : List dbmodels.User) (w : World L) :
    (∀ chain₁, d.ctx.ReadTxData passportAddress d.ctx.address factKey chain = (chain₁, .notFound) →
      TxnProcessing.readFact d unmarshal factKey passportAddress factObject chain =
        (chain₁, factObject, none)) ∧
    (∀ chain₁ e,
      d.ctx.ReadTxData passportAddress d.ctx.address factKey chain = (chain₁, .failed e) →
      TxnProcessing.readFact d unmarshal factKey passportAddress factObject chain =
        (chain₁, factObject, some ("syncToBlockchain: ReadTxData failed: " ++ e))) ∧
    (∀ chain₁ bytes,
      d.ctx.ReadTxData passportAddress d.ctx.address factKey chain = (chain₁, .data bytes) →
      bytes ≠ [] →
      (TxnProcessing.readFact d unmarshal factKey passportAddress factObject chain).2.1 =
          (unmarshal bytes factObject).1 ∧
        (TxnProcessing.readFact d unmarshal factKey passportAddress factObject chain).2.2 =
          (unmarshal bytes factObject).2.map
            (fun e => "readFact: can't unmarshal tx data: " ++ e)) ∧
    (∀ chain₁ e,
      d.ctx.ReadTxData (HexToAddress d.AppMosolyDidAddress) d.ctx.address
        (getBytesFromHexAddress user.Account) w.chain = (chain₁, .failed e) →
      (getUserFact user TxnProcessing.zeroUserFact = none →
        TxnProcessing.updateUsersFacts d (user :: rest) w =
          TxnProcessing.updateUsersFacts d rest
            (({ w with chain := chain₁ } : World L).println
              ("syncToBlockchain: ReadTxData failed: " ++ e))) ∧
      (∀ fact, getUserFact user TxnProcessing.zeroUserFact = some fact →
        TxnProcessing.updateUsersFacts d (user :: rest) w =
          TxnProcessing.thenLoop
            (TxnProcessing.writeAndLink d (getBytesFromHexAddress user.Account)
              (HexToAddress d.AppMosolyDidAddress) fact
              (TxnProcessing.updateUserFactTransaction user.ID)
              (({ w with chain := chain₁ } : World L).println
                ("syncToBlockchain: ReadTxData failed: " ++ e)))
            (TxnProcessing.updateUsersFacts d rest))) := by
  refine ⟨?_, ?_, ?_, ?_⟩
  · intro chain₁ h
    unfold TxnProcessing.readFact
    rw [h]
  · intro chain₁ e h
    unfold TxnProcessing.readFact
    rw [h]
  · intro chain₁ bytes h hne
    have hlen : bytes.length > 0 := List.length_pos.2 hne
    unfold TxnProcessing.readFact
    rw [h]
    simp only [if_pos hlen]
    cases hu : unmarshal bytes factObject with
    | mk obj oe =>
      cases oe <;> simp
  · intro chain₁ e h
    have hrd : TxnProcessing.readFact d d.json.UnmarshalUser
        (getBytesFromHexAddress user.Account) (HexToAddress d.AppMosolyDidAddress)
        TxnProcessing.zeroUserFact w.chain =
        (chain₁, TxnProcessing.zeroUserFact,
          some ("syncToBlockchain: ReadTxData failed: " ++ e)) := by
      unfold TxnProcessing.readFact
      rw [h]
    exact updateUsersFacts_cons_of_read d user rest w chain₁ _ _ hrd

/-- C20, witness: on the storage ledger without data the read of the project fact finds
nothing, and `readFact` returns the zero object and nil. -/
theorem readFact_spec_witness :
    storageDeps.ctx.ReadTxData (HexToAddress "0x11") storageDeps.ctx.address projectKey [] =
      ([], .notFound) ∧
    TxnProcessing.readFact storageDeps storageDeps.json.UnmarshalProject projectKey
        (HexToAddress "0x11") TxnProcessing.zeroProjectFact [] =
      ([], TxnProcessing.zeroProjectFact, none) :=
  ⟨rfl, (readFact_spec storageDeps storageDeps.json.UnmarshalProject projectKey
    (HexToAddress "0x11") TxnProcessing.zeroProjectFact [] userWithoutMentors []
    { chain := [], db := { store := emptyStore, script := [] }, log := [] }).1 [] rfl⟩

/-! ## The transaction row of a written fact -/

/-- When the write succeeds with hash `h` and the server executes the insert,
`writeAndLink` goes on to the link with the id drawn from the sequence; when the link is
executed too, the loop goes on. -/
theorem writeAndLink_of_write_ok {L : Type} (d : Deps L) (factKey passportAddress : Bytes)
    (fact : mosolyapi.BlockchainFact) (link : Int → Session → Session × Res Unit)
    (w : World L) (chain₂ : L) (h : Hash) (db₂ : Session)
    (hw : TxnProcessing.writeFact d factKey passportAddress fact w.chain = (chain₂, .ok h))
    (hins : w.db.step.err = none)
    (hlink : link (w.db.store.transactions_id_seq + 1)
      (w.db.advance (TxnProcessing.insertTransaction w.db.store h.String w.db.step.now)) =
        (db₂, .ok ())) :
    TxnProcessing.writeAndLink d factKey passportAddress fact link w =
      ({ w with chain := chain₂, db := db₂ }, .ok ()) := by
  unfold TxnProcessing.writeAndLink
  rw [hw]
  simp only [TxnProcessing.createTxnData, hins, hlink]

/-- C17 (amended): for an entity whose desired payload differs from the baseline that
`readFact` returned and whose ledger write succeeds with hash `h`, when the server
executes the two statements that follow (the INSERT of `createTxnData` and the UPDATE
that links the owning rows), the iteration of the pass appends exactly one row to
`transactions` — in state InProgress, with `transaction_hash` the string form of `h`,
`modified_by` the audit name of the writer and the next id of the sequence — sets
`transaction_id` of the owning rows (the `user_data` row of the user, the `project_data`
row of the project, the `mentorship` rows of the user) to that id, leaves the other
tables as they were, and the pass goes on with the remaining entities. -/
theorem pass_creates_linked_row {L : Type} (d : Deps L) (w : World L) (chain₁ chain₂ : L)
    (err : Option String) (fact : mosolyapi.BlockchainFact) (h : Hash)
    (hins : w.db.step.err = none) (hupd : (w.db.advance w.db.store).step.err = none) :
    (∀ (user : dbmodels.User) (rest : List dbmodels.User)
        (userFact : mosolyapi.BlockchainUserFact),
      TxnProcessing.readFact d d.json.UnmarshalUser (getBytesFromHexAddress user.Account)
        (HexToAddress d.AppMosolyDidAddress) TxnProcessing.zeroUserFact w.chain =
          (chain₁, userFact, err) →
      getUserFact user userFact = some fact →
      TxnProcessing.writeFact d (getBytesFromHexAddress user.Account)
        (HexToAddress d.AppMosolyDidAddress) fact chain₁ = (chain₂, .ok h) →
      ∃ w₁ : World L,
        TxnProcessing.updateUsersFacts d (user :: rest) w =
          TxnProcessing.updateUsersFacts d rest w₁ ∧
        w₁.chain = chain₂ ∧
        w₁.db.store.transactions = w.db.store.transactions ++
          [{ id := w.db.store.transactions_id_seq + 1, created := w.db.step.now,
             updated := w.db.step.now, modified_by := TxnProcessing.GetAuditName,
             transaction_hash := h.String, transaction_state_id := TxnInProgress }] ∧
        w₁.db.store.user_data = w.db.store.user_data.map (fun row =>
          if row.id = user.ID then
            { row with transaction_id := some (w.db.store.transactions_id_seq + 1) }
          else row) ∧
        w₁.db.store.project_data = w.db.store.project_data ∧
        w₁.db.store.mentorship = w.db.store.mentorship) ∧
    (∀ (user : dbmodels.User) (rest : List dbmodels.User)
        (mentorFact : mosolyapi.BlockchainMentorFact),
      user.Mentorees ≠ [] →
      TxnProcessing.readFact d d.json.UnmarshalMentor
        (getMentorFactKeyBytes d.Keccak256 user.Account)
        (HexToAddress d.AppMosolyDidAddress) TxnProcessing.zeroMentorFact w.chain =
          (chain₁, mentorFact, err) →
      getMentorFact user mentorFact = some fact →
      TxnProcessing.writeFact d (getMentorFactKeyBytes d.Keccak256 user.Account)
        (HexToAddress d.AppMosolyDidAddress) fact chain₁ = (chain₂, .ok h) →
      ∃ w₁ : World L,
        TxnProcessing.updateMentorsFacts d (user :: rest) w =
          TxnProcessing.updateMentorsFacts d rest w₁ ∧
        w₁.chain = chain₂ ∧
        w₁.db.store.transactions = w.db.store.transactions ++
          [{ id := w.db.store.transactions_id_seq + 1, created := w.db.step.now,
             updated := w.db.step.now, modified_by := TxnProcessing.GetAuditName,
             transaction_hash := h.String, transaction_state_id := TxnInProgress }] ∧
        w₁.db.store.mentorship = w.db.store.mentorship.map (fun row =>
          if row.user_id = user.ID then
            { row with transaction_id := some (w.db.store.transactions_id_seq + 1) }
          else row) ∧
        w₁.db.store.user_data = w.db.store.user_data ∧
        w₁.db.store.project_data = w.db.store.project_data) ∧
    (∀ (project : dbmodels.Project) (rest : List dbmodels.Project)
        (projectFact : mosolyapi.BlockchainProjectFact),
      TxnProcessing.readFact d d.json.UnmarshalProject projectKey
        (HexToAddress project.PassportAddress) TxnProcessing.zeroProjectFact w.chain =
          (chain₁, projectFact, err) →
      getProjectFact project projectFact = some fact →
      TxnProcessing.writeFact d projectKey (HexToAddress project.PassportAddress) fact
        chain₁ = (chain₂, .ok h) →
      ∃ w₁ : World L,
        TxnProcessing.updateProjectsFacts d (project :: rest) w =
          TxnProcessing.updateProjectsFacts d rest w₁ ∧
        w₁.chain = chain₂ ∧
        w₁.db.store.transactions = w.db.store.transactions ++
          [{ id := w.db.store.transactions_id_seq + 1, created := w.db.step.now,
             updated := w.db.step.now, modified_by := TxnProcessing.GetAuditName,
             transaction_hash := h.String, transaction_state_id := TxnInProgress }] ∧
        w₁.db.store.project_data = w.db.store.project_data.map (fun row =>
          if row.id = project.ID then
            { row with transaction_id := some (w.db.store.transactions_id_seq + 1) }
          else row) ∧
        w₁.db.store.user_data = w.db.store.user_data ∧
        w₁.db.store.mentorship = w.db.store.mentorship) := by
  have hupd' : ∀ st, (w.db.advance st).step.err = none := fun st => hupd
  have hchain : ∀ e, (TxnProcessing.afterRead w chain₁ e).chain = chain₁ := by
    intro e; cases e <;> rfl
  have hdb : ∀ e, (TxnProcessing.afterRead w chain₁ e).db = w.db := by
    intro e; cases e <;> rfl
  refine ⟨?_, ?_, ?_⟩
  · intro user rest userFact hrd hsome hw
    have hwl := writeAndLink_of_write_ok d (getBytesFromHexAddress user.Account)
      (HexToAddress d.AppMosolyDidAddress) fact
      (TxnProcessing.updateUserFactTransaction user.ID)
      (TxnProcessing.afterRead w chain₁ err) chain₂ h _
      (by rw [hchain]; exact hw) (by rw [hdb]; exact hins)
      (by rw [hdb, TxnProcessing.updateUserFactTransaction, hupd'])
    refine ⟨(TxnProcessing.writeAndLink d (getBytesFromHexAddress user.Account) 
        (HexToAddress d.AppMosolyDidAddress) fact
      (TxnProcessing.updateUserFactTransaction user.ID)
      (TxnProcessing.afterRead w chain₁ err)).1, ?_, ?_⟩
    · rw [(updateUsersFacts_cons_of_read d user rest w chain₁ userFact err hrd).2 fact hsome]
      unfold TxnProcessing.thenLoop
      rw [hwl]
    · rw [hwl]
      exact ⟨rfl, rfl, rfl, rfl, rfl⟩
  · intro user rest mentorFact hne hrd hsome hw
    have hwl := writeAndLink_of_write_ok d (getMentorFactKeyBytes d.Keccak256 user.Account)
      (HexToAddress d.AppMosolyDidAddress) fact
      (TxnProcessing.updateMentorFactTransaction user.ID)
      (TxnProcessing.afterRead w chain₁ err) chain₂ h _
      (by rw [hchain]; exact hw) (by rw [hdb]; exact hins)
      (by rw [hdb, TxnProcessing.updateMentorFactTransaction, hupd'])
    have hlen : ¬ user.Mentorees.length = 0 := by
      intro h0; exact hne (List.length_eq_zero.1 h0)
    unfold TxnProcessing.zeroMentorFact at hrd
    refine ⟨(TxnProcessing.writeAndLink d (getMentorFactKeyBytes d.Keccak256 user.Account) 
        (HexToAddress d.AppMosolyDidAddress) fact
      (TxnProcessing.updateMentorFactTransaction user.ID)
      (TxnProcessing.afterRead w chain₁ err)).1, ?_, ?_⟩
    · rw [TxnProcessing.updateMentorsFacts, if_neg hlen, hrd]
      simp only
      rw [hsome]
      simp only
      rw [hwl]
    · rw [hwl]
      exact ⟨rfl, rfl, rfl, rfl, rfl⟩
  · intro project rest projectFact hrd hsome hw
    have hwl := writeAndLink_of_write_ok d projectKey
      (HexToAddress project.PassportAddress) fact
      (TxnProcessing.updateProjectFactTransaction project.ID)
      (TxnProcessing.afterRead w chain₁ err) chain₂ h _
      (by rw [hchain]; exact hw) (by rw [hdb]; exact hins)
      (by rw [hdb, TxnProcessing.updateProjectFactTransaction, hupd'])
    unfold TxnProcessing.zeroProjectFact at hrd
    have hkey : getFactKeyBytes factKeyProject = .ok projectKey := rfl
    refine ⟨(TxnProcessing.writeAndLink d projectKey 
        (HexToAddress project.PassportAddress) fact
      (TxnProcessing.updateProjectFactTransaction project.ID)
      (TxnProcessing.afterRead w chain₁ err)).1, ?_, ?_⟩
    · rw [TxnProcessing.updateProjectsFacts, TxnProcessing.updateProjectsFacts, hkey]
      simp only
      rw [TxnProcessing.updateProjectsFactsLoop, hrd]
      simp only
      rw [hsome]
      simp only
      rw [hwl]
    · rw [hwl]
      exact ⟨rfl, rfl, rfl, rfl, rfl⟩

/-- C17, witness: user 1 of the examples against the empty baseline of the scripted
ledger, the write succeeding with the sample hash. -/
theorem pass_creates_linked_row_witness :
    worldOfUserOne.db.step.err = none ∧
    (worldOfUserOne.db.advance worldOfUserOne.db.store).step.err = none ∧
    getUserFact userWithoutMentors TxnProcessing.zeroUserFact = some factOfUserOne ∧
    ∃ w₁ : World (List (Res Hash) × List LedgerCall),
      TxnProcessing.updateUsersFacts sampleDeps.recorded [userWithoutMentors] worldOfUserOne =
        TxnProcessing.updateUsersFacts sampleDeps.recorded [] w₁ ∧
      w₁.chain = ([.ok secondHash],
        [.read (HexToAddress "0x01") [] (getBytesFromHexAddress "0xaa"),
         .write (HexToAddress "0x01") (getBytesFromHexAddress "0xaa") []]) ∧
      w₁.db.store.transactions = worldOfUserOne.db.store.transactions ++
        [{ id := worldOfUserOne.db.store.transactions_id_seq + 1,
           created := worldOfUserOne.db.step.now, updated := worldOfUserOne.db.step.now,
           modified_by := TxnProcessing.GetAuditName,
           transaction_hash := sampleHash.String, transaction_state_id := TxnInProgress }] ∧
      w₁.db.store.user_data = worldOfUserOne.db.store.user_data.map (fun row =>
        if row.id = userWithoutMentors.ID then
          { row with transaction_id := some (worldOfUserOne.db.store.transactions_id_seq + 1) }
        else row) ∧
      w₁.db.store.project_data = worldOfUserOne.db.store.project_data ∧
      w₁.db.store.mentorship = worldOfUserOne.db.store.mentorship :=
  ⟨rfl, rfl, rfl,
    (pass_creates_linked_row sampleDeps.recorded worldOfUserOne
      ([.ok sampleHash, .ok secondHash],
        [.read (HexToAddress "0x01") [] (getBytesFromHexAddress "0xaa")])
      ([.ok secondHash],
        [.read (HexToAddress "0x01") [] (getBytesFromHexAddress "0xaa"),
         .write (HexToAddress "0x01") (getBytesFromHexAddress "0xaa") []])
      none factOfUserOne sampleHash rfl rfl).1
      userWithoutMentors [] TxnProcessing.zeroUserFact rfl rfl rfl⟩

/-- C17, counterexample: user 1 of the examples differs from the empty baseline and the
write of the fact succeeds with the sample hash; the server executes the INSERT of
`createTxnData` and loses the connection on the UPDATE of `updateUserFactTransaction`.
The error is logged and the pass returns nil: `transactions` holds the new row in state
InProgress, and `transaction_id` of the `user_data` row of the user is still NULL. -/
theorem pass_leaves_row_unlinked :
    getUserFact userWithoutMentors
      (TxnProcessing.userBaseline sampleDeps.recorded userWithoutMentors
        worldOfLostLink.chain) = some factOfUserOne ∧
    TxnProcessing.writeFact sampleDeps.recorded
        (getBytesFromHexAddress userWithoutMentors.Account)
        (HexToAddress sampleDeps.recorded.AppMosolyDidAddress) factOfUserOne
        ([.ok sampleHash, .ok secondHash],
          [.read (HexToAddress "0x01") [] (getBytesFromHexAddress "0xaa")]) =
      (([.ok secondHash],
        [.read (HexToAddress "0x01") [] (getBytesFromHexAddress "0xaa"),
         .write (HexToAddress "0x01") (getBytesFromHexAddress "0xaa") []]), .ok sampleHash) ∧
    (TxnProcessing.updateUsersFacts sampleDeps.recorded [userWithoutMentors]
      worldOfLostLink).2 = .ok () ∧
    (TxnProcessing.updateUsersFacts sampleDeps.recorded [userWithoutMentors]
      worldOfLostLink).1.chain =
      ([.ok secondHash],
        [.read (HexToAddress "0x01") [] (getBytesFromHexAddress "0xaa"),
         .write (HexToAddress "0x01") (getBytesFromHexAddress "0xaa") []]) ∧
    (TxnProcessing.updateUsersFacts sampleDeps.recorded [userWithoutMentors]
      worldOfLostLink).1.log = ["driver: bad connection"] ∧
    (TxnProcessing.updateUsersFacts sampleDeps.recorded [userWithoutMentors]
      worldOfLostLink).1.db.store.transactions =
      [{ id := 1, created := 0, updated := 0, modified_by := "mosoly-txnprocessing",
         transaction_hash := sampleHash.String, transaction_state_id := TxnInProgress }] ∧
    (TxnProcessing.updateUsersFacts sampleDeps.recorded [userWithoutMentors]
      worldOfLostLink).1.db.store.user_data =
      [{ id := 1, invite_url_hash := "invite", account := "0xaa", updated_at := 5,
         validated := true, transaction_id := none }] :=
  ⟨rfl, rfl, rfl, rfl, rfl, rfl, rfl⟩

/-! ## Transactions in progress of one entity -/

/-- The end of an iteration leaves the rows of `transactions` as they were and appends at
most one row, which is in progress, whatever the ledger and the server do, provided the
link statement does not touch `transactions`. -/
theorem writeAndLink_transactions {L : Type} (d : Deps L) (factKey passportAddress : Bytes)
    (fact : mosolyapi.BlockchainFact) (link : Int → Session → Session × Res Unit)
    (hlink : ∀ trxID s, (link trxID s).1.store.transactions = s.store.transactions)
    (w : World L) :
    ∃ new : List TransactionRow,
      (TxnProcessing.writeAndLink d factKey passportAddress fact link w).1.db.store.transactions =
        w.db.store.transactions ++ new ∧
      new.length ≤ 1 ∧
      ∀ row ∈ new, row.transaction_state_id = TxnInProgress ∧
        row.modified_by = TxnProcessing.GetAuditName := by
  unfold TxnProcessing.writeAndLink
  rcases hw : TxnProcessing.writeFact d factKey passportAddress fact w.chain with ⟨chain₁, r⟩
  cases r with
  | panicked p => exact ⟨[], by simp [World.println], by simp, by simp⟩
  | error e => exact ⟨[], by simp [World.println], by simp, by simp⟩
  | ok hash =>
    simp only
    unfold TxnProcessing.createTxnData
    cases hs : w.db.step.err with
    | some e => exact ⟨[], by simp [World.println, Session.advance], by simp, by simp⟩
    | none =>
      simp only
      have hl := hlink (w.db.store.transactions_id_seq + 1)
        (w.db.advance (TxnProcessing.insertTransaction w.db.store hash.String w.db.step.now))
      rcases hk : link (w.db.store.transactions_id_seq + 1)
        (w.db.advance (TxnProcessing.insertTransaction w.db.store hash.String w.db.step.now))
        with ⟨db₂, r₂⟩
      rw [hk] at hl
      simp only [Session.advance, TxnProcessing.insertTransaction] at hl
      refine ⟨[{ id := w.db.store.transactions_id_seq + 1, created := w.db.step.now,
                 updated := w.db.step.now, modified_by := TxnProcessing.GetAuditName,
                 transaction_hash := hash.String, transaction_state_id := TxnInProgress }],
        ?_, Nat.le_refl 1, ?_⟩
      · cases r₂ <;> simp only [World.println] <;> exact hl
      · intro row hrow
        simp only [List.mem_singleton] at hrow
        subst hrow
        exact ⟨rfl, rfl⟩

theorem updateUserFactTransaction_transactions (userID trxID : Int) (s : Session) :
    (TxnProcessing.updateUserFactTransaction userID trxID s).1.store.transactions =
      s.store.transactions := by
  unfold TxnProcessing.updateUserFactTransaction
  cases s.step.err <;> rfl

theorem updateMentorFactTransaction_transactions (userID trxID : Int) (s : Session) :
    (TxnProcessing.updateMentorFactTransaction userID trxID s).1.store.transactions =
      s.store.transactions := by
  unfold TxnProcessing.updateMentorFactTransaction
  cases s.step.err <;> rfl

theorem updateProjectFactTransaction_transactions (projectID trxID : Int) (s : Session) :
    (TxnProcessing.updateProjectFactTransaction projectID trxID s).1.store.transactions =
      s.store.transactions := by
  unfold TxnProcessing.updateProjectFactTransaction
  cases s.step.err <;> rfl

theorem afterRead_transactions {L : Type} (w : World L) (chain₁ : L) (err : Option String) :
    (TxnProcessing.afterRead w chain₁ err).db.store.transactions = w.db.store.transactions := by
  cases err <;> rfl

/-- What the rest of a loop adds to `transactions` after an iteration that added `new₁`. -/
theorem appended_rows_trans (t₀ t₁ t₂ new₁ new₂ : List TransactionRow) (n : Nat)
    (h₁ : t₁ = t₀ ++ new₁) (l₁ : new₁.length ≤ 1)
    (p₁ : ∀ row ∈ new₁, row.transaction_state_id = TxnInProgress ∧
      row.modified_by = TxnProcessing.GetAuditName)
    (h₂ : t₂ = t₁ ++ new₂) (l₂ : new₂.length ≤ n)
    (p₂ : ∀ row ∈ new₂, row.transaction_state_id = TxnInProgress ∧
      row.modified_by = TxnProcessing.GetAuditName) :
    ∃ new : List TransactionRow, t₂ = t₀ ++ new ∧ new.length ≤ n + 1 ∧
      ∀ row ∈ new, row.transaction_state_id = TxnInProgress ∧
        row.modified_by = TxnProcessing.GetAuditName := by
  refine ⟨new₁ ++ new₂, ?_, ?_, ?_⟩
  · rw [h₂, h₁, List.append_assoc]
  · rw [List.length_append]; omega
  · intro row hrow
    rcases List.mem_append.1 hrow with h | h
    · exact p₁ row h
    · exact p₂ row h

/-- A pass over users appends at most one row in progress per user to `transactions`
and leaves the rows that were there as they were. -/
theorem updateUsersFacts_transactions {L : Type} (d : Deps L) (users : List dbmodels.User)
    (w : World L) :
    ∃ new : List TransactionRow,
      (TxnProcessing.updateUsersFacts d users w).1.db.store.transactions =
        w.db.store.transactions ++ new ∧
      new.length ≤ users.length ∧
      ∀ row ∈ new, row.transaction_state_id = TxnInProgress ∧
        row.modified_by = TxnProcessing.GetAuditName := by
  induction users generalizing w with
  | nil => exact ⟨[], by simp [TxnProcessing.updateUsersFacts], by simp, by simp⟩
  | cons user rest ih =>
    rw [TxnProcessing.updateUsersFacts]
    generalize TxnProcessing.readFact _ _ _ _ _ w.chain = rd
    obtain ⟨chain₁, userFact, err⟩ := rd
    simp only
    cases getUserFact user userFact with
    | none =>
      simp only
      obtain ⟨new, h₁, h₂, h₃⟩ := ih (TxnProcessing.afterRead w chain₁ err)
      rw [afterRead_transactions] at h₁
      exact ⟨new, h₁, by rw [List.length_cons]; omega, h₃⟩
    | some fact =>
      simp only
      obtain ⟨new₁, a₁, a₂, a₃⟩ := writeAndLink_transactions d
        (getBytesFromHexAddress user.Account) (HexToAddress d.AppMosolyDidAddress) fact
        (TxnProcessing.updateUserFactTransaction user.ID)
        (updateUserFactTransaction_transactions user.ID) (TxnProcessing.afterRead w chain₁ err)
      rw [afterRead_transactions] at a₁
      generalize TxnProcessing.writeAndLink _ _ _ _ _ _ = wl at a₁ ⊢
      obtain ⟨w₁, r⟩ := wl
      cases r with
      | ok _ =>
        simp only
        obtain ⟨new₂, b₁, b₂, b₃⟩ := ih w₁
        exact appended_rows_trans _ _ _ new₁ new₂ rest.length a₁ a₂ a₃ b₁ b₂ b₃
      | error e => exact ⟨new₁, a₁, by rw [List.length_cons]; omega, a₃⟩
      | panicked p => exact ⟨new₁, a₁, by rw [List.length_cons]; omega, a₃⟩

/-- A pass over mentors appends at most one row in progress per user to `transactions`
and leaves the rows that were there as they were. -/
theorem updateMentorsFacts_transactions {L : Type} (d : Deps L) (users : List dbmodels.User)
    (w : World L) :
    ∃ new : List TransactionRow,
      (TxnProcessing.updateMentorsFacts d users w).1.db.store.transactions =
        w.db.store.transactions ++ new ∧
      new.length ≤ users.length ∧
      ∀ row ∈ new, row.transaction_state_id = TxnInProgress ∧
        row.modified_by = TxnProcessing.GetAuditName := by
  induction users generalizing w with
  | nil => exact ⟨[], by simp [TxnProcessing.updateMentorsFacts], by simp, by simp⟩
  | cons user rest ih =>
    rw [TxnProcessing.updateMentorsFacts]
    split
    · obtain ⟨new, h₁, h₂, h₃⟩ := ih w
      exact ⟨new, h₁, by rw [List.length_cons]; omega, h₃⟩
    generalize TxnProcessing.readFact _ _ _ _ _ w.chain = rd
    obtain ⟨chain₁, mentorFact, err⟩ := rd
    simp only
    cases getMentorFact user mentorFact with
    | none =>
      simp only
      obtain ⟨new, h₁, h₂, h₃⟩ := ih (TxnProcessing.afterRead w chain₁ err)
      rw [afterRead_transactions] at h₁
      exact ⟨new, h₁, by rw [List.length_cons]; omega, h₃⟩
    | some fact =>
      simp only
      obtain ⟨new₁, a₁, a₂, a₃⟩ := writeAndLink_transactions d
        (getMentorFactKeyBytes d.Keccak256 user.Account) (HexToAddress d.AppMosolyDidAddress)
        fact (TxnProcessing.updateMentorFactTransaction user.ID)
        (updateMentorFactTransaction_transactions user.ID)
        (TxnProcessing.afterRead w chain₁ err)
      rw [afterRead_transactions] at a₁
      generalize TxnProcessing.writeAndLink _ _ _ _ _ _ = wl at a₁ ⊢
      obtain ⟨w₁, r⟩ := wl
      cases r with
      | ok _ =>
        simp only
        obtain ⟨new₂, b₁, b₂, b₃⟩ := ih w₁
        exact appended_rows_trans _ _ _ new₁ new₂ rest.length a₁ a₂ a₃ b₁ b₂ b₃
      | error e => exact ⟨new₁, a₁, by rw [List.length_cons]; omega, a₃⟩
      | panicked p => exact ⟨new₁, a₁, by rw [List.length_cons]; omega, a₃⟩

/-- A pass over projects appends at most one row in progress per project to
`transactions` and leaves the rows that were there as they were. -/
theorem updateProjectsFacts_transactions {L : Type} (d : Deps L)
    (projects : List dbmodels.Project) (w : World L) :
    ∃ new : List TransactionRow,
      (TxnProcessing.updateProjectsFacts d projects w).1.db.store.transactions =
        w.db.store.transactions ++ new ∧
      new.length ≤ projects.length ∧
      ∀ row ∈ new, row.transaction_state_id = TxnInProgress ∧
        row.modified_by = TxnProcessing.GetAuditName := by
  have hkey : getFactKeyBytes factKeyProject = .ok projectKey := rfl
  rw [TxnProcessing.updateProjectsFacts, hkey]
  simp only
  induction projects generalizing w with
  | nil => exact ⟨[], by simp [TxnProcessing.updateProjectsFactsLoop], by simp, by simp⟩
  | cons project rest ih =>
    rw [TxnProcessing.updateProjectsFactsLoop]
    generalize TxnProcessing.readFact _ _ _ _ _ w.chain = rd
    obtain ⟨chain₁, projectFact, err⟩ := rd
    simp only
    cases getProjectFact project projectFact with
    | none =>
      simp only
      obtain ⟨new, h₁, h₂, h₃⟩ := ih (TxnProcessing.afterRead w chain₁ err)
      rw [afterRead_transactions] at h₁
      exact ⟨new, h₁, by rw [List.length_cons]; omega, h₃⟩
    | some fact =>
      simp only
      obtain ⟨new₁, a₁, a₂, a₃⟩ := writeAndLink_transactions d projectKey
        (HexToAddress project.PassportAddress) fact
        (TxnProcessing.updateProjectFactTransaction project.ID)
        (updateProjectFactTransaction_transactions project.ID)
        (TxnProcessing.afterRead w chain₁ err)
      rw [afterRead_transactions] at a₁
      generalize TxnProcessing.writeAndLink _ _ _ _ _ _ = wl at a₁ ⊢
      obtain ⟨w₁, r⟩ := wl
      cases r with
      | ok _ =>
        simp only
        obtain ⟨new₂, b₁, b₂, b₃⟩ := ih w₁
        exact appended_rows_trans _ _ _ new₁ new₂ rest.length a₁ a₂ a₃ b₁ b₂ b₃
      | error e => exact ⟨new₁, a₁, by rw [List.length_cons]; omega, a₃⟩
      | panicked p => exact ⟨new₁, a₁, by rw [List.length_cons]; omega, a₃⟩

/-- The row `createTxnData` inserts for the hash `h` from the session `s`. -/
theorem writeAndLink_row {L : Type} (d : Deps L) (factKey passportAddress : Bytes)
    (fact : mosolyapi.BlockchainFact) (link : Int → Session → Session × Res Unit)
    (hlink : ∀ trxID s, (link trxID s).1.store.transactions = s.store.transactions)
    (w : World L) :
    (TxnProcessing.writeAndLink d factKey passportAddress fact link w).1.db.store.transactions =
        w.db.store.transactions ∨
      ∃ h : Hash,
        (TxnProcessing.writeFact d factKey passportAddress fact w.chain).2 = .ok h ∧
        (TxnProcessing.writeAndLink d factKey passportAddress fact link
            w).1.db.store.transactions =
          w.db.store.transactions ++
            [{ id := w.db.store.transactions_id_seq + 1, created := w.db.step.now,
               updated := w.db.step.now, modified_by := TxnProcessing.GetAuditName,
               transaction_hash := h.String, transaction_state_id := TxnInProgress }] := by
  unfold TxnProcessing.writeAndLink
  rcases hw : TxnProcessing.writeFact d factKey passportAddress fact w.chain with ⟨chain₁, r⟩
  cases r with
  | panicked p => exact Or.inl (by simp)
  | error e => exact Or.inl (by simp [World.println])
  | ok hash =>
    simp only
    unfold TxnProcessing.createTxnData
    cases hs : w.db.step.err with
    | some e => exact Or.inl (by simp [World.println, Session.advance])
    | none =>
      simp only
      have hl := hlink (w.db.store.transactions_id_seq + 1)
        (w.db.advance (TxnProcessing.insertTransaction w.db.store hash.String w.db.step.now))
      rcases hk : link (w.db.store.transactions_id_seq + 1)
        (w.db.advance (TxnProcessing.insertTransaction w.db.store hash.String w.db.step.now))
        with ⟨db₂, r₂⟩
      rw [hk] at hl
      simp only [Session.advance, TxnProcessing.insertTransaction] at hl
      refine Or.inr ⟨hash, rfl, ?_⟩
      cases r₂ <;> simp only [World.println] <;> exact hl

/-- The loop of `updateUsersFacts` processes the first user as a batch of one and goes on
with the rest when that batch returns nil. -/
theorem updateUsersFacts_cons {L : Type} (d : Deps L) (user : dbmodels.User)
    (rest : List dbmodels.User) (w : World L) :
    TxnProcessing.updateUsersFacts d (user :: rest) w =
      TxnProcessing.thenLoop (TxnProcessing.updateUsersFacts d [user] w)
        (TxnProcessing.updateUsersFacts d rest) := by
  unfold TxnProcessing.thenLoop
  rw [TxnProcessing.updateUsersFacts, TxnProcessing.updateUsersFacts]
  split
  next chain₁ userFact err _ =>
  split
  · simp [TxnProcessing.updateUsersFacts]
  · split
    · next heq => simp [TxnProcessing.updateUsersFacts]
    · next heq => simp
    · next heq => simp

/-- The loop of `updateProjectsFacts` processes the first project as a batch of one and
goes on with the rest when that batch returns nil. -/
theorem updateProjectsFacts_cons {L : Type} (d : Deps L) (project : dbmodels.Project)
    (rest : List dbmodels.Project) (w : World L) :
    TxnProcessing.updateProjectsFacts d (project :: rest) w =
      TxnProcessing.thenLoop (TxnProcessing.updateProjectsFacts d [project] w)
        (TxnProcessing.updateProjectsFacts d rest) := by
  have hkey : getFactKeyBytes factKeyProject = .ok projectKey := rfl
  unfold TxnProcessing.thenLoop
  simp only [TxnProcessing.updateProjectsFacts, hkey]
  rw [TxnProcessing.updateProjectsFactsLoop, TxnProcessing.updateProjectsFactsLoop]
  split
  next chain₁ projectFact err _ =>
  split
  · simp [TxnProcessing.updateProjectsFactsLoop]
  · split
    · next heq => simp [TxnProcessing.updateProjectsFactsLoop]
    · next heq => simp
    · next heq => simp

/-- The iteration of `updateUsersFacts` for one user leaves `transactions` as it was or
appends the row of the write it made under the key of that user. -/
theorem updateUsersFacts_single_row {L : Type} (d : Deps L) (user : dbmodels.User)
    (w : World L) :
    (TxnProcessing.updateUsersFacts d [user] w).1.db.store.transactions =
        w.db.store.transactions ∨
      ∃ (fact : mosolyapi.BlockchainFact) (h : Hash),
        getUserFact user (TxnProcessing.userBaseline d user w.chain) = some fact ∧
        (TxnProcessing.writeFact d (getBytesFromHexAddress user.Account)
          (HexToAddress d.AppMosolyDidAddress) fact
          (TxnProcessing.readFact d d.json.UnmarshalUser (getBytesFromHexAddress user.Account)
            (HexToAddress d.AppMosolyDidAddress) TxnProcessing.zeroUserFact w.chain).1).2 =
              .ok h ∧
        (TxnProcessing.updateUsersFacts d [user] w).1.db.store.transactions =
          w.db.store.transactions ++
            [{ id := w.db.store.transactions_id_seq + 1, created := w.db.step.now,
               updated := w.db.step.now, modified_by := TxnProcessing.GetAuditName,
               transaction_hash := h.String, transaction_state_id := TxnInProgress }] := by
  unfold TxnProcessing.userBaseline TxnProcessing.zeroUserFact
  rw [TxnProcessing.updateUsersFacts]
  rcases hrd : TxnProcessing.readFact d d.json.UnmarshalUser
    (getBytesFromHexAddress user.Account) (HexToAddress d.AppMosolyDidAddress)
    ({ BlockchainFact := TxnProcessing.zeroFact,
       Payload := { InviteURLHash := "", Account := "", Validated := false, Mentors := none } } :
      mosolyapi.BlockchainUserFact) w.chain with ⟨chain₁, userFact, err⟩
  simp only
  cases hg : getUserFact user userFact with
  | none =>
    left
    simp only [TxnProcessing.updateUsersFacts]
    exact afterRead_transactions w chain₁ err
  | some fact =>
    simp only
    have hwl := writeAndLink_row d (getBytesFromHexAddress user.Account)
      (HexToAddress d.AppMosolyDidAddress) fact (TxnProcessing.updateUserFactTransaction user.ID)
      (updateUserFactTransaction_transactions user.ID) (TxnProcessing.afterRead w chain₁ err)
    have hchain : (TxnProcessing.afterRead w chain₁ err).chain = chain₁ := by
      cases err <;> rfl
    have hdb : (TxnProcessing.afterRead w chain₁ err).db = w.db := by
      cases err <;> rfl
    rw [hchain, hdb] at hwl
    generalize TxnProcessing.writeAndLink _ _ _ _ _ _ = wl at hwl ⊢
    obtain ⟨w₁, r⟩ := wl
    have hgoal : ∀ t : List TransactionRow, w₁.db.store.transactions = t →
        (match (w₁, r) with
          | (w₁, .ok _) => TxnProcessing.updateUsersFacts d [] w₁
          | (w₁, .error e) => (w₁, .error e)
          | (w₁, .panicked p) => (w₁, .panicked p)).1.db.store.transactions = t := by
      intro t ht
      cases r <;> simpa [TxnProcessing.updateUsersFacts] using ht
    rcases hwl with h₀ | ⟨h, hw, hrow⟩
    · exact Or.inl (hgoal _ h₀)
    · exact Or.inr ⟨fact, h, rfl, hw, hgoal _ hrow⟩

/-- The iteration of `updateMentorsFacts` for one user leaves `transactions` as it was or
appends the row of the write it made under the mentor key of that user. -/
theorem updateMentorsFacts_single_row {L : Type} (d : Deps L) (user : dbmodels.User)
    (w : World L) :
    (TxnProcessing.updateMentorsFacts d [user] w).1.db.store.transactions =
        w.db.store.transactions ∨
      ∃ (fact : mosolyapi.BlockchainFact) (h : Hash),
        user.Mentorees ≠ [] ∧
        getMentorFact user (TxnProcessing.mentorBaseline d user w.chain) = some fact ∧
        (TxnProcessing.writeFact d (getMentorFactKeyBytes d.Keccak256 user.Account)
          (HexToAddress d.AppMosolyDidAddress) fact
          (TxnProcessing.readFact d d.json.UnmarshalMentor
            (getMentorFactKeyBytes d.Keccak256 user.Account)
            (HexToAddress d.AppMosolyDidAddress) TxnProcessing.zeroMentorFact w.chain).1).2 =
              .ok h ∧
        (TxnProcessing.updateMentorsFacts d [user] w).1.db.store.transactions =
          w.db.store.transactions ++
            [{ id := w.db.store.transactions_id_seq + 1, created := w.db.step.now,
               updated := w.db.step.now, modified_by := TxnProcessing.GetAuditName,
               transaction_hash := h.String, transaction_state_id := TxnInProgress }] := by
  unfold TxnProcessing.mentorBaseline TxnProcessing.zeroMentorFact
  rw [TxnProcessing.updateMentorsFacts]
  by_cases hlen : user.Mentorees.length = 0
  · left
    simp [hlen, TxnProcessing.updateMentorsFacts]
  have hne : user.Mentorees ≠ [] := fun h0 => hlen (by rw [h0]; rfl)
  rw [if_neg hlen]
  rcases hrd : TxnProcessing.readFact d d.json.UnmarshalMentor
    (getMentorFactKeyBytes d.Keccak256 user.Account) (HexToAddress d.AppMosolyDidAddress)
    ({ BlockchainFact := TxnProcessing.zeroFact, Payload := none } :
      mosolyapi.BlockchainMentorFact) w.chain with ⟨chain₁, mentorFact, err⟩
  simp only
  cases hg : getMentorFact user mentorFact with
  | none =>
    left
    simp only [TxnProcessing.updateMentorsFacts]
    exact afterRead_transactions w chain₁ err
  | some fact =>
    simp only
    have hwl := writeAndLink_row d (getMentorFactKeyBytes d.Keccak256 user.Account)
      (HexToAddress d.AppMosolyDidAddress) fact
      (TxnProcessing.updateMentorFactTransaction user.ID)
      (updateMentorFactTransaction_transactions user.ID)
      (TxnProcessing.afterRead w chain₁ err)
    have hchain : (TxnProcessing.afterRead w chain₁ err).chain = chain₁ := by
      cases err <;> rfl
    have hdb : (TxnProcessing.afterRead w chain₁ err).db = w.db := by
      cases err <;> rfl
    rw [hchain, hdb] at hwl
    generalize TxnProcessing.writeAndLink _ _ _ _ _ _ = wl at hwl ⊢
    obtain ⟨w₁, r⟩ := wl
    have hgoal : ∀ t : List TransactionRow, w₁.db.store.transactions = t →
        (match (w₁, r) with
          | (w₁, .ok _) => TxnProcessing.updateMentorsFacts d [] w₁
          | (w₁, .error e) => (w₁, .error e)
          | (w₁, .panicked p) => (w₁, .panicked p)).1.db.store.transactions = t := by
      intro t ht
      cases r <;> simpa [TxnProcessing.updateMentorsFacts] using ht
    rcases hwl with h₀ | ⟨h, hw, hrow⟩
    · exact Or.inl (hgoal _ h₀)
    · exact Or.inr ⟨fact, h, hne, rfl, hw, hgoal _ hrow⟩

/-- The iteration of `updateProjectsFacts` for one project leaves `transactions` as it
was or appends the row of the write it made under the project key in the passport of
that project. -/
theorem updateProjectsFacts_single_row {L : Type} (d : Deps L) (project : dbmodels.Project)
    (w : World L) :
    (TxnProcessing.updateProjectsFacts d [project] w).1.db.store.transactions =
        w.db.store.transactions ∨
      ∃ (fact : mosolyapi.BlockchainFact) (h : Hash),
        getProjectFact project (TxnProcessing.projectBaseline d project w.chain) = some fact ∧
        (TxnProcessing.writeFact d projectKey (HexToAddress project.PassportAddress) fact
          (TxnProcessing.readFact d d.json.UnmarshalProject projectKey
            (HexToAddress project.PassportAddress) TxnProcessing.zeroProjectFact w.chain).1).2 =
              .ok h ∧
        (TxnProcessing.updateProjectsFacts d [project] w).1.db.store.transactions =
          w.db.store.transactions ++
            [{ id := w.db.store.transactions_id_seq + 1, created := w.db.step.now,
               updated := w.db.step.now, modified_by := TxnProcessing.GetAuditName,
               transaction_hash := h.String, transaction_state_id := TxnInProgress }] := by
  have hkey : getFactKeyBytes factKeyProject = .ok projectKey := rfl
  unfold TxnProcessing.projectBaseline TxnProcessing.zeroProjectFact
  simp only [TxnProcessing.updateProjectsFacts, hkey]
  rw [TxnProcessing.updateProjectsFactsLoop]
  rcases hrd : TxnProcessing.readFact d d.json.UnmarshalProject projectKey
    (HexToAddress project.PassportAddress)
    ({ BlockchainFact := TxnProcessing.zeroFact, Payload := { Name := "" } } :
      mosolyapi.BlockchainProjectFact) w.chain with ⟨chain₁, projectFact, err⟩
  simp only
  cases hg : getProjectFact project projectFact with
  | none =>
    left
    simp only [TxnProcessing.updateProjectsFactsLoop]
    exact afterRead_transactions w chain₁ err
  | some fact =>
    simp only
    have hwl := writeAndLink_row d projectKey (HexToAddress project.PassportAddress) fact
      (TxnProcessing.updateProjectFactTransaction project.ID)
      (updateProjectFactTransaction_transactions project.ID)
      (TxnProcessing.afterRead w chain₁ err)
    have hchain : (TxnProcessing.afterRead w chain₁ err).chain = chain₁ := by
      cases err <;> rfl
    have hdb : (TxnProcessing.afterRead w chain₁ err).db = w.db := by
      cases err <;> rfl
    rw [hchain, hdb] at hwl
    generalize TxnProcessing.writeAndLink _ _ _ _ _ _ = wl at hwl ⊢
    obtain ⟨w₁, r⟩ := wl
    have hgoal : ∀ t : List TransactionRow, w₁.db.store.transactions = t →
        (match (w₁, r) with
          | (w₁, .ok _) => TxnProcessing.updateProjectsFactsLoop d projectKey [] w₁
          | (w₁, .error e) => (w₁, .error e)
          | (w₁, .panicked p) => (w₁, .panicked p)).1.db.store.transactions = t := by
      intro t ht
      cases r <;> simpa [TxnProcessing.updateProjectsFactsLoop] using ht
    rcases hwl with h₀ | ⟨h, hw, hrow⟩
    · exact Or.inl (hgoal _ h₀)
    · exact Or.inr ⟨fact, h, rfl, hw, hgoal _ hrow⟩

/-- C16 (amended): whatever the ledger and the database server do, each iteration of a
pass of the fact writer — one element of the batch of `updateUsersFacts`,
`updateMentorsFacts` or `updateProjectsFacts` — leaves the rows of `transactions` that
were there as they were and appends at most one row.  When it appends one, the differ
returned a fact for that element, the write of that fact under the fact key of that
element (in the identity contract for a user, in the passport of the project for a
project) succeeded with a hash `h`, and the row is in state InProgress with the string
form of `h`, the audit name of the writer and the next id of the sequence.  A pass is
the sequence of the iterations of its batch, ended by the first that does not return
nil, so it appends at most one row in progress per element of its batch.  (The bound is
per iteration: the writer does not look at the rows that are there.) -/
theorem pass_appends_rows_in_progress {L : Type} (d : Deps L) (users : List dbmodels.User)
    (projects : List dbmodels.Project) (w : World L) :
    ((∀ (user : dbmodels.User) (rest : List dbmodels.User) (w₀ : World L),
        TxnProcessing.updateUsersFacts d (user :: rest) w₀ =
          TxnProcessing.thenLoop (TxnProcessing.updateUsersFacts d [user] w₀)
            (TxnProcessing.updateUsersFacts d rest)) ∧
      (∀ (user : dbmodels.User) (w₀ : World L),
        (TxnProcessing.updateUsersFacts d [user] w₀).1.db.store.transactions =
            w₀.db.store.transactions ∨
          ∃ (fact : mosolyapi.BlockchainFact) (h : Hash),
            getUserFact user (TxnProcessing.userBaseline d user w₀.chain) = some fact ∧
            (TxnProcessing.writeFact d (getBytesFromHexAddress user.Account)
              (HexToAddress d.AppMosolyDidAddress) fact
              (TxnProcessing.readFact d d.json.UnmarshalUser
                (getBytesFromHexAddress user.Account) (HexToAddress d.AppMosolyDidAddress)
                TxnProcessing.zeroUserFact w₀.chain).1).2 = .ok h ∧
            (TxnProcessing.updateUsersFacts d [user] w₀).1.db.store.transactions =
              w₀.db.store.transactions ++
                [{ id := w₀.db.store.transactions_id_seq + 1, created := w₀.db.step.now,
                   updated := w₀.db.step.now, modified_by := TxnProcessing.GetAuditName,
                   transaction_hash := h.String, transaction_state_id := TxnInProgress }]) ∧
      ∃ new : List TransactionRow,
        (TxnProcessing.updateUsersFacts d users w).1.db.store.transactions =
          w.db.store.transactions ++ new ∧
        new.length ≤ users.length ∧
        ∀ row ∈ new, row.transaction_state_id = TxnInProgress ∧
          row.modified_by = TxnProcessing.GetAuditName) ∧
    ((∀ (user : dbmodels.User) (rest : List dbmodels.User) (w₀ : World L),
        TxnProcessing.updateMentorsFacts d (user :: rest) w₀ =
          TxnProcessing.thenLoop (TxnProcessing.updateMentorsFacts d [user] w₀)
            (TxnProcessing.updateMentorsFacts d rest)) ∧
      (∀ (user : dbmodels.User) (w₀ : World L),
        (TxnProcessing.updateMentorsFacts d [user] w₀).1.db.store.transactions =
            w₀.db.store.transactions ∨
          ∃ (fact : mosolyapi.BlockchainFact) (h : Hash),
            user.Mentorees ≠ [] ∧
            getMentorFact user (TxnProcessing.mentorBaseline d user w₀.chain) = some fact ∧
            (TxnProcessing.writeFact d (getMentorFactKeyBytes d.Keccak256 user.Account)
              (HexToAddress d.AppMosolyDidAddress) fact
              (TxnProcessing.readFact d d.json.UnmarshalMentor
                (getMentorFactKeyBytes d.Keccak256 user.Account)
                (HexToAddress d.AppMosolyDidAddress) TxnProcessing.zeroMentorFact
                w₀.chain).1).2 = .ok h ∧
            (TxnProcessing.updateMentorsFacts d [user] w₀).1.db.store.transactions =
              w₀.db.store.transactions ++
                [{ id := w₀.db.store.transactions_id_seq + 1, created := w₀.db.step.now,
                   updated := w₀.db.step.now, modified_by := TxnProcessing.GetAuditName,
                   transaction_hash := h.String, transaction_state_id := TxnInProgress }]) ∧
      ∃ new : List TransactionRow,
        (TxnProcessing.updateMentorsFacts d users w).1.db.store.transactions =
          w.db.store.transactions ++ new ∧
        new.length ≤ users.length ∧
        ∀ row ∈ new, row.transaction_state_id = TxnInProgress ∧
          row.modified_by = TxnProcessing.GetAuditName) ∧
    ((∀ (project : dbmodels.Project) (rest : List dbmodels.Project) (w₀ : World L),
        TxnProcessing.updateProjectsFacts d (project :: rest) w₀ =
          TxnProcessing.thenLoop (TxnProcessing.updateProjectsFacts d [project] w₀)
            (TxnProcessing.updateProjectsFacts d rest)) ∧
      (∀ (project : dbmodels.Project) (w₀ : World L),
        (TxnProcessing.updateProjectsFacts d [project] w₀).1.db.store.transactions =
            w₀.db.store.transactions ∨
          ∃ (fact : mosolyapi.BlockchainFact) (h : Hash),
            getProjectFact project (TxnProcessing.projectBaseline d project w₀.chain) =
              some fact ∧
            (TxnProcessing.writeFact d projectKey (HexToAddress project.PassportAddress) fact
              (TxnProcessing.readFact d d.json.UnmarshalProject projectKey
                (HexToAddress project.PassportAddress) TxnProcessing.zeroProjectFact
                w₀.chain).1).2 = .ok h ∧
            (TxnProcessing.updateProjectsFacts d [project] w₀).1.db.store.transactions =
              w₀.db.store.transactions ++
                [{ id := w₀.db.store.transactions_id_seq + 1, created := w₀.db.step.now,
                   updated := w₀.db.step.now, modified_by := TxnProcessing.GetAuditName,
                   transaction_hash := h.String, transaction_state_id := TxnInProgress }]) ∧
      ∃ new : List TransactionRow,
        (TxnProcessing.updateProjectsFacts d projects w).1.db.store.transactions =
          w.db.store.transactions ++ new ∧
        new.length ≤ projects.length ∧
        ∀ row ∈ new, row.transaction_state_id = TxnInProgress ∧
          row.modified_by = TxnProcessing.GetAuditName) :=
  ⟨⟨updateUsersFacts_cons d, updateUsersFacts_single_row d,
      updateUsersFacts_transactions d users w⟩,
    ⟨updateMentorsFacts_cons d, updateMentorsFacts_single_row d,
      updateMentorsFacts_transactions d users w⟩,
    ⟨updateProjectsFacts_cons d, updateProjectsFacts_single_row d,
      updateProjectsFacts_transactions d projects w⟩⟩

/-- A batch that lists user 1 twice, while the contract returns nothing for the key of
the user: the pass returns nil, and each of the two iterations appends a row in state
InProgress for the fact of user 1. -/
theorem batch_listing_user_twice :
    (TxnProcessing.updateUsersFacts sampleDeps.recorded
      [userWithoutMentors, userWithoutMentors] worldOfUserOne).2 = .ok () ∧
    (TxnProcessing.updateUsersFacts sampleDeps.recorded
      [userWithoutMentors, userWithoutMentors] worldOfUserOne).1.db.store.transactions =
      [{ id := 1, created := 0, updated := 0, modified_by := "mosoly-txnprocessing",
         transaction_hash := sampleHash.String, transaction_state_id := TxnInProgress },
       { id := 2, created := 0, updated := 0, modified_by := "mosoly-txnprocessing",
         transaction_hash := secondHash.String, transaction_state_id := TxnInProgress }] :=
  ⟨rfl, rfl⟩

/-- C16, counterexample: two passes over the unchanged user 1 while the contract still
returns nothing for the key of the user (the first write is not mined).  Both passes
return nil; each writes the fact under the same passport and key, and afterwards
`transactions` holds two rows in state InProgress for the fact of user 1, the `user_data`
row being linked to the second. -/
theorem second_pass_adds_row_in_progress :
    (TxnProcessing.updateUsersFacts sampleDeps.recorded [userWithoutMentors]
      worldOfUserOne).2 = .ok () ∧
    (TxnProcessing.updateUsersFacts sampleDeps.recorded [userWithoutMentors]
      (TxnProcessing.updateUsersFacts sampleDeps.recorded [userWithoutMentors]
        worldOfUserOne).1).2 = .ok () ∧
    (TxnProcessing.updateUsersFacts sampleDeps.recorded [userWithoutMentors]
      (TxnProcessing.updateUsersFacts sampleDeps.recorded [userWithoutMentors]
        worldOfUserOne).1).1.db.store.transactions =
      [{ id := 1, created := 0, updated := 0, modified_by := "mosoly-txnprocessing",
         transaction_hash := sampleHash.String, transaction_state_id := TxnInProgress },
       { id := 2, created := 0, updated := 0, modified_by := "mosoly-txnprocessing",
         transaction_hash := secondHash.String, transaction_state_id := TxnInProgress }] ∧
    (TxnProcessing.updateUsersFacts sampleDeps.recorded [userWithoutMentors]
      (TxnProcessing.updateUsersFacts sampleDeps.recorded [userWithoutMentors]
        worldOfUserOne).1).1.db.store.user_data =
      [{ id := 1, invite_url_hash := "invite", account := "0xaa", updated_at := 5,
         validated := true, transaction_id := some 2 }] ∧
    ledgerWrites (TxnProcessing.updateUsersFacts sampleDeps.recorded [userWithoutMentors]
      (TxnProcessing.updateUsersFacts sampleDeps.recorded [userWithoutMentors]
        worldOfUserOne).1).1.chain.2 =
      [.write (HexToAddress "0x01") (getBytesFromHexAddress "0xaa") [],
       .write (HexToAddress "0x01") (getBytesFromHexAddress "0xaa") []] :=
  ⟨rfl, rfl, rfl, rfl, rfl⟩

/-! ## The key of a user fact -/

/-- A character whose lower-case form is `d` is `d` or has the code of `d` less 32. -/
theorem toNat_of_toLower (c d : Char) (h : c.toLower = d) :
    c.toNat = d.toNat ∨ (c.toNat + 32 = d.toNat ∧ 65 ≤ c.toNat ∧ c.toNat ≤ 90) := by
  by_cases hc : c.toNat ≥ 65 ∧ c.toNat ≤ 90
  · right
    refine ⟨?_, hc.1, hc.2⟩
    have h' : Char.ofNat (c.toNat + 32) = d := by
      simpa [Char.toLower, hc] using h
    rw [← h']
    have hv : (c.toNat + 32).isValidChar := by
      left; omega
    unfold Char.ofNat
    rw [dif_pos hv]
    rfl
  · left
    have h' : c = d := by simpa [Char.toLower, hc] using h
    rw [h']

/-- A character whose lower-case form is a hexadecimal digit is one byte, which
`fromHexChar` reads as the value of the digit. -/
theorem utf8Char_of_toLower_hexDigit (c : Char) (n : Nat) (hn : n < 16)
    (h : c.toLower = hexDigit n) :
    ∃ b, utf8Char c = [b] ∧ fromHexChar b = some n := by
  have h1 := toNat_of_toLower c _ h
  have e : (hexDigit n).toNat = if n < 10 then 48 + n else 87 + n := by
    interval_cases n <;> rfl
  rw [e] at h1
  unfold utf8Char
  generalize c.toNat = m at h1
  have hm : m = 48 + n ∧ n < 10 ∨ m = 87 + n ∧ 10 ≤ n ∨ m = 55 + n ∧ 10 ≤ n := by
    split_ifs at h1 <;> omega
  rcases hm with ⟨rfl, h⟩ | ⟨rfl, h⟩ | ⟨rfl, h⟩ <;> interval_cases n <;>
    exact ⟨_, rfl, rfl⟩

/-- Only `0` has the lower-case form `0`. -/
theorem utf8Char_of_toLower_zero (c : Char) (h : c.toLower = '0') : utf8Char c = [48] := by
  have h1 := toNat_of_toLower c _ h
  have e : ('0' : Char).toNat = 48 := rfl
  rw [e] at h1
  unfold utf8Char
  generalize c.toNat = m at h1
  have hm : m = 48 := by omega
  subst hm
  rfl

/-- Only `x` and `X` have the lower-case form `x`. -/
theorem utf8Char_of_toLower_x (c : Char) (h : c.toLower = 'x') :
    utf8Char c = [120] ∨ utf8Char c = [88] := by
  have h1 := toNat_of_toLower c _ h
  have e : ('x' : Char).toNat = 120 := rfl
  rw [e] at h1
  unfold utf8Char
  generalize c.toNat = m at h1
  have hm : m = 120 ∨ m = 88 := by omega
  rcases hm with rfl | rfl
  · left; rfl
  · right; rfl

/-- Decoding the digits of `a`, in any letter case, gives `a`. -/
theorem Hex2Bytes_of_digits (a : Bytes) (cs : List Char)
    (h : cs.map Char.toLower = a.flatMap hexByte) :
    Hex2Bytes (cs.flatMap utf8Char) = a ∧ (cs.flatMap utf8Char).length = 2 * a.length ∧
      ∀ b₁ b₂ rest, cs.flatMap utf8Char = b₁ :: b₂ :: rest → fromHexChar b₂ ≠ none := by
  induction a generalizing cs with
  | nil =>
    have hcs : cs = [] := by simpa using h
    subst hcs
    exact ⟨rfl, rfl, by intro b₁ b₂ rest hc; simp at hc⟩
  | cons x a ih =>
    match cs, h with
    | c₁ :: c₂ :: cs, h =>
      simp only [List.map_cons, List.flatMap_cons, hexByte, List.cons_append,
        List.nil_append, List.cons.injEq] at h
      obtain ⟨h₁, h₂, h₃⟩ := h
      obtain ⟨b₁, e₁, f₁⟩ := utf8Char_of_toLower_hexDigit c₁ (x.val / 16) (by omega) h₁
      obtain ⟨b₂, e₂, f₂⟩ := utf8Char_of_toLower_hexDigit c₂ (x.val % 16) (by omega) h₂
      obtain ⟨i₁, i₂, -⟩ := ih cs h₃
      have hx : (Fin.ofNat (16 * (x.val / 16) + x.val % 16) : Fin 256) = x := by
        apply Fin.ext
        show (16 * (x.val / 16) + x.val % 16) % 256 = x.val
        omega
      simp only [List.flatMap_cons, e₁, e₂, List.cons_append, List.nil_append]
      refine ⟨?_, ?_, ?_⟩
      · rw [Hex2Bytes, f₁, f₂]
        simp only
        rw [i₁, hx]
      · simp only [List.length_cons, i₂]
        omega
      · intro b₁' b₂' rest hc
        simp only [List.cons.injEq] at hc
        rw [← hc.2.1, f₂]
        simp
    | [c₁], h => simp [hexByte] at h
    | [], h => simp [hexByte] at h

/-- The function `FromHex` on the digits of `a` without prefix, in any letter case. -/
theorem FromHex_of_digits (s : String) (a : Bytes)
    (h : ToLower s = String.mk (a.flatMap hexByte)) : FromHex s = a := by
  have h' : s.data.map Char.toLower = a.flatMap hexByte := by
    have := congrArg String.data h
    simpa [ToLower] using this
  obtain ⟨i₁, i₂, i₃⟩ := Hex2Bytes_of_digits a s.data h'
  have hpre : ¬ ((bytesOfString s).take 2 = bytesOfString "0x" ∨
      (bytesOfString s).take 2 = bytesOfString "0X") := by
    intro hp
    have h0x : bytesOfString "0x" = [48, 120] := rfl
    have h0X : bytesOfString "0X" = [48, 88] := rfl
    rw [h0x, h0X] at hp
    unfold bytesOfString at hp
    match hb : s.data.flatMap utf8Char, hp with
    | b₁ :: b₂ :: rest, hp =>
      have hne := i₃ b₁ b₂ rest hb
      rcases hp with hp | hp
      · have e : b₂ = 120 := by
          have := congrArg (fun l => l.getD 1 0) hp
          simpa using this
        subst e
        exact hne rfl
      · have e : b₂ = 88 := by
          have := congrArg (fun l => l.getD 1 0) hp
          simpa using this
        subst e
        exact hne rfl
    | [b₁], hp => simp at hp
    | [], hp => simp at hp
  have hlen : ¬ (bytesOfString s).length % 2 = 1 := by
    unfold bytesOfString
    rw [i₂]
    omega
  simp only [FromHex]
  rw [if_neg hpre, if_neg hlen]
  exact i₁

/-- The function `FromHex` on the digits of `a` after `0x` or `0X`, in any letter case. -/
theorem FromHex_of_prefixed_digits (s : String) (a : Bytes)
    (h : ToLower s = String.mk ('0' :: 'x' :: a.flatMap hexByte)) : FromHex s = a := by
  have h' : s.data.map Char.toLower = '0' :: 'x' :: a.flatMap hexByte := by
    have := congrArg String.data h
    simpa [ToLower] using this
  match hs : s.data, h' with
  | c₁ :: c₂ :: cs, h' =>
    simp only [List.map_cons, List.cons.injEq] at h'
    obtain ⟨h₁, h₂, h₃⟩ := h'
    obtain ⟨i₁, i₂, -⟩ := Hex2Bytes_of_digits a cs h₃
    have e₁ := utf8Char_of_toLower_zero c₁ h₁
    have e₂ := utf8Char_of_toLower_x c₂ h₂
    have hlen : ¬ (cs.flatMap utf8Char).length % 2 = 1 := by rw [i₂]; omega
    simp only [FromHex]
    rcases e₂ with e₂ | e₂
    · have hB : bytesOfString s = 48 :: 120 :: cs.flatMap utf8Char := by
        unfold bytesOfString
        rw [hs, List.flatMap_cons, List.flatMap_cons, e₁, e₂]
        rfl
      have hp : (48 :: 120 :: cs.flatMap utf8Char).take 2 = bytesOfString "0x" := rfl
      have hd : (48 :: 120 :: cs.flatMap utf8Char).drop 2 = cs.flatMap utf8Char := rfl
      rw [hB, if_pos (Or.inl hp), hd, if_neg hlen]
      exact i₁
    · have hB : bytesOfString s = 48 :: 88 :: cs.flatMap utf8Char := by
        unfold bytesOfString
        rw [hs, List.flatMap_cons, List.flatMap_cons, e₁, e₂]
        rfl
      have hp : (48 :: 88 :: cs.flatMap utf8Char).take 2 = bytesOfString "0X" := rfl
      have hd : (48 :: 88 :: cs.flatMap utf8Char).drop 2 = cs.flatMap utf8Char := rfl
      rw [hB, if_pos (Or.inr hp), hd, if_neg hlen]
      exact i₁
  | [c₁], h' => simp at h'
  | [], h' => simp at h'

/-- C19: for every account string `s` that is the hexadecimal encoding of a 20-byte
address `a`, with or without the prefix `0x` and in any letter case (the lower-case form
of `s` is the lower-case encoding of `a`, with or without `0x`),
`getBytesFromHexAddress` returns the 32-byte key whose first 20 bytes are `a` and whose
remaining 12 bytes are zero; an account string that differs from `s` only in letter case
gives the same key. -/
theorem getBytesFromHexAddress_spec (s : String) (a : Bytes) (ha : a.length = 20)
    (hs : ToLower s = String.mk (a.flatMap hexByte) ∨
      ToLower s = String.mk ('0' :: 'x' :: a.flatMap hexByte)) :
    getBytesFromHexAddress s = a ++ List.replicate 12 0 ∧
    (getBytesFromHexAddress s).length = 32 ∧
    ∀ t : String, ToLower t = ToLower s → getBytesFromHexAddress t = getBytesFromHexAddress s := by
  have key : ∀ t : String, ToLower t = ToLower s →
      getBytesFromHexAddress t = a ++ List.replicate 12 0 := by
    intro t ht
    have hf : FromHex t = a := by
      rcases hs with hs | hs
      · exact FromHex_of_digits t a (ht.trans hs)
      · exact FromHex_of_prefixed_digits t a (ht.trans hs)
    unfold getBytesFromHexAddress
    rw [hf, copyInto_of_le 32 a (by omega), ha]
  refine ⟨key s rfl, ?_, ?_⟩
  · rw [key s rfl, List.length_append, List.length_replicate, ha]
  · intro t ht
    rw [key t ht, key s rfl]

/-- C19, witness: an account written with the prefix `0x` and digits in mixed case, and
the same account in upper case. -/
theorem getBytesFromHexAddress_spec_witness :
    getBytesFromHexAddress "0xAbCdEf0123456789aBcDeF0123456789abcdef01" =
      [0xab, 0xcd, 0xef, 0x01, 0x23, 0x45, 0x67, 0x89, 0xab, 0xcd,
       0xef, 0x01, 0x23, 0x45, 0x67, 0x89, 0xab, 0xcd, 0xef, 0x01] ++ List.replicate 12 0 ∧
    getBytesFromHexAddress "0XABCDEF0123456789ABCDEF0123456789ABCDEF01" =
      getBytesFromHexAddress "0xAbCdEf0123456789aBcDeF0123456789abcdef01" :=
  ⟨(getBytesFromHexAddress_spec "0xAbCdEf0123456789aBcDeF0123456789abcdef01"
      [0xab, 0xcd, 0xef, 0x01, 0x23, 0x45, 0x67, 0x89, 0xab, 0xcd,
       0xef, 0x01, 0x23, 0x45, 0x67, 0x89, 0xab, 0xcd, 0xef, 0x01] rfl (Or.inr rfl)).1,
    rfl⟩

/-! ## Reading back a written fact -/

/-- Decoding the JSON value of a fact into a typed wrapper: the schema is the schema of
the fact and the typed payload is decoded from the value of the payload. -/
theorem decodeWrapper_encodeFact {α : Type} (decodePayload : JsonValue → α → α × Option String)
    (schema : String) (payload : mosolyapi.Payload) (fact₀ : mosolyapi.BlockchainFact)
    (payload₀ : α) :
    decodeWrapper decodePayload (encodeFact { Schema := schema, Payload := some payload })
        fact₀ payload₀ =
      (({ fact₀ with Schema := schema }, (decodePayload (encodePayload payload) payload₀).1),
        (decodePayload (encodePayload payload) payload₀).2) := by
  have k₁ : keyMatches "schema" "schema" = true := by rfl
  have k₂ : keyMatches "payload" "schema" = false := by rfl
  have k₃ : keyMatches "payload" "payload" = true := by rfl
  simp [decodeWrapper, encodeFact, decodeWrapperMember, k₁, k₂, k₃, decodeString, firstError]

/-- Decoding the JSON value of a list of strings gives the list back. -/
theorem decodeStringElems_map_string (xs : List String) :
    decodeStringElems (xs.map .string) = (xs, none) := by
  induction xs with
  | nil => rfl
  | cons x xs ih => simp [decodeStringElems, ih, decodeString, firstError]

/-- Decoding the JSON value of a project payload gives the payload back. -/
theorem decodeProjectFact_encodePayload (f cur : mosolyapi.ProjectFact) :
    decodeProjectFact (encodePayload (.project f)) cur = (f, none) := by
  have k₁ : keyMatches "name" "name" = true := by rfl
  simp [decodeProjectFact, encodePayload, decodeProjectMember, k₁, decodeString, firstError]

/-- Decoding the JSON value of a user payload with a non-nil mentor list gives the payload
back. -/
theorem decodeUserFact_encodePayload (f cur : mosolyapi.UserFact) (mentors : List String)
    (hm : f.Mentors = some mentors) :
    decodeUserFact (encodePayload (.user f)) cur = (f, none) := by
  have k₁ : keyMatches "inviteUrlHash" "inviteUrlHash" = true := by rfl
  have k₂ : keyMatches "account" "inviteUrlHash" = false := by rfl
  have k₃ : keyMatches "account" "account" = true := by rfl
  have k₄ : keyMatches "validated" "inviteUrlHash" = false := by rfl
  have k₅ : keyMatches "validated" "account" = false := by rfl
  have k₆ : keyMatches "validated" "validated" = true := by rfl
  have k₇ : keyMatches "mentors" "inviteUrlHash" = false := by rfl
  have k₈ : keyMatches "mentors" "account" = false := by rfl
  have k₉ : keyMatches "mentors" "validated" = false := by rfl
  have k₀ : keyMatches "mentors" "mentors" = true := by rfl
  cases f with
  | mk i a v m =>
    simp only at hm
    subst hm
    simp [decodeUserFact, encodePayload, decodeUserMember, k₁, k₂, k₃, k₄, k₅, k₆, k₇, k₈, k₉,
      k₀, decodeString, decodeBool, decodeStrings, encodeStrings, firstError,
      decodeStringElems_map_string]

/-- Decoding the JSON value of a non-nil mentor list gives the list back. -/
theorem decodeStrings_encodePayload (xs : List String) (cur : Option (List String)) :
    decodeStrings (encodePayload (.mentor (some xs))) cur = (some xs, none) := by
  simp [decodeStrings, encodePayload, encodeStrings, decodeStringElems_map_string]

/-- When the read returns non-empty bytes that decode without error, `readFact` returns
the decoded object and nil. -/
theorem readFact_of_data {L α : Type} (d : Deps L) (unmarshal : Bytes → α → α × Option String)
    (factKey passportAddress : Bytes) (factObject decoded : α) (chain chain₁ : L)
    (bytes : Bytes)
    (hread : d.ctx.ReadTxData passportAddress d.ctx.address factKey chain =
      (chain₁, .data bytes))
    (hne : bytes ≠ []) (hdec : unmarshal bytes factObject = (decoded, none)) :
    TxnProcessing.readFact d unmarshal factKey passportAddress factObject chain =
      (chain₁, decoded, none) := by
  have hlen : bytes.length > 0 := List.length_pos.2 hne
  unfold TxnProcessing.readFact
  rw [hread]
  simp only [if_pos hlen, hdec]

/-- What `json.Unmarshal` into the zero project wrapper makes of the text written for a
project fact, when the text layer reads back the value it wrote. -/
theorem UnmarshalProject_Marshal (text : JsonText) (schema : String)
    (f : mosolyapi.ProjectFact)
    (hrt : text.parse (text.render (encodeFact
        { Schema := schema, Payload := some (.project f) })) =
      some (encodeFact { Schema := schema, Payload := some (.project f) })) :
    (goJson text).UnmarshalProject
        ((goJson text).Marshal { Schema := schema, Payload := some (.project f) })
        TxnProcessing.zeroProjectFact =
      ({ BlockchainFact := { Schema := schema, Payload := none }, Payload := f }, none) := by
  simp only [goJson, hrt, decodeWrapper_encodeFact, decodeProjectFact_encodePayload,
    TxnProcessing.zeroProjectFact, TxnProcessing.zeroFact]

/-- What `json.Unmarshal` into the zero user wrapper makes of the text written for a user
fact with a non-nil mentor list, when the text layer reads back the value it wrote. -/
theorem UnmarshalUser_Marshal (text : JsonText) (schema : String)
    (f : mosolyapi.UserFact) (mentors : List String) (hm : f.Mentors = some mentors)
    (hrt : text.parse (text.render (encodeFact
        { Schema := schema, Payload := some (.user f) })) =
      some (encodeFact { Schema := schema, Payload := some (.user f) })) :
    (goJson text).UnmarshalUser
        ((goJson text).Marshal { Schema := schema, Payload := some (.user f) })
        TxnProcessing.zeroUserFact =
      ({ BlockchainFact := { Schema := schema, Payload := none }, Payload := f }, none) := by
  simp only [goJson, hrt, decodeWrapper_encodeFact,
    decodeUserFact_encodePayload f _ mentors hm,
    TxnProcessing.zeroUserFact, TxnProcessing.zeroFact]

/-- What `json.Unmarshal` into the zero mentor wrapper makes of the text written for a
mentor-list fact with a non-nil list, when the text layer reads back the value it wrote. -/
theorem UnmarshalMentor_Marshal (text : JsonText) (schema : String) (xs : List String)
    (hrt : text.parse (text.render (encodeFact
        { Schema := schema, Payload := some (.mentor (some xs)) })) =
      some (encodeFact { Schema := schema, Payload := some (.mentor (some xs)) })) :
    (goJson text).UnmarshalMentor
        ((goJson text).Marshal { Schema := schema, Payload := some (.mentor (some xs)) })
        TxnProcessing.zeroMentorFact =
      ({ BlockchainFact := { Schema := schema, Payload := none }, Payload := some xs },
        none) := by
  simp only [goJson, hrt, decodeWrapper_encodeFact, decodeStrings_encodePayload,
    TxnProcessing.zeroMentorFact, TxnProcessing.zeroFact]

/-- The fact `getProjectFact` returns when it returns one. -/
theorem getProjectFact_some (project : dbmodels.Project)
    (base : mosolyapi.BlockchainProjectFact) (fact : mosolyapi.BlockchainFact)
    (h : getProjectFact project base = some fact) :
    fact = { Schema := projectSchemaURL, Payload := some (.project { Name := project.Name }) } := by
  unfold getProjectFact at h
  simp only at h
  split at h
  · exact absurd h (by simp)
  · exact (Option.some.inj h).symm

/-- The fact `getUserFact` returns when it returns one. -/
theorem getUserFact_some (user : dbmodels.User) (base : mosolyapi.BlockchainUserFact)
    (fact : mosolyapi.BlockchainFact) (h : getUserFact user base = some fact) :
    fact = { Schema := userSchemaURL,
             Payload := some (.user
               { InviteURLHash := user.InviteURLHash, Account := user.Account,
                 Validated := user.Validated,
                 Mentors := some (sortStrings (user.Mentors.map fun mentor =>
                   mentor.Account)) }) } := by
  have hne : getUserFact user base ≠ none := by rw [h]; simp
  have := (getUserFact_cases user base).2.1 hne
  rw [h] at this
  exact Option.some.inj this

/-- The fact `getMentorFact` returns when it returns one. -/
theorem getMentorFact_some (user : dbmodels.User) (base : mosolyapi.BlockchainMentorFact)
    (fact : mosolyapi.BlockchainFact) (h : getMentorFact user base = some fact) :
    fact = { Schema := mentoreesSchemaURL,
             Payload := some (.mentor (some (sortStrings
               (user.Mentorees.map fun mentoree => mentoree.Account)))) } := by
  have hne : getMentorFact user base ≠ none := by rw [h]; simp
  have := (getMentorFact_cases user base).2.1 hne
  rw [h] at this
  exact Option.some.inj this

/-- The three differs return nil on the baseline decoded, into the zero wrapper of the
family, from the text written for the fact they returned. -/
theorem differ_of_decoded (text : JsonText) (fact : mosolyapi.BlockchainFact)
    (hrt : text.parse (text.render (encodeFact fact)) = some (encodeFact fact)) :
    (∀ project base, getProjectFact project base = some fact →
      ((goJson text).UnmarshalProject ((goJson text).Marshal fact)
          TxnProcessing.zeroProjectFact).2 = none ∧
      getProjectFact project ((goJson text).UnmarshalProject ((goJson text).Marshal fact)
          TxnProcessing.zeroProjectFact).1 = none) ∧
    (∀ user base, getUserFact user base = some fact →
      ((goJson text).UnmarshalUser ((goJson text).Marshal fact)
          TxnProcessing.zeroUserFact).2 = none ∧
      getUserFact user ((goJson text).UnmarshalUser ((goJson text).Marshal fact)
          TxnProcessing.zeroUserFact).1 = none) ∧
    (∀ user base, getMentorFact user base = some fact →
      ((goJson text).UnmarshalMentor ((goJson text).Marshal fact)
          TxnProcessing.zeroMentorFact).2 = none ∧
      getMentorFact user ((goJson text).UnmarshalMentor ((goJson text).Marshal fact)
          TxnProcessing.zeroMentorFact).1 = none) := by
  refine ⟨?_, ?_, ?_⟩
  · intro project base h
    have hf := getProjectFact_some project base fact h
    subst hf
    rw [UnmarshalProject_Marshal text _ _ hrt]
    exact ⟨rfl, (getProjectFact_eq_none_iff project _).2 rfl⟩
  · intro user base h
    have hf := getUserFact_some user base fact h
    subst hf
    rw [UnmarshalUser_Marshal text _ _ _ rfl hrt]
    exact ⟨rfl, (getUserFact_cases user _).1.2 ⟨rfl, rfl, rfl, rfl⟩⟩
  · intro user base h
    have hf := getMentorFact_some user base fact h
    subst hf
    rw [UnmarshalMentor_Marshal text _ _ hrt]
    exact ⟨rfl, (getMentorFact_cases user _).1.2 rfl⟩

/-- C15: write-then-read round trip.  Let `fact` be the fact returned by `getProjectFact`,
`getUserFact` or `getMentorFact` for a local record, and let the baseline be decoded, as
`readFact` does into the zero wrapper of the family, from the JSON that `writeFact`
serialises from `fact` (the JSON text of the value of `fact` reads back as that value,
and the empty text is not JSON).  Then the same differ on the unchanged record with that
baseline returns nil, and an iteration of the pass whose read returns the serialised
bytes goes on to the remaining entities from the world the read left: no write is
issued, and the database and the log are as they were. -/
theorem write_then_read_round_trip {L : Type} (d : Deps L) (text : JsonText)
    (fact : mosolyapi.BlockchainFact) (w : World L) (chain₁ : L)
    (hjson : d.json = goJson text)
    (hrt : text.parse (text.render (encodeFact fact)) = some (encodeFact fact))
    (hempty : text.parse [] = none) :
    (∀ project base, getProjectFact project base = some fact →
      getProjectFact project
        (d.json.UnmarshalProject (d.json.Marshal fact) TxnProcessing.zeroProjectFact).1 = none ∧
      ∀ rest,
        d.ctx.ReadTxData (HexToAddress project.PassportAddress) d.ctx.address projectKey
          w.chain = (chain₁, .data (d.json.Marshal fact)) →
        TxnProcessing.updateProjectsFacts d (project :: rest) w =
          TxnProcessing.updateProjectsFacts d rest { w with chain := chain₁ }) ∧
    (∀ user base, getUserFact user base = some fact →
      getUserFact user
        (d.json.UnmarshalUser (d.json.Marshal fact) TxnProcessing.zeroUserFact).1 = none ∧
      ∀ rest,
        d.ctx.ReadTxData (HexToAddress d.AppMosolyDidAddress) d.ctx.address
          (getBytesFromHexAddress user.Account) w.chain =
            (chain₁, .data (d.json.Marshal fact)) →
        TxnProcessing.updateUsersFacts d (user :: rest) w =
          TxnProcessing.updateUsersFacts d rest { w with chain := chain₁ }) ∧
    (∀ user base, getMentorFact user base = some fact →
      getMentorFact user
        (d.json.UnmarshalMentor (d.json.Marshal fact) TxnProcessing.zeroMentorFact).1 = none ∧
      ∀ rest, user.Mentorees ≠ [] →
        d.ctx.ReadTxData (HexToAddress d.AppMosolyDidAddress) d.ctx.address
          (getMentorFactKeyBytes d.Keccak256 user.Account) w.chain =
            (chain₁, .data (d.json.Marshal fact)) →
        TxnProcessing.updateMentorsFacts d (user :: rest) w =
          TxnProcessing.updateMentorsFacts d rest { w with chain := chain₁ }) := by
  have hne : d.json.Marshal fact ≠ [] := by
    intro h0
    rw [hjson] at h0
    simp only [goJson] at h0
    rw [h0, hempty] at hrt
    exact absurd hrt (by simp)
  have hall := differ_of_decoded text fact hrt
  rw [← hjson] at hall
  refine ⟨?_, ?_, ?_⟩
  · intro project base h
    obtain ⟨hdec, hnone⟩ := hall.1 project base h
    refine ⟨hnone, ?_⟩
    intro rest hread
    have hrd := readFact_of_data d d.json.UnmarshalProject projectKey
      (HexToAddress project.PassportAddress) TxnProcessing.zeroProjectFact _ w.chain chain₁
      (d.json.Marshal fact) hread hne (Prod.ext rfl hdec)
    have hkey : getFactKeyBytes factKeyProject = .ok projectKey := rfl
    have e : ({ BlockchainFact := TxnProcessing.zeroFact, Payload := { Name := "" } } :
        mosolyapi.BlockchainProjectFact) = TxnProcessing.zeroProjectFact := rfl
    rw [TxnProcessing.updateProjectsFacts, TxnProcessing.updateProjectsFacts, hkey]
    simp only
    rw [TxnProcessing.updateProjectsFactsLoop, e, hrd]
    simp only
    rw [hnone]
    rfl
  · intro user base h
    obtain ⟨hdec, hnone⟩ := hall.2.1 user base h
    refine ⟨hnone, ?_⟩
    intro rest hread
    have hrd := readFact_of_data d d.json.UnmarshalUser (getBytesFromHexAddress user.Account)
      (HexToAddress d.AppMosolyDidAddress) TxnProcessing.zeroUserFact _ w.chain chain₁
      (d.json.Marshal fact) hread hne (Prod.ext rfl hdec)
    rw [(updateUsersFacts_cons_of_read d user rest w chain₁ _ none hrd).1 hnone]
    rfl
  · intro user base h
    obtain ⟨hdec, hnone⟩ := hall.2.2 user base h
    refine ⟨hnone, ?_⟩
    intro rest hm hread
    have hrd := readFact_of_data d d.json.UnmarshalMentor
      (getMentorFactKeyBytes d.Keccak256 user.Account)
      (HexToAddress d.AppMosolyDidAddress) TxnProcessing.zeroMentorFact _ w.chain chain₁
      (d.json.Marshal fact) hread hne (Prod.ext rfl hdec)
    have hlen : ¬ user.Mentorees.length = 0 := fun h0 => hm (List.length_eq_zero.1 h0)
    have e : ({ BlockchainFact := TxnProcessing.zeroFact, Payload := none } :
        mosolyapi.BlockchainMentorFact) = TxnProcessing.zeroMentorFact := rfl
    rw [TxnProcessing.updateMentorsFacts, if_neg hlen, e, hrd]
    simp only
    rw [hnone]
    rfl

set_option maxRecDepth 100000 in
/-- C15, witness: the user fact of user 1, who has no mentors, written as JSON text and
read back on the storage ledger. -/
theorem write_then_read_round_trip_witness :
    storageDeps.json = goJson asciiJson ∧
    asciiJson.parse (asciiJson.render (encodeFact factOfUserOne)) =
      some (encodeFact factOfUserOne) ∧
    asciiJson.parse [] = none ∧
    getUserFact userWithoutMentors TxnProcessing.zeroUserFact = some factOfUserOne ∧
    getUserFact userWithoutMentors
      (storageDeps.json.UnmarshalUser (storageDeps.json.Marshal factOfUserOne)
        TxnProcessing.zeroUserFact).1 = none ∧
    TxnProcessing.updateUsersFacts storageDeps [userWithoutMentors] worldAfterWrite =
      TxnProcessing.updateUsersFacts storageDeps []
        { worldAfterWrite with chain := worldAfterWrite.chain } :=
  ⟨rfl, rfl, rfl, rfl,
    ((write_then_read_round_trip storageDeps asciiJson factOfUserOne worldAfterWrite
      worldAfterWrite.chain rfl rfl rfl).2.1 userWithoutMentors
      TxnProcessing.zeroUserFact rfl).1,
    ((write_then_read_round_trip storageDeps asciiJson factOfUserOne worldAfterWrite
      worldAfterWrite.chain rfl rfl rfl).2.1 userWithoutMentors
      TxnProcessing.zeroUserFact rfl).2 [] rfl⟩

/-! ## `DeleteSuccessfulTransactions` -/

/-- The sub-queries of the garbage collection, as a statement about the rows. -/
theorem referenced_eq_false_iff (st : Store) (id : Int) :
    st.referenced id = false ↔
      (∀ u ∈ st.user_data, u.transaction_id ≠ some id) ∧
      (∀ p ∈ st.project_data, p.transaction_id ≠ some id) ∧
      (∀ m ∈ st.mentorship, m.transaction_id ≠ some id) := by
  unfold Store.referenced
  simp only [Bool.or_eq_false_iff, List.any_eq_false, decide_eq_true_eq, and_assoc]

/-- C21: for every store, when the server executes the statement,
`DeleteSuccessfulTransactions` returns nil and leaves in `transactions`, in their order
and unchanged, exactly the rows that are not both in state Successful and referenced by
no `user_data`, `project_data` or `mentorship` row; so every InProgress row, every Failed
row and every referenced Successful row stays, and the other tables are as they were.
When the statement fails the error is returned and the store is as it was. -/
theorem DeleteSuccessfulTransactions_spec (s : Session) :
    (s.step.err = none →
      (DeleteSuccessfulTransactions s).2 = .ok () ∧
      (DeleteSuccessfulTransactions s).1.store.transactions =
        s.store.transactions.filter (fun r => decide (¬ (r.transaction_state_id = TxnSuccessful ∧
          (∀ u ∈ s.store.user_data, u.transaction_id ≠ some r.id) ∧
          (∀ p ∈ s.store.project_data, p.transaction_id ≠ some r.id) ∧
          (∀ m ∈ s.store.mentorship, m.transaction_id ≠ some r.id)))) ∧
      (∀ r ∈ s.store.transactions,
        (r.transaction_state_id = TxnInProgress ∨ r.transaction_state_id = TxnFailed ∨
          (∃ u ∈ s.store.user_data, u.transaction_id = some r.id) ∨
          (∃ p ∈ s.store.project_data, p.transaction_id = some r.id) ∨
          (∃ m ∈ s.store.mentorship, m.transaction_id = some r.id)) →
        r ∈ (DeleteSuccessfulTransactions s).1.store.transactions) ∧
      (DeleteSuccessfulTransactions s).1.store.user_data = s.store.user_data ∧
      (DeleteSuccessfulTransactions s).1.store.project_data = s.store.project_data ∧
      (DeleteSuccessfulTransactions s).1.store.mentorship = s.store.mentorship ∧
      (DeleteSuccessfulTransactions s).1.store.ethereum_blockchain =
        s.store.ethereum_blockchain) ∧
    (∀ e, s.step.err = some e →
      (DeleteSuccessfulTransactions s).2 = .error e ∧
      (DeleteSuccessfulTransactions s).1.store = s.store) := by
  constructor
  · intro h
    have hfilter : s.store.deleteSuccessfulTransactions.transactions =
        s.store.transactions.filter (fun r => decide (¬ (r.transaction_state_id = TxnSuccessful ∧
          (∀ u ∈ s.store.user_data, u.transaction_id ≠ some r.id) ∧
          (∀ p ∈ s.store.project_data, p.transaction_id ≠ some r.id) ∧
          (∀ m ∈ s.store.mentorship, m.transaction_id ≠ some r.id)))) := by
      unfold Store.deleteSuccessfulTransactions
      simp only
      apply List.filter_congr
      intro r _
      unfold Store.collectable
      simp only [← referenced_eq_false_iff]
      cases hr : s.store.referenced r.id <;> simp
    have hres : DeleteSuccessfulTransactions s =
        (s.advance s.store.deleteSuccessfulTransactions, .ok ()) := by
      unfold DeleteSuccessfulTransactions
      rw [h]
    rw [hres]
    refine ⟨rfl, hfilter, ?_, rfl, rfl, rfl, rfl⟩
    intro r hr hkeep
    show r ∈ s.store.deleteSuccessfulTransactions.transactions
    rw [hfilter, List.mem_filter]
    refine ⟨hr, ?_⟩
    rw [decide_eq_true_eq]
    rintro ⟨hs, hu, hp, hm⟩
    rcases hkeep with h1 | h1 | ⟨u, hu', h1⟩ | ⟨p, hp', h1⟩ | ⟨m, hm', h1⟩
    · rw [hs] at h1; exact absurd h1 (by decide)
    · rw [hs] at h1; exact absurd h1 (by decide)
    · exact hu u hu' h1
    · exact hp p hp' h1
    · exact hm m hm' h1
  · intro e h
    unfold DeleteSuccessfulTransactions
    rw [h]
    exact ⟨rfl, rfl⟩

/-- C21, witness: of four transactions — in progress, failed, successful and linked to a
user, successful and linked to nothing — the garbage collection deletes the last. -/
theorem DeleteSuccessfulTransactions_spec_witness :
    (DeleteSuccessfulTransactions { store := storeOfFourTransactions, script := [] }).2 = .ok () ∧
    (DeleteSuccessfulTransactions
        { store := storeOfFourTransactions, script := [] }).1.store.transactions =
      storeOfFourTransactions.transactions.take 3 :=
  ⟨((DeleteSuccessfulTransactions_spec
      { store := storeOfFourTransactions, script := [] }).1 rfl).1, by decide⟩

/-! ## `TransformUser` -/

/-- The lower-case form of a character is its own lower-case form. -/
theorem toLower_toLower (c : Char) : c.toLower.toLower = c.toLower := by
  have hn : ¬ (c.toLower.toNat ≥ 65 ∧ c.toLower.toNat ≤ 90) := by
    rcases toNat_of_toLower c c.toLower rfl with h | ⟨h1, h2, h3⟩
    · intro hc
      rw [← h] at hc
      have : c.toLower = Char.ofNat (c.toNat + 32) := by simp [Char.toLower, hc]
      rw [this] at h
      have hv : (c.toNat + 32).isValidChar := by
        left; omega
      have e : (Char.ofNat (c.toNat + 32)).toNat = c.toNat + 32 := by
        unfold Char.ofNat
        rw [dif_pos hv]
        rfl
      omega
    · omega
  generalize c.toLower = d at hn ⊢
  unfold Char.toLower
  simp only
  rw [if_neg hn]

/-- Lower-casing a lower-cased string changes nothing. -/
theorem ToLower_ToLower (s : String) : ToLower (ToLower s) = ToLower s := by
  unfold ToLower
  simp only [List.map_map]
  congr 1
  apply List.map_congr_left
  intro c _
  exact toLower_toLower c

/-- Up to `unicode.MaxASCII` the lower-case form of a character is up to it too. -/
theorem toLower_toNat_le (c : Char) (h : c.toNat ≤ 127) : c.toLower.toNat ≤ 127 := by
  rcases toNat_of_toLower c c.toLower rfl with e | ⟨e, _, e₂⟩
  · omega
  · omega

/-- On ASCII text `strings.ToLower` reads no case table: it is the function `ToLower`. -/
theorem strings_ToLower_of_ascii (caseTable : Char → Char) (s : String)
    (h : ∀ c ∈ s.data, c.toNat ≤ 127) : strings.ToLower caseTable s = ToLower s := by
  unfold strings.ToLower ToLower
  congr 1
  apply List.map_congr_left
  intro c hc
  unfold unicode.ToLower
  rw [if_pos (h c hc)]

/-- When the lower-case form that the case tables give for a character beyond ASCII is in
lower-case form, the lower-case form of every character is. -/
theorem unicode_ToLower_ToLower (caseTable : Char → Char)
    (hT : ∀ c : Char, 127 < c.toNat →
      unicode.ToLower caseTable (caseTable c) = caseTable c) (c : Char) :
    unicode.ToLower caseTable (unicode.ToLower caseTable c) = unicode.ToLower caseTable c := by
  by_cases h : c.toNat ≤ 127
  · have e : unicode.ToLower caseTable c = c.toLower := by
      unfold unicode.ToLower
      rw [if_pos h]
    rw [e]
    unfold unicode.ToLower
    rw [if_pos (toLower_toNat_le c h)]
    exact toLower_toLower c
  · have e : unicode.ToLower caseTable c = caseTable c := by
      unfold unicode.ToLower
      rw [if_neg h]
    rw [e]
    exact hT c (by omega)

/-- Under the same condition on the case tables, `strings.ToLower` of a lower-cased text
is that text. -/
theorem strings_ToLower_ToLower (caseTable : Char → Char)
    (hT : ∀ c : Char, 127 < c.toNat →
      unicode.ToLower caseTable (caseTable c) = caseTable c) (s : String) :
    strings.ToLower caseTable (strings.ToLower caseTable s) = strings.ToLower caseTable s := by
  unfold strings.ToLower
  simp only [List.map_map]
  congr 1
  apply List.map_congr_left
  intro c _
  exact unicode_ToLower_ToLower caseTable hT c

/-- The case table of the examples gives lower-case forms that are in lower-case form. -/
theorem sampleCaseTable_lower (c : Char) (h : 127 < c.toNat) :
    unicode.ToLower sampleCaseTable (sampleCaseTable c) = sampleCaseTable c := by
  by_cases hu : 192 ≤ c.toNat ∧ c.toNat ≤ 222 ∧ c.toNat ≠ 215
  · have hv : (c.toNat + 32).isValidChar := by
      left; omega
    have e : (Char.ofNat (c.toNat + 32)).toNat = c.toNat + 32 := by
      unfold Char.ofNat
      rw [dif_pos hv]
      rfl
    have hs : sampleCaseTable c = Char.ofNat (c.toNat + 32) := by
      unfold sampleCaseTable
      rw [if_pos hu]
    rw [hs]
    unfold unicode.ToLower
    rw [if_neg (by rw [e]; omega)]
    unfold sampleCaseTable
    rw [if_neg (by rw [e]; omega)]
  · have hs : sampleCaseTable c = c := by
      unfold sampleCaseTable
      rw [if_neg hu]
    rw [hs]
    unfold unicode.ToLower
    rw [if_neg (by omega)]
    exact hs

/-- C22: for every API user `u`, whatever the case tables of the library hold,
`TransformUser u` has the id, invite hash, validated flag and updated-at of `u` and, as
account, `strings.ToLower` of the account of `u`; its mentoree and mentor lists have the
length and the order of those of `u`, each entry keeping the user id and carrying
`strings.ToLower` of the account; and lower-casing the accounts of the result again
changes nothing — the ASCII letters by the code of `unicode.ToLower`, the characters
beyond ASCII given that the lower-case form the case tables hold for such a character is
in lower-case form. -/
theorem TransformUser_spec (caseTable : Char → Char) (u : mosolyapi.User) :
    (TransformUser caseTable u).ID = u.ID ∧
    (TransformUser caseTable u).InviteURLHash = u.InviteURLHash ∧
    (TransformUser caseTable u).Validated = u.Validated ∧
    (TransformUser caseTable u).UpdatedAt = u.UpdatedAt ∧
    (TransformUser caseTable u).Account = strings.ToLower caseTable u.Account ∧
    (TransformUser caseTable u).Mentorees.length = u.Mentorees.length ∧
    (TransformUser caseTable u).Mentors.length = u.Mentors.length ∧
    (∀ i (h₁ : i < (TransformUser caseTable u).Mentorees.length)
        (h₂ : i < u.Mentorees.length),
      ((TransformUser caseTable u).Mentorees.get ⟨i, h₁⟩).ID =
        (u.Mentorees.get ⟨i, h₂⟩).UserID ∧
      ((TransformUser caseTable u).Mentorees.get ⟨i, h₁⟩).Account =
        strings.ToLower caseTable (u.Mentorees.get ⟨i, h₂⟩).Account) ∧
    (∀ i (h₁ : i < (TransformUser caseTable u).Mentors.length) (h₂ : i < u.Mentors.length),
      ((TransformUser caseTable u).Mentors.get ⟨i, h₁⟩).ID =
        (u.Mentors.get ⟨i, h₂⟩).UserID ∧
      ((TransformUser caseTable u).Mentors.get ⟨i, h₁⟩).Account =
        strings.ToLower caseTable (u.Mentors.get ⟨i, h₂⟩).Account) ∧
    ((∀ c : Char, 127 < c.toNat → unicode.ToLower caseTable (caseTable c) = caseTable c) →
      strings.ToLower caseTable (TransformUser caseTable u).Account =
        (TransformUser caseTable u).Account ∧
      (∀ m ∈ (TransformUser caseTable u).Mentorees,
        strings.ToLower caseTable m.Account = m.Account) ∧
      (∀ m ∈ (TransformUser caseTable u).Mentors,
        strings.ToLower caseTable m.Account = m.Account)) := by
  refine ⟨rfl, rfl, rfl, rfl, rfl, ?_, ?_, ?_, ?_, ?_⟩
  · simp [TransformUser]
  · simp [TransformUser]
  · intro i h₁ h₂
    simp [TransformUser]
  · intro i h₁ h₂
    simp [TransformUser]
  · intro hT
    refine ⟨strings_ToLower_ToLower caseTable hT u.Account, ?_, ?_⟩
    · intro m hm
      simp only [TransformUser, List.mem_map] at hm
      obtain ⟨a, _, rfl⟩ := hm
      exact strings_ToLower_ToLower caseTable hT a.Account
    · intro m hm
      simp only [TransformUser, List.mem_map] at hm
      obtain ⟨a, _, rfl⟩ := hm
      exact strings_ToLower_ToLower caseTable hT a.Account

/-- C22, witness: with the Latin-1 case table of the examples, the user whose account is
`ÀB` and whose mentoree has the account `0xÉf` is transformed to the account `àb` with a
mentoree of account `0xéf`, and lower-casing these again changes nothing. -/
theorem TransformUser_spec_witness :
    (∀ c : Char, 127 < c.toNat →
      unicode.ToLower sampleCaseTable (sampleCaseTable c) = sampleCaseTable c) ∧
    (strings.ToLower sampleCaseTable (TransformUser sampleCaseTable userOfLatinAccount).Account =
        (TransformUser sampleCaseTable userOfLatinAccount).Account ∧
      (∀ m ∈ (TransformUser sampleCaseTable userOfLatinAccount).Mentorees,
        strings.ToLower sampleCaseTable m.Account = m.Account) ∧
      (∀ m ∈ (TransformUser sampleCaseTable userOfLatinAccount).Mentors,
        strings.ToLower sampleCaseTable m.Account = m.Account)) ∧
    TransformUser sampleCaseTable userOfLatinAccount =
      { ID := 9, UpdatedAt := 5, InviteURLHash := "invite", Account := "àb", Validated := true,
        Mentorees := [{ ID := 2, Account := "0xéf" }], Mentors := [] } :=
  ⟨sampleCaseTable_lower,
    (TransformUser_spec sampleCaseTable userOfLatinAccount).2.2.2.2.2.2.2.2.2
      sampleCaseTable_lower,
    by decide⟩

/-! ## The text of a transaction hash in the two pipelines -/

/-- A transaction without status makes the first loop of `getTxHashesByStatus` panic. -/
theorem collectByStatus_panics (status : TransactionStatus) (txs : List (Option Transaction))
    (h : ∃ tx, some tx ∈ txs ∧ tx.Status = none) :
    ∀ m : transactionsByHash, collectByStatus status txs m = .panicked nilDeref := by
  induction txs with
  | nil =>
    obtain ⟨tx, hmem, _⟩ := h
    simp at hmem
  | cons x rest ih =>
    intro m
    obtain ⟨tx, hmem, hst⟩ := h
    cases x with
    | none =>
      have hrest : some tx ∈ rest := by simpa using hmem
      simpa [collectByStatus] using ih ⟨tx, hrest, hst⟩ m
    | some tx' =>
      cases hst' : tx'.Status with
      | none => simp [collectByStatus, hst']
      | some st =>
        have hne : tx ≠ tx' := by
          intro e; rw [e, hst'] at hst; simp at hst
        have hrest : some tx ∈ rest := by
          rcases List.mem_cons.1 hmem with e | e
          · exact absurd (Option.some.inj e) hne
          · exact e
        by_cases heq : st = status
        · simp [collectByStatus, hst', heq, ih ⟨tx, hrest, hst⟩]
        · simp [collectByStatus, hst', heq, ih ⟨tx, hrest, hst⟩]

/-- The first loop of `getTxHashesByStatus` passes over the nil entries. -/
theorem collectByStatus_filter (status : TransactionStatus) (txs : List (Option Transaction)) :
    ∀ m : transactionsByHash, collectByStatus status txs m =
      collectByStatus status (txs.filter Option.isSome) m := by
  induction txs with
  | nil => intro m; rfl
  | cons x rest ih =>
    intro m
    cases x with
    | none => simpa [collectByStatus] using ih m
    | some tx =>
      cases hst : tx.Status with
      | none => simp [collectByStatus, hst]
      | some st =>
        by_cases heq : st = status
        · simp [collectByStatus, hst, heq, ih]
        · simp [collectByStatus, hst, heq, ih]

/-- When `getTxHashesByStatus` returns, every transaction of the list carries a status. -/
theorem status_present_of_ok (txs : List (Option Transaction)) (status : TransactionStatus)
    (keys : List String) (h : getTxHashesByStatus txs status = .ok keys) :
    ∀ tx, some tx ∈ txs → tx.Status ≠ none := by
  intro tx hmem hst
  have hp := collectByStatus_panics status txs ⟨tx, hmem, hst⟩ []
  rw [getTxHashesByStatus, hp] at h
  simp at h

/-- A hexadecimal digit of `hexDigit` is in lower case. -/
theorem hexDigit_toLower (n : Nat) : (hexDigit n).toLower = hexDigit n := by
  unfold hexDigit
  have hlt : n % 16 < 16 := Nat.mod_lt n (by decide)
  generalize n % 16 = k at hlt
  interval_cases k <;> rfl

/-- The text `Hash.Hex` is in lower case. -/
theorem ToLower_Hex (h : Hash) : ToLower h.Hex = h.Hex := by
  unfold ToLower Hash.Hex
  congr 1
  have hd : ∀ l : List (Fin 256),
      (l.flatMap hexByte).map Char.toLower = l.flatMap hexByte := by
    intro l
    induction l with
    | nil => rfl
    | cons b rest ih =>
      simp only [List.flatMap_cons, List.map_append, ih, hexByte, List.map_cons, List.map_nil,
        hexDigit_toLower]
  show ('0' : Char).toLower :: ('x' : Char).toLower :: (h.val.flatMap hexByte).map Char.toLower =
    '0' :: 'x' :: h.val.flatMap hexByte
  rw [hd]
  rfl

/-- A hexadecimal digit of `hexDigit` is an ASCII character. -/
theorem hexDigit_ascii (n : Nat) : (hexDigit n).toNat ≤ 127 := by
  unfold hexDigit
  have hlt : n % 16 < 16 := Nat.mod_lt n (by decide)
  generalize n % 16 = k at hlt
  interval_cases k <;> decide

/-- The text `Hash.Hex` is ASCII, so that `strings.ToLower` of it reads no case table:
whatever the case tables hold, it is `ToLower` of the text. -/
theorem strings_ToLower_Hex (caseTable : Char → Char) (h : Hash) :
    strings.ToLower caseTable h.Hex = ToLower h.Hex := by
  apply strings_ToLower_of_ascii
  intro c hc
  have hd : ∀ l : List (Fin 256), ∀ c ∈ l.flatMap hexByte, c.toNat ≤ 127 := by
    intro l c hc
    simp only [List.mem_flatMap, hexByte, List.mem_cons, List.mem_singleton,
      List.not_mem_nil, or_false] at hc
    obtain ⟨b, _, e | e⟩ := hc
    · rw [e]; exact hexDigit_ascii _
    · rw [e]; exact hexDigit_ascii _
  simp only [Hash.Hex, List.mem_cons] at hc
  rcases hc with e | e | e
  · rw [e]; decide
  · rw [e]; decide
  · exact hd _ c e

/-- C29: the two pipelines agree on the text of a transaction hash.  For every 32-byte
hash `h`, the string the fact writer passes to `createTxnData` (`h.String()`), which is
what the inserted row carries in `transaction_hash`, is the string under which
`getTxHashesByStatus` lists a block transaction with hash `h` (the lower-cased `h.Hex()`);
so when the consumer returns the hashes of a block holding such a transaction with the
requested status, the row inserted by the writer is selected by the `WHERE` clause of
`UpdateTxnsStatus` and takes the new state. -/
theorem hash_text_agrees (h : Hash) (txs : List (Option Transaction))
    (status : TransactionStatus) (keys : List String) (st : Store) (now : Nat) :
    ToLower h.Hex = h.String ∧
    (TxnProcessing.insertTransaction st h.String now).transactions = st.transactions ++
      [{ id := st.transactions_id_seq + 1, created := now, updated := now,
         modified_by := TxnProcessing.GetAuditName, transaction_hash := h.String,
         transaction_state_id := TxnInProgress }] ∧
    (getTxHashesByStatus txs status = .ok keys →
      (∃ tx, some tx ∈ txs ∧ tx.Hash = h ∧ tx.Status = some status) →
      h.String ∈ keys ∧
      ∀ (newState : Int) (auditName : String) (t : Nat),
        updateRow keys newState auditName t
            { id := st.transactions_id_seq + 1, created := now, updated := now,
              modified_by := TxnProcessing.GetAuditName, transaction_hash := h.String,
              transaction_state_id := TxnInProgress } =
          { id := st.transactions_id_seq + 1, created := now, updated := t,
            modified_by := auditName, transaction_hash := h.String,
            transaction_state_id := newState }) := by
  refine ⟨ToLower_Hex h, rfl, ?_⟩
  intro hok hex
  obtain ⟨tx, hmem, hh, hst⟩ := hex
  have hwf := status_present_of_ok txs status keys hok
  obtain ⟨m', h1, h2, _⟩ := collectByStatus_ok status txs [] hwf
  have hkeys : keys = m'.map Prod.fst := by
    rw [getTxHashesByStatus, h1] at hok
    simp only [Res.ok.injEq] at hok
    exact hok.symm
  have hin : h.String ∈ keys := by
    rw [hkeys, h2]
    right
    refine ⟨tx, hmem, hst, ?_⟩
    rw [hh, ToLower_Hex]
    rfl
  refine ⟨hin, ?_⟩
  intro newState auditName t
  have hsel : inProgressWithHash keys
      { id := st.transactions_id_seq + 1, created := now, updated := now,
        modified_by := TxnProcessing.GetAuditName, transaction_hash := h.String,
        transaction_state_id := TxnInProgress } = true := by
    simp [inProgressWithHash, hin]
  unfold updateRow
  rw [if_pos hsel]

/-- C29, witness: the sample hash in block 100, whose only transaction is successful. -/
theorem hash_text_agrees_witness :
    getTxHashesByStatus block100.Transactions TransactionSuccessful = .ok [sampleHash.String] ∧
    ToLower sampleHash.Hex = sampleHash.String ∧
    updateRow [sampleHash.String] TxnSuccessful "mosoly-txnvalidating" 9
        { id := emptyStore.transactions_id_seq + 1, created := 4, updated := 4,
          modified_by := TxnProcessing.GetAuditName, transaction_hash := sampleHash.String,
          transaction_state_id := TxnInProgress } =
      { id := emptyStore.transactions_id_seq + 1, created := 4, updated := 9,
        modified_by := "mosoly-txnvalidating", transaction_hash := sampleHash.String,
        transaction_state_id := TxnSuccessful } :=
  ⟨rfl,
    (hash_text_agrees sampleHash block100.Transactions TransactionSuccessful
      [sampleHash.String] emptyStore 4).1,
    ((hash_text_agrees sampleHash block100.Transactions TransactionSuccessful
      [sampleHash.String] emptyStore 4).2.2 rfl
      ⟨txSuccessful, by simp [block100], rfl, rfl⟩).2 TxnSuccessful "mosoly-txnvalidating" 9⟩

/-! ## Safety of `getTxHashesByStatus` -/

/-- C30: on every transaction list in which each non-nil transaction carries a status,
`getTxHashesByStatus` returns (the dereference of the status does not fail) a list
without duplicates whose length is the number of distinct lower-case hashes of the
transactions with the requested status; nil entries are passed over (the result is that
for the list without them); and the precondition is needed: on a list holding a
transaction without status the function panics with a nil dereference. -/
theorem getTxHashesByStatus_safe (txs : List (Option Transaction))
    (status : TransactionStatus) :
    ((∀ tx, some tx ∈ txs → tx.Status ≠ none) →
      ∃ keys, getTxHashesByStatus txs status = .ok keys ∧ keys.Nodup ∧
        keys.length =
          (((txs.filterMap id).filter (fun tx => decide (tx.Status = some status))).map
            (fun tx => ToLower tx.Hash.Hex)).dedup.length) ∧
    getTxHashesByStatus txs status = getTxHashesByStatus (txs.filter Option.isSome) status ∧
    ((∃ tx, some tx ∈ txs ∧ tx.Status = none) →
      getTxHashesByStatus txs status = .panicked nilDeref) := by
  refine ⟨?_, ?_, ?_⟩
  · intro hwf
    obtain ⟨m', h1, h2, h3⟩ := collectByStatus_ok status txs [] hwf
    have hnd : (m'.map Prod.fst).Nodup := h3 List.nodup_nil
    refine ⟨m'.map Prod.fst, by simp [getTxHashesByStatus, h1], hnd, ?_⟩
    rw [← List.card_toFinset, ← List.toFinset_card_of_nodup hnd]
    congr 1
    ext k
    simp only [List.mem_toFinset, h2, List.map_nil, List.not_mem_nil, false_or, List.mem_map,
      List.mem_filter, List.mem_filterMap, id_eq, exists_eq_right, decide_eq_true_eq]
    constructor
    · rintro ⟨tx, hmem, hst, rfl⟩
      exact ⟨tx, ⟨hmem, hst⟩, rfl⟩
    · rintro ⟨tx, ⟨hmem, hst⟩, rfl⟩
      exact ⟨tx, hmem, hst, rfl⟩
  · unfold getTxHashesByStatus
    rw [collectByStatus_filter]
  · intro h
    unfold getTxHashesByStatus
    rw [collectByStatus_panics status txs h]

/-- C30, witness: a list with a nil entry, the successful sample transaction twice and a
transaction of another status gives one hash. -/
theorem getTxHashesByStatus_safe_witness :
    ∃ keys,
      getTxHashesByStatus [none, some txSuccessful, some txOtherStatus, some txSuccessful]
        TransactionSuccessful = .ok keys ∧ keys.Nodup ∧
      keys.length =
        ((([none, some txSuccessful, some txOtherStatus, some txSuccessful].filterMap
              id).filter (fun tx => decide (tx.Status = some TransactionSuccessful))).map
            (fun tx => ToLower tx.Hash.Hex)).dedup.length :=
  (getTxHashesByStatus_safe [none, some txSuccessful, some txOtherStatus, some txSuccessful]
    TransactionSuccessful).1 (by
      intro tx hmem
      simp only [List.mem_cons, Option.some.injEq, List.mem_singleton, List.not_mem_nil,
        or_false, false_or, reduceCtorEq] at hmem
      rcases hmem with rfl | rfl | rfl <;> simp [txSuccessful, txOtherStatus])

/-! ## The invalidation list -/

/-- The entries `deleteTokens` leaves are those whose instant is after `now`. -/
theorem deleteTokensLoop_tokens {ε : Type} (now : Int)
    (l : List (String × authutils.TokenInvalidationData ε)) :
    ∀ (env : ε) (log : List String),
      (authutils.deleteTokensLoop now l env log).1 =
        l.filter (fun kv => decide (now < kv.2.InvalidateOldTokenAt)) := by
  induction l with
  | nil => intro env log; rfl
  | cons kv rest ih =>
    intro env log
    obtain ⟨key, data⟩ := kv
    by_cases h : now < data.InvalidateOldTokenAt
    · simp [authutils.deleteTokensLoop, h, ih]
    · rw [authutils.deleteTokensLoop, if_neg h]
      rcases hf : data.InvalidateFunc data.OldToken env with ⟨env₁, err⟩
      cases err <;> simp [h, ih]

/-- A key that is not among the keys of a map has no entry. -/
theorem find_eq_none_of_not_mem {α : Type} (l : List (String × α)) (k : String)
    (h : k ∉ l.map Prod.fst) : l.find? (fun kv => decide (kv.1 = k)) = none := by
  rw [List.find?_eq_none]
  intro kv hkv hk
  simp only [decide_eq_true_eq] at hk
  exact h (List.mem_map.2 ⟨kv, hkv, hk⟩)

/-- Reading a key of a map with distinct keys after deleting the entries that fail a
test: the entry of the key when it passes the test. -/
theorem find_filter_of_nodup {α : Type} (p : String × α → Bool) (k : String) :
    ∀ l : List (String × α), (l.map Prod.fst).Nodup →
      (l.filter p).find? (fun kv => decide (kv.1 = k)) =
        (l.find? (fun kv => decide (kv.1 = k))).filter p := by
  intro l
  induction l with
  | nil => intro _; rfl
  | cons kv rest ih =>
    intro hnd
    rw [List.map_cons, List.nodup_cons] at hnd
    by_cases hk : kv.1 = k
    · have hnone : k ∉ rest.map Prod.fst := by rw [← hk]; exact hnd.1
      have hnone' : k ∉ (rest.filter p).map Prod.fst := by
        intro hmem
        obtain ⟨x, hx, hxk⟩ := List.mem_map.1 hmem
        exact hnone (List.mem_map.2 ⟨x, (List.mem_filter.1 hx).1, hxk⟩)
      by_cases hp : p kv = true
      · simp [List.filter_cons, hp, hk, Option.filter]
      · simp only [Bool.not_eq_true] at hp
        simp [List.filter_cons, hp, hk, Option.filter,
          find_eq_none_of_not_mem _ k hnone']
    · by_cases hp : p kv = true
      · simp [List.filter_cons, hp, hk, ih hnd.2]
      · simp only [Bool.not_eq_true] at hp
        simp [List.filter_cons, hp, hk, ih hnd.2]

/-- C28: for every invalidation list (a map, so with distinct keys):
`GetNewTokenForOld(t)` returns `("", false)` when `t` has no entry; after
`InvalidateTokenAfter(t, n, d, f)` on a list with no entry for `t` it returns
`(n, true)`; when an entry for `t` exists `InvalidateTokenAfter` leaves the list as it is
and the new token of that entry keeps being returned; `deleteTokens` removes exactly the
entries whose invalidation instant is not after the current time — reading any key
afterwards gives its entry when that entry's instant is after `now` and nothing
otherwise — so `GetNewTokenForOld` on a removed token returns `("", false)`; and both
methods leave the keys distinct. -/
theorem InvalidationList_spec {ε : Type} (il : authutils.InvalidationList ε)
    (hnd : (il.tokens.map Prod.fst).Nodup) (t n : String) (d now : Int)
    (f : String → ε → ε × Option String) (env : ε) (log : List String) :
    (il.lookup t = none → il.GetNewTokenForOld t = ("", false)) ∧
    (il.lookup t = none →
      (il.InvalidateTokenAfter t n d f now).GetNewTokenForOld t = (n, true)) ∧
    (∀ e, il.lookup t = some e →
      il.InvalidateTokenAfter t n d f now = il ∧
      (il.InvalidateTokenAfter t n d f now).GetNewTokenForOld t = (e.NewToken, true)) ∧
    (∀ k, (il.deleteTokens now env log).1.lookup k =
      (il.lookup k).filter (fun e => decide (now < e.InvalidateOldTokenAt))) ∧
    (∀ k e, il.lookup k = some e → e.InvalidateOldTokenAt ≤ now →
      (il.deleteTokens now env log).1.GetNewTokenForOld k = ("", false)) ∧
    ((il.InvalidateTokenAfter t n d f now).tokens.map Prod.fst).Nodup ∧
    ((il.deleteTokens now env log).1.tokens.map Prod.fst).Nodup := by
  have hdel : ∀ k, (il.deleteTokens now env log).1.lookup k =
      (il.lookup k).filter (fun e => decide (now < e.InvalidateOldTokenAt)) := by
    intro k
    unfold authutils.InvalidationList.deleteTokens authutils.InvalidationList.lookup
    simp only
    rw [deleteTokensLoop_tokens,
      find_filter_of_nodup (fun kv => decide (now < kv.2.InvalidateOldTokenAt)) k il.tokens hnd]
    cases il.tokens.find? (fun kv => decide (kv.1 = k)) with
    | none => rfl
    | some kv =>
      by_cases h : now < kv.2.InvalidateOldTokenAt <;> simp [Option.filter, h]
  refine ⟨?_, ?_, ?_, hdel, ?_, ?_, ?_⟩
  · intro h
    unfold authutils.InvalidationList.GetNewTokenForOld
    rw [h]
  · intro h
    have hfind : il.tokens.find? (fun kv => decide (kv.1 = t)) = none := by
      unfold authutils.InvalidationList.lookup at h
      simpa using h
    unfold authutils.InvalidationList.InvalidateTokenAfter
    rw [h]
    unfold authutils.InvalidationList.GetNewTokenForOld authutils.InvalidationList.lookup
    simp only [List.find?_append, hfind]
    simp
  · intro e h
    have heq : il.InvalidateTokenAfter t n d f now = il := by
      unfold authutils.InvalidationList.InvalidateTokenAfter
      rw [h]
    rw [heq]
    refine ⟨rfl, ?_⟩
    unfold authutils.InvalidationList.GetNewTokenForOld
    rw [h]
  · intro k e h hle
    unfold authutils.InvalidationList.GetNewTokenForOld
    rw [hdel k, h]
    have hn : ¬ now < e.InvalidateOldTokenAt := not_lt.2 hle
    simp [Option.filter, hn]
  · unfold authutils.InvalidationList.InvalidateTokenAfter
    cases h : il.lookup t with
    | some e => exact hnd
    | none =>
      simp only [List.map_append, List.map_cons, List.map_nil]
      rw [List.nodup_append]
      refine ⟨hnd, List.nodup_singleton _, ?_⟩
      intro a ha hb
      rw [List.mem_singleton] at hb
      subst hb
      obtain ⟨kv, hkv, hk⟩ := List.mem_map.1 ha
      unfold authutils.InvalidationList.lookup at h
      rw [Option.map_eq_none', List.find?_eq_none] at h
      exact h kv hkv (by simpa using hk)
  · unfold authutils.InvalidationList.deleteTokens
    simp only
    rw [deleteTokensLoop_tokens]
    exact (List.filter_sublist _).map Prod.fst |>.nodup hnd

/-- C28, witness: the scenario of the test of the list — no entry at first, the new token
after `InvalidateTokenAfter` with a duration of minus one hour, and no entry again after
`deleteTokens`. -/
theorem InvalidationList_spec_witness :
    (testList.tokens.map Prod.fst).Nodup ∧
    testList.GetNewTokenForOld "test_token" = ("", false) ∧
    testListWithToken.GetNewTokenForOld "test_token" = ("test_new_token", true) ∧
    (testListWithToken.deleteTokens 1 () []).1.GetNewTokenForOld "test_token" = ("", false) :=
  ⟨List.nodup_nil,
    (InvalidationList_spec testList List.nodup_nil "test_token" "test_new_token"
      (-3600000000000) 0 testInvalidateFunc () []).1 rfl,
    (InvalidationList_spec testList List.nodup_nil "test_token" "test_new_token"
      (-3600000000000) 0 testInvalidateFunc () []).2.1 rfl,
    rfl⟩

/-! ## `syncUsers` -/

/-- A statement the server executes is a step of the script without error. -/
theorem step_ok_take (s : Session) (h : s.step.err = none) :
    ∀ stp ∈ s.script.take 1, stp.err = none := by
  intro stp hmem
  unfold Session.step at h
  cases hs : s.script with
  | nil => rw [hs] at hmem; simp at hmem
  | cons x xs =>
    rw [hs] at hmem h
    simp only [List.take_succ_cons, List.take_zero, List.mem_singleton] at hmem
    subst hmem
    simpa using h

/-- Statements executed one after the other: the steps of the script they consume. -/
theorem steps_ok_add (scr : List Step) (k₁ k₂ : Nat)
    (h₁ : ∀ stp ∈ scr.take k₁, stp.err = none)
    (h₂ : ∀ stp ∈ (scr.drop k₁).take k₂, stp.err = none) :
    ∀ stp ∈ scr.take (k₁ + k₂), stp.err = none := by
  intro stp hmem
  rw [List.take_add, List.mem_append] at hmem
  rcases hmem with h | h
  · exact h₁ stp h
  · exact h₂ stp h

/-- The inner loop of `syncUsers` never panics; it consumes a number of steps of the
script, and when it returns nil all of them were executed and one mentorship row per
mentoree was appended. -/
theorem insertMentorees_cases (userID : Int) :
    ∀ (ms : List dbmodels.Mentoree) (s : Session),
      (∀ p, (TxnProcessing.insertMentorees userID ms s).2 ≠ .panicked p) ∧
      ∃ k, (TxnProcessing.insertMentorees userID ms s).1.script = s.script.drop k ∧
        ((TxnProcessing.insertMentorees userID ms s).2 = .ok () →
          (∀ stp ∈ s.script.take k, stp.err = none) ∧
          (TxnProcessing.insertMentorees userID ms s).1.store =
            { s.store with mentorship := s.store.mentorship ++ ms.map (fun m =>
                ({ user_id := userID, mentoree_id := m.ID, transaction_id := none } :
                  MentorshipRow)) }) := by
  intro ms
  induction ms with
  | nil =>
    intro s
    refine ⟨by intro p; simp [TxnProcessing.insertMentorees], 0, rfl, ?_⟩
    intro _
    refine ⟨by simp, ?_⟩
    simp [TxnProcessing.insertMentorees]
  | cons m rest ih =>
    intro s
    cases hs : s.step.err with
    | some e =>
      have hr : TxnProcessing.insertMentorees userID (m :: rest) s =
          (s.advance s.store, .error ("failed to update mentorship: " ++ e)) := by
        rw [TxnProcessing.insertMentorees, hs]
      rw [hr]
      refine ⟨by intro p; simp, 1, by simp [Session.advance], ?_⟩
      intro h
      simp at h
    | none =>
      have hr : TxnProcessing.insertMentorees userID (m :: rest) s =
          TxnProcessing.insertMentorees userID rest
            (s.advance (TxnProcessing.insertMentorship s.store userID m.ID)) := by
        rw [TxnProcessing.insertMentorees, hs]
      rw [hr]
      obtain ⟨hp, k, hk, hok⟩ :=
        ih (s.advance (TxnProcessing.insertMentorship s.store userID m.ID))
      refine ⟨hp, 1 + k, ?_, ?_⟩
      · rw [hk]
        simp [Session.advance, List.drop_drop, Nat.add_comm]
      · intro h
        obtain ⟨h₁, h₂⟩ := hok h
        refine ⟨?_, ?_⟩
        · apply steps_ok_add s.script 1 k (step_ok_take s hs)
          simpa [Session.advance] using h₁
        · rw [h₂]
          simp [Session.advance, TxnProcessing.insertMentorship]

theorem advance_script (s : Session) (st : Store) : (s.advance st).script = s.script.drop 1 := by
  simp [Session.advance]

/-- One user of the batch in `syncUsers`: the body never panics; it consumes a number of
steps of the script, and when it returns nil all of them were executed and the store is
the old one with the user inserted, when no row had its id, or else with its row updated
and its mentorship rows replaced by one row per mentoree. -/
theorem syncUser_cases (user : dbmodels.User) (s : Session) :
    (∀ p, (TxnProcessing.syncUser user s).2 ≠ .panicked p) ∧
    ∃ k, (TxnProcessing.syncUser user s).1.script = s.script.drop k ∧
      ((TxnProcessing.syncUser user s).2 = .ok () →
        (∀ stp ∈ s.script.take k, stp.err = none) ∧
        (TxnProcessing.syncUser user s).1.store =
          if s.store.user_data.all (fun row => !decide (row.id = user.ID)) then
            TxnProcessing.insertUser s.store user
          else
            { TxnProcessing.updateUser s.store user with
              mentorship :=
                (s.store.mentorship.filter fun row => !decide (row.user_id = user.ID)) ++
                  user.Mentorees.map (fun m =>
                    ({ user_id := user.ID, mentoree_id := m.ID, transaction_id := none } :
                      MentorshipRow)) }) := by
  cases hs0 : s.step.err with
  | some e =>
    have hr : TxnProcessing.syncUser user s =
        (s.advance s.store, .error ("failed to get user ID: " ++ e)) := by
      rw [TxnProcessing.syncUser, hs0]
    rw [hr]
    exact ⟨by intro p; simp, 1, advance_script _ _, by intro h; simp at h⟩
  | none =>
    have t0 := step_ok_take s hs0
    by_cases hall : s.store.user_data.all (fun row => !decide (row.id = user.ID)) = true
    · cases hs1 : (s.advance s.store).step.err with
      | some e =>
        have hr : TxnProcessing.syncUser user s =
            ((s.advance s.store).advance (s.advance s.store).store,
              .error ("failed to insert user: " ++ e)) := by
          rw [TxnProcessing.syncUser, hs0]
          simp only [hall, if_true, hs1]
        rw [hr]
        refine ⟨by intro p; simp, 2, ?_, by intro h; simp at h⟩
        rw [advance_script, advance_script, List.drop_drop]
      | none =>
        have hr : TxnProcessing.syncUser user s =
            ((s.advance s.store).advance
              (TxnProcessing.insertUser (s.advance s.store).store user), .ok ()) := by
          rw [TxnProcessing.syncUser, hs0]
          simp only [hall, if_true, hs1]
        rw [hr]
        refine ⟨by intro p; simp, 2, ?_, ?_⟩
        · rw [advance_script, advance_script, List.drop_drop]
        · intro _
          refine ⟨?_, ?_⟩
          · apply steps_ok_add s.script 1 1 t0
            have := step_ok_take _ hs1
            rwa [advance_script] at this
          · rw [if_pos hall]
            rfl
    · cases hs1 : (s.advance s.store).step.err with
      | some e =>
        have hr : TxnProcessing.syncUser user s =
            ((s.advance s.store).advance (s.advance s.store).store,
              .error ("failed to update user: " ++ e)) := by
          rw [TxnProcessing.syncUser, hs0]
          simp only [hall, hs1]
          rfl
        rw [hr]
        refine ⟨by intro p; simp, 2, ?_, by intro h; simp at h⟩
        rw [advance_script, advance_script, List.drop_drop]
      | none =>
        have t1 : ∀ stp ∈ (s.script.drop 1).take 1, stp.err = none := by
          have := step_ok_take _ hs1
          rwa [advance_script] at this
        cases hs2 : ((s.advance s.store).advance
            (TxnProcessing.updateUser (s.advance s.store).store user)).step.err with
        | some e =>
          have hr : TxnProcessing.syncUser user s =
              (((s.advance s.store).advance
                  (TxnProcessing.updateUser (s.advance s.store).store user)).advance
                ((s.advance s.store).advance
                  (TxnProcessing.updateUser (s.advance s.store).store user)).store,
                .error e) := by
            rw [TxnProcessing.syncUser, hs0]
            simp only [hall, hs1, hs2]
            rfl
          rw [hr]
          refine ⟨by intro p; simp, 3, ?_, by intro h; simp at h⟩
          rw [advance_script, advance_script, advance_script, List.drop_drop, List.drop_drop]
        | none =>
          have t2 : ∀ stp ∈ (s.script.drop 2).take 1, stp.err = none := by
            have := step_ok_take _ hs2
            rwa [advance_script, advance_script, List.drop_drop] at this
          have hr : TxnProcessing.syncUser user s =
              TxnProcessing.insertMentorees user.ID user.Mentorees
                (((s.advance s.store).advance
                    (TxnProcessing.updateUser (s.advance s.store).store user)).advance
                  (TxnProcessing.deleteMentorship ((s.advance s.store).advance
                    (TxnProcessing.updateUser (s.advance s.store).store user)).store
                    user.ID)) := by
            rw [TxnProcessing.syncUser, hs0]
            simp only [hall, hs1, hs2]
            rfl
          rw [hr]
          obtain ⟨hp, k, hk, hok⟩ := insertMentorees_cases user.ID user.Mentorees
            (((s.advance s.store).advance
                (TxnProcessing.updateUser (s.advance s.store).store user)).advance
              (TxnProcessing.deleteMentorship ((s.advance s.store).advance
                (TxnProcessing.updateUser (s.advance s.store).store user)).store user.ID))
          refine ⟨hp, 3 + k, ?_, ?_⟩
          · rw [hk, advance_script, advance_script, advance_script, List.drop_drop,
              List.drop_drop, List.drop_drop]
            congr 1
            omega
          · intro h
            obtain ⟨h₁, h₂⟩ := hok h
            refine ⟨?_, ?_⟩
            · apply steps_ok_add s.script 3 k
              · exact steps_ok_add s.script 2 1 (steps_ok_add s.script 1 1 t0 t1) t2
              · rw [advance_script, advance_script, advance_script, List.drop_drop,
                  List.drop_drop] at h₁
                exact h₁
            · rw [h₂, if_neg hall]
              rfl

/-- What the statements for one user do to the mentorship rows: the rows of other users
are as they were; the rows of the user, when a `user_data` row had its id, are one per
mentoree; and every id with a `user_data` row still has one. -/
theorem syncUser_store_facts (user : dbmodels.User) (st st' : Store)
    (h : st' =
      if st.user_data.all (fun row => !decide (row.id = user.ID)) then
        TxnProcessing.insertUser st user
      else
        { TxnProcessing.updateUser st user with
          mentorship :=
            (st.mentorship.filter fun row => !decide (row.user_id = user.ID)) ++
              user.Mentorees.map (fun m =>
                ({ user_id := user.ID, mentoree_id := m.ID, transaction_id := none } :
                  MentorshipRow)) }) :
    (∀ id, id ≠ user.ID →
      st'.mentorship.filter (fun row => decide (row.user_id = id)) =
        st.mentorship.filter (fun row => decide (row.user_id = id))) ∧
    ((∃ row ∈ st.user_data, row.id = user.ID) →
      st'.mentorship.filter (fun row => decide (row.user_id = user.ID)) =
        user.Mentorees.map (fun m =>
          ({ user_id := user.ID, mentoree_id := m.ID, transaction_id := none } :
            MentorshipRow))) ∧
    (∀ id, (∃ row ∈ st.user_data, row.id = id) → ∃ row ∈ st'.user_data, row.id = id) := by
  by_cases hall : st.user_data.all (fun row => !decide (row.id = user.ID)) = true
  · rw [if_pos hall] at h
    subst h
    refine ⟨fun id _ => rfl, ?_, ?_⟩
    · rintro ⟨row, hrow, hid⟩
      rw [List.all_eq_true] at hall
      have := hall row hrow
      simp [hid] at this
    · rintro id ⟨row, hrow, hid⟩
      exact ⟨row, by simp [TxnProcessing.insertUser, hrow], hid⟩
  · rw [if_neg hall] at h
    subst h
    refine ⟨?_, ?_, ?_⟩
    · intro id hne
      simp only [List.filter_append, List.filter_filter]
      have h₁ : (user.Mentorees.map (fun m =>
          ({ user_id := user.ID, mentoree_id := m.ID, transaction_id := none } :
            MentorshipRow))).filter (fun row => decide (row.user_id = id)) = [] := by
        rw [List.filter_eq_nil_iff]
        intro row hrow
        obtain ⟨m, _, rfl⟩ := List.mem_map.1 hrow
        simp [Ne.symm hne]
      rw [h₁, List.append_nil]
      apply List.filter_congr
      intro row _
      by_cases hr : row.user_id = id
      · simp [hr, hne]
      · simp [hr]
    · intro _
      simp only [List.filter_append, List.filter_filter]
      have h₁ : st.mentorship.filter (fun row =>
          decide (row.user_id = user.ID) && !decide (row.user_id = user.ID)) = [] := by
        rw [List.filter_eq_nil_iff]
        intro row _
        by_cases hr : row.user_id = user.ID <;> simp [hr]
      have h₂ : (user.Mentorees.map (fun m =>
          ({ user_id := user.ID, mentoree_id := m.ID, transaction_id := none } :
            MentorshipRow))).filter (fun row => decide (row.user_id = user.ID)) =
          user.Mentorees.map (fun m =>
            ({ user_id := user.ID, mentoree_id := m.ID, transaction_id := none } :
              MentorshipRow)) := by
        rw [List.filter_eq_self]
        intro row hrow
        obtain ⟨m, _, rfl⟩ := List.mem_map.1 hrow
        simp
      rw [h₁, h₂, List.nil_append]
    · rintro id ⟨row, hrow, hid⟩
      simp only [TxnProcessing.updateUser, List.mem_map]
      refine ⟨_, ⟨row, hrow, rfl⟩, ?_⟩
      by_cases hr : row.id = user.ID
      · rw [if_pos hr]
        exact hid
      · rw [if_neg hr]
        exact hid

/-- The loop of `syncUsers` never panics; it consumes a number of steps of the script,
and when it returns nil all of them were executed, the users returned are the transformed
batch, the mentorship rows of an id outside the batch are as they were, and the
mentorship rows of an id of the batch that had a `user_data` row are one per mentoree of
the batch user (every batch user with that id having the same mentoree ids). -/
theorem syncUsersLoop_cases (caseTable : Char → Char) :
    ∀ (users : List mosolyapi.User) (acc : List dbmodels.User) (s : Session),
      (∀ p, (TxnProcessing.syncUsersLoop caseTable users acc s).2 ≠ .panicked p) ∧
      ∃ k, (TxnProcessing.syncUsersLoop caseTable users acc s).1.script = s.script.drop k ∧
        ∀ l, (TxnProcessing.syncUsersLoop caseTable users acc s).2 = .ok l →
          (∀ stp ∈ s.script.take k, stp.err = none) ∧
          l = acc ++ users.map (TransformUser caseTable) ∧
          (∀ id, (∀ u ∈ users, u.ID ≠ id) →
            (TxnProcessing.syncUsersLoop caseTable users acc s).1.store.mentorship.filter
                (fun row => decide (row.user_id = id)) =
              s.store.mentorship.filter (fun row => decide (row.user_id = id))) ∧
          (∀ id ms, (∃ row ∈ s.store.user_data, row.id = id) →
            (∃ u ∈ users, u.ID = id) →
            (∀ u ∈ users, u.ID = id → u.Mentorees.map (fun m => m.UserID) = ms) →
            (TxnProcessing.syncUsersLoop caseTable users acc s).1.store.mentorship.filter
                (fun row => decide (row.user_id = id)) =
              ms.map (fun m =>
                ({ user_id := id, mentoree_id := m, transaction_id := none } :
                  MentorshipRow))) := by
  intro users
  induction users with
  | nil =>
    intro acc s
    refine ⟨by intro p; simp [TxnProcessing.syncUsersLoop], 0, rfl, ?_⟩
    intro l hl
    simp only [TxnProcessing.syncUsersLoop, Res.ok.injEq] at hl
    refine ⟨by simp, by simp [hl], fun _ _ => rfl, ?_⟩
    rintro id ms _ ⟨u, hu, _⟩
    simp at hu
  | cons u rest ih =>
    intro acc s
    obtain ⟨hp, k₁, hk₁, hok₁⟩ := syncUser_cases (TransformUser caseTable u) s
    rw [TxnProcessing.syncUsersLoop]
    rcases hsu : TxnProcessing.syncUser (TransformUser caseTable u) s with ⟨s₁, r⟩
    rw [hsu] at hp hk₁ hok₁
    cases r with
    | panicked p => exact absurd rfl (hp p)
    | error e =>
      simp only
      exact ⟨by intro p; simp, k₁, hk₁, by intro l hl; simp at hl⟩
    | ok x =>
      simp only
      obtain ⟨h₁, h₂⟩ := hok₁ rfl
      simp only at h₁ h₂ hk₁
      obtain ⟨fa, fb, fc⟩ :=
        syncUser_store_facts (TransformUser caseTable u) s.store s₁.store h₂
      obtain ⟨hp', k₂, hk₂, hok₂⟩ := ih (acc ++ [TransformUser caseTable u]) s₁
      refine ⟨hp', k₁ + k₂, ?_, ?_⟩
      · rw [hk₂, hk₁, List.drop_drop]
      · intro l hl
        obtain ⟨g₁, g₂, g₃, g₄⟩ := hok₂ l hl
        refine ⟨?_, ?_, ?_, ?_⟩
        · apply steps_ok_add s.script k₁ k₂ h₁
          rw [hk₁] at g₁
          exact g₁
        · rw [g₂]
          simp
        · intro id hid
          rw [g₃ id (fun v hv => hid v (List.mem_cons_of_mem _ hv))]
          exact fa id (fun e => hid u (List.mem_cons_self _ _) e.symm)
        · intro id ms hex hin hall
          have hrows : (TransformUser caseTable u).Mentorees.map (fun m =>
              ({ user_id := (TransformUser caseTable u).ID, mentoree_id := m.ID,
                 transaction_id := none } : MentorshipRow)) =
              (u.Mentorees.map (fun m => m.UserID)).map (fun m =>
                ({ user_id := u.ID, mentoree_id := m, transaction_id := none } :
                  MentorshipRow)) := by
            simp [TransformUser]
          by_cases hrest : ∃ v ∈ rest, v.ID = id
          · exact g₄ id ms (fc id hex) hrest
              (fun v hv hvid => hall v (List.mem_cons_of_mem _ hv) hvid)
          · have hu : u.ID = id := by
              obtain ⟨v, hv, hvid⟩ := hin
              rcases List.mem_cons.1 hv with e | e
              · rw [← e]; exact hvid
              · exact absurd ⟨v, e, hvid⟩ hrest
            have hnot : ∀ v ∈ rest, v.ID ≠ id := fun v hv e => hrest ⟨v, hv, e⟩
            rw [g₃ id hnot]
            have hex' : ∃ row ∈ s.store.user_data, row.id = (TransformUser caseTable u).ID := by
              obtain ⟨row, hrow, hrid⟩ := hex
              exact ⟨row, hrow, by rw [hrid, ← hu]; rfl⟩
            have := fb hex'
            rw [hrows, hall u (List.mem_cons_self _ _) hu] at this
            subst hu
            exact this

/-- When `syncUsers` returns nil, the transaction was begun, the loop returned nil and
the commit was executed; the store is the one the loop left. -/
theorem syncUsers_of_ok (caseTable : Char → Char) (users : List mosolyapi.User)
    (s s' : Session)
    (l : List dbmodels.User) (h : TxnProcessing.syncUsers caseTable users s = (s', .ok l)) :
    s.step.err = none ∧
    ∃ s₁, TxnProcessing.syncUsersLoop caseTable users [] (s.advance s.store) = (s₁, .ok l) ∧
      s₁.step.err = none ∧ s' = s₁.advance s₁.store := by
  unfold TxnProcessing.syncUsers at h
  cases hs : s.step.err with
  | some e => rw [hs] at h; simp at h
  | none =>
    rw [hs] at h
    simp only at h
    rcases hl : TxnProcessing.syncUsersLoop caseTable users [] (s.advance s.store)
      with ⟨s₁, r⟩
    rw [hl] at h
    cases r with
    | panicked p => simp at h
    | error e => simp at h
    | ok dbUsers =>
      simp only at h
      cases hc : s₁.step.err with
      | some e => rw [hc] at h; simp at h
      | none =>
        rw [hc] at h
        simp only [Prod.mk.injEq, Res.ok.injEq] at h
        exact ⟨rfl, s₁, by rw [h.2], hc, h.1.symm⟩

/-- C23: after a successful `syncUsers`, for every user of the batch that already had a
`user_data` row, the mentorship rows of that user are exactly one row per mentoree of the
batch user, in the order of its list (so for a user with rows for `{A, B}` whose batch
list is `{A}`, exactly the one row for `A`), and the mentorship rows of users that are
not in the batch are as they were. -/
theorem syncUsers_replaces_mentorship (caseTable : Char → Char)
    (users : List mosolyapi.User) (s s' : Session)
    (l : List dbmodels.User) (h : TxnProcessing.syncUsers caseTable users s = (s', .ok l)) :
    (∀ id ms, (∃ row ∈ s.store.user_data, row.id = id) →
      (∃ u ∈ users, u.ID = id) →
      (∀ u ∈ users, u.ID = id → u.Mentorees.map (fun m => m.UserID) = ms) →
      s'.store.mentorship.filter (fun row => decide (row.user_id = id)) =
        ms.map (fun m =>
          ({ user_id := id, mentoree_id := m, transaction_id := none } : MentorshipRow))) ∧
    (∀ id, (∀ u ∈ users, u.ID ≠ id) →
      s'.store.mentorship.filter (fun row => decide (row.user_id = id)) =
        s.store.mentorship.filter (fun row => decide (row.user_id = id))) := by
  obtain ⟨_, s₁, hl, _, hs'⟩ := syncUsers_of_ok caseTable users s s' l h
  obtain ⟨_, k, _, hok⟩ := syncUsersLoop_cases caseTable users [] (s.advance s.store)
  rw [hl] at hok
  obtain ⟨_, _, g₃, g₄⟩ := hok l rfl
  subst hs'
  exact ⟨fun id ms hex hin hall => g₄ id ms hex hin hall, fun id hid => g₃ id hid⟩

/-- C23, witness: user 1 has mentorship rows for the mentorees 2 and 3 and comes in the
batch with the mentoree 2 alone; afterwards its only mentorship row is the one for 2, and
the row of user 5, who is not in the batch, is as it was. -/
theorem syncUsers_replaces_mentorship_witness :
    TxnProcessing.syncUsers sampleCaseTable [mentorOfTwo]
        { store := storeOfTwoMentorees, script := [] } =
      ((TxnProcessing.syncUsers sampleCaseTable [mentorOfTwo]
          { store := storeOfTwoMentorees, script := [] }).1,
        .ok [TransformUser sampleCaseTable mentorOfTwo]) ∧
    (TxnProcessing.syncUsers sampleCaseTable [mentorOfTwo]
        { store := storeOfTwoMentorees, script := [] }).1.store.mentorship.filter
        (fun row => decide (row.user_id = 1)) =
      [(2 : Int)].map (fun m =>
        ({ user_id := 1, mentoree_id := m, transaction_id := none } : MentorshipRow)) ∧
    (TxnProcessing.syncUsers sampleCaseTable [mentorOfTwo]
        { store := storeOfTwoMentorees, script := [] }).1.store.mentorship =
      [{ user_id := 5, mentoree_id := 6, transaction_id := none },
       { user_id := 1, mentoree_id := 2, transaction_id := none }] :=
  ⟨rfl,
    (syncUsers_replaces_mentorship sampleCaseTable [mentorOfTwo]
      { store := storeOfTwoMentorees, script := [] } _
      [TransformUser sampleCaseTable mentorOfTwo] rfl).1 1 [2]
      ⟨_, List.mem_cons_self _ _, rfl⟩ ⟨mentorOfTwo, List.mem_cons_self _ _, rfl⟩
      (by
        intro u hu _
        rw [List.mem_singleton] at hu
        subst hu
        rfl),
    rfl⟩

/-- C24: `syncUsers` is atomic.  For every batch and every behaviour of the server the
method does not panic; it sends a number of statements (begin, lookups, inserts, updates,
mentorship deletes and inserts, commit); when it returns nil every statement it sent,
the commit included, was executed and the users returned are the transformed batch; so
when any of the statements fails it returns an error (and no user list), and whenever it
returns an error the store — `user_data` and `mentorship` included — is exactly as before
the call. -/
theorem syncUsers_atomic (caseTable : Char → Char) (users : List mosolyapi.User)
    (s : Session) :
    (∀ p, (TxnProcessing.syncUsers caseTable users s).2 ≠ .panicked p) ∧
    (∀ e, (TxnProcessing.syncUsers caseTable users s).2 = .error e →
      (TxnProcessing.syncUsers caseTable users s).1.store = s.store) ∧
    ∃ k, (TxnProcessing.syncUsers caseTable users s).1.script = s.script.drop k ∧
      (∀ l, (TxnProcessing.syncUsers caseTable users s).2 = .ok l →
        (∀ stp ∈ s.script.take k, stp.err = none) ∧
          l = users.map (TransformUser caseTable)) ∧
      ((∃ stp ∈ s.script.take k, stp.err ≠ none) →
        ∃ e, (TxnProcessing.syncUsers caseTable users s).2 = .error e) := by
  have main : (∀ p, (TxnProcessing.syncUsers caseTable users s).2 ≠ .panicked p) ∧
      (∀ e, (TxnProcessing.syncUsers caseTable users s).2 = .error e →
        (TxnProcessing.syncUsers caseTable users s).1.store = s.store) ∧
      ∃ k, (TxnProcessing.syncUsers caseTable users s).1.script = s.script.drop k ∧
        (∀ l, (TxnProcessing.syncUsers caseTable users s).2 = .ok l →
          (∀ stp ∈ s.script.take k, stp.err = none) ∧
            l = users.map (TransformUser caseTable)) := by
    unfold TxnProcessing.syncUsers
    cases hs : s.step.err with
    | some e =>
      simp only
      exact ⟨by intro p; simp, fun _ _ => rfl, 1, advance_script _ _,
        by intro l hl; simp at hl⟩
    | none =>
      simp only
      have t0 := step_ok_take s hs
      obtain ⟨hp, k, hk, hok⟩ := syncUsersLoop_cases caseTable users [] (s.advance s.store)
      rcases hl : TxnProcessing.syncUsersLoop caseTable users [] (s.advance s.store)
        with ⟨s₁, r⟩
      rw [hl] at hp hk hok
      simp only at hp hk hok
      rw [advance_script, List.drop_drop] at hk
      cases r with
      | panicked p => exact absurd rfl (hp p)
      | error e =>
        simp only
        refine ⟨by intro p; simp, fun _ _ => rfl, 1 + k + 1, ?_, by intro l hl; simp at hl⟩
        rw [advance_script, hk, List.drop_drop]
      | ok dbUsers =>
        simp only
        obtain ⟨g₁, g₂, _, _⟩ := hok dbUsers rfl
        rw [advance_script] at g₁
        cases hc : s₁.step.err with
        | some e =>
          simp only
          refine ⟨by intro p; simp, fun _ _ => rfl, 1 + k + 1, ?_,
            by intro l hl; simp at hl⟩
          rw [advance_script, hk, List.drop_drop]
        | none =>
          simp only
          refine ⟨by intro p; simp, by intro e he; simp at he, 1 + k + 1, ?_, ?_⟩
          · rw [advance_script, hk, List.drop_drop]
          · intro l hl
            simp only [Res.ok.injEq] at hl
            refine ⟨?_, by rw [← hl, g₂]; simp⟩
            apply steps_ok_add s.script (1 + k) 1 (steps_ok_add s.script 1 k t0 g₁)
            have := step_ok_take s₁ hc
            rwa [hk] at this
  obtain ⟨h₁, h₂, k, h₃, h₄⟩ := main
  refine ⟨h₁, h₂, k, h₃, h₄, ?_⟩
  rintro ⟨stp, hmem, hne⟩
  cases hr : (TxnProcessing.syncUsers caseTable users s).2 with
  | ok l => exact absurd ((h₄ l hr).1 stp hmem) hne
  | error e => exact ⟨e, rfl⟩
  | panicked p => exact absurd hr (h₁ p)

/-- C24, witness: user 1 exists and comes with the mentoree 2; the server executes the
begin, the lookup, the update and the mentorship delete and then loses the connection on
the mentorship insert.  An error is returned and the store is as before the call. -/
theorem syncUsers_atomic_witness :
    (TxnProcessing.syncUsers sampleCaseTable [mentorOfTwo]
        { store := storeOfTwoMentorees,
          script := [executed, executed, executed, executed, connectionLost] }).2 =
      .error "failed to update mentorship: driver: bad connection" ∧
    (TxnProcessing.syncUsers sampleCaseTable [mentorOfTwo]
        { store := storeOfTwoMentorees,
          script := [executed, executed, executed, executed, connectionLost] }).1.store =
      storeOfTwoMentorees :=
  ⟨rfl,
    (syncUsers_atomic sampleCaseTable [mentorOfTwo]
      { store := storeOfTwoMentorees,
        script := [executed, executed, executed, executed, connectionLost] }).2.1 _ rfl⟩

/-! ## Passport provisioning -/

/-- The text of an address is not empty. -/
theorem addressHex_ne_empty (Keccak256 : Bytes → Bytes) (a : Bytes) :
    addressHex Keccak256 a ≠ "" := by
  intro h
  have := congrArg String.data h
  simp [addressHex] at this

/-- On projects that all have an address `deployPassports` deploys nothing. -/
theorem deployPassportsLoop_of_provisioned {L : Type} (dp : PassportDeployer L) :
    ∀ (projects : List dbmodels.Project) (m : List (Int × Bytes)) (w : World L),
      (∀ p ∈ projects, p.PassportAddress ≠ "") →
      deployPassportsLoop dp projects m w = (w, projects, m, .ok ()) := by
  intro projects
  induction projects with
  | nil => intro m w _; rfl
  | cons p rest ih =>
    intro m w h
    have hp : p.PassportAddress ≠ "" := h p (List.mem_cons_self _ _)
    rw [deployPassportsLoop, if_pos hp,
      ih m w (fun q hq => h q (List.mem_cons_of_mem _ hq))]

/-- One iteration of `deployPassports` on a project without address whose deployment
succeeds. -/
theorem deployPassportsLoop_cons_deployed {L : Type} (dp : PassportDeployer L)
    (p : dbmodels.Project) (rest : List dbmodels.Project) (m : List (Int × Bytes))
    (w : World L) (chain₁ : L) (a : Bytes) (hp : p.PassportAddress = "")
    (hd : dp.DeployPassport (HexToAddress dp.EthereumPassportFactoryAddress) w.chain =
      (chain₁, .ok a)) :
    deployPassportsLoop dp (p :: rest) m w =
      ((deployPassportsLoop dp rest (passportsAssign m p.ID a)
          (({ w with chain := chain₁ } : World L).println
            ("syncToBlockchain: deployPassports - new address:  " ++
              addressHex dp.Keccak256 a))).1,
        { p with PassportAddress := addressHex dp.Keccak256 a } ::
          (deployPassportsLoop dp rest (passportsAssign m p.ID a)
            (({ w with chain := chain₁ } : World L).println
              ("syncToBlockchain: deployPassports - new address:  " ++
                addressHex dp.Keccak256 a))).2.1,
        (deployPassportsLoop dp rest (passportsAssign m p.ID a)
          (({ w with chain := chain₁ } : World L).println
            ("syncToBlockchain: deployPassports - new address:  " ++
              addressHex dp.Keccak256 a))).2.2) := by
  have hn : ¬ p.PassportAddress ≠ "" := fun h => h hp
  rw [deployPassportsLoop, if_neg hn, hd]

/-- One iteration of `deployPassports` on a project that has an address. -/
theorem deployPassportsLoop_cons_provisioned {L : Type} (dp : PassportDeployer L)
    (p : dbmodels.Project) (rest : List dbmodels.Project) (m : List (Int × Bytes))
    (w : World L) (hp : p.PassportAddress ≠ "") :
    deployPassportsLoop dp (p :: rest) m w =
      ((deployPassportsLoop dp rest m w).1, p :: (deployPassportsLoop dp rest m w).2.1,
        (deployPassportsLoop dp rest m w).2.2) := by
  rw [deployPassportsLoop, if_pos hp]

/-- When the first project has no address and `deployPassports` returns nil, the
deployment for that project succeeded. -/
theorem deploy_ok_of_loop_ok {L : Type} (dp : PassportDeployer L)
    (p : dbmodels.Project) (rest : List dbmodels.Project) (m : List (Int × Bytes))
    (w : World L) (hp : p.PassportAddress = "")
    (hok : (deployPassportsLoop dp (p :: rest) m w).2.2.2 = .ok ()) :
    ∃ chain₁ a, dp.DeployPassport (HexToAddress dp.EthereumPassportFactoryAddress) w.chain =
      (chain₁, .ok a) := by
  have hn : ¬ p.PassportAddress ≠ "" := fun h => h hp
  rw [deployPassportsLoop, if_neg hn] at hok
  rcases hd : dp.DeployPassport (HexToAddress dp.EthereumPassportFactoryAddress) w.chain
    with ⟨chain₁, r⟩
  rw [hd] at hok
  cases r with
  | ok a => exact ⟨chain₁, a, rfl⟩
  | error e => simp at hok
  | panicked e => simp at hok

/-- Reading a map after an assignment. -/
theorem passportsLookup_assign (m : List (Int × Bytes)) (id id' : Int) (a : Bytes) :
    passportsLookup (passportsAssign m id a) id' =
      if id' = id then some a else passportsLookup m id' := by
  induction m with
  | nil =>
    by_cases h : id' = id
    · simp [passportsLookup, passportsAssign, h]
    · have h' : ¬ id = id' := fun e => h e.symm
      simp [passportsLookup, passportsAssign, h, h']
  | cons kv rest ih =>
    obtain ⟨k, v⟩ := kv
    unfold passportsLookup at ih ⊢
    by_cases hk : k = id
    · by_cases h : id' = id
      · simp [passportsAssign, hk, h]
      · have h' : ¬ id = id' := fun e => h e.symm
        simp [passportsAssign, hk, h, h']
    · by_cases hk' : k = id'
      · have h : ¬ id' = id := by rw [← hk']; exact hk
        simp [passportsAssign, hk, hk', h]
      · simp only [passportsAssign, if_neg hk, List.find?_cons, hk', decide_False]
        exact ih

/-- A call of `DeployPassport` on the recording ledger appends what it returned to the
record. -/
theorem recorded_deploy {L : Type} (dp : PassportDeployer L) (factory : Bytes)
    (chain chain₁ : L × List (Res Bytes)) (r : Res Bytes)
    (h : dp.recorded.DeployPassport factory chain = (chain₁, r)) :
    chain₁.2 = chain.2 ++ [r] := by
  have h₁ := congrArg (fun x => x.1.2) h
  have h₂ := congrArg (fun x => x.2) h
  simp only [PassportDeployer.recorded] at h₁ h₂
  rw [← h₁, h₂]

/-- Two relations that hold between two lists element by element hold together. -/
theorem forall₂_and {α β : Type} (R S : α → β → Prop) :
    ∀ (l₁ : List α) (l₂ : List β), List.Forall₂ R l₁ l₂ → List.Forall₂ S l₁ l₂ →
      List.Forall₂ (fun a b => R a b ∧ S a b) l₁ l₂ := by
  intro l₁ l₂ h
  induction h with
  | nil => intro _; exact List.Forall₂.nil
  | cons hab _ ih =>
    intro hs
    cases hs with
    | cons hs₁ hs₂ => exact List.Forall₂.cons ⟨hab, hs₁⟩ (ih hs₂)

/-- When `deployPassports` returns nil there is the list of the addresses that the calls
of `DeployPassport` returned, in the order of the calls: one for each project without
address, in the order of the list; every project has an address afterwards; a project
with an address is as it was; each project without address carries the text of the
address of its deployment; the map is changed only under the ids of projects without
address; and, when the ids are distinct, the map holds under the id of each project
without address the address of its deployment. -/
theorem deployPassportsLoop_ok {L : Type} (dp : PassportDeployer L) :
    ∀ (projects : List dbmodels.Project) (m : List (Int × Bytes))
      (w : World (L × List (Res Bytes))),
      (deployPassportsLoop dp.recorded projects m w).2.2.2 = .ok () →
      ∃ addrs : List Bytes,
        (deployPassportsLoop dp.recorded projects m w).1.chain.2 =
          w.chain.2 ++ addrs.map Res.ok ∧
        addrs.length = (projects.filter (fun p => decide (p.PassportAddress = ""))).length ∧
        (∀ p' ∈ (deployPassportsLoop dp.recorded projects m w).2.1, p'.PassportAddress ≠ "") ∧
        (∀ id, (∀ q ∈ projects, q.PassportAddress = "" → q.ID ≠ id) →
          passportsLookup (deployPassportsLoop dp.recorded projects m w).2.2.1 id =
            passportsLookup m id) ∧
        (∀ id, passportsLookup (deployPassportsLoop dp.recorded projects m w).2.2.1 id ≠ none →
          passportsLookup m id ≠ none ∨ ∃ p ∈ projects, p.ID = id ∧ p.PassportAddress = "") ∧
        List.Forall₂ (fun p p' => p.PassportAddress ≠ "" → p' = p)
          projects (deployPassportsLoop dp.recorded projects m w).2.1 ∧
        List.Forall₂
          (fun pr a => pr.2 = { pr.1 with PassportAddress := addressHex dp.Keccak256 a })
          ((projects.zip (deployPassportsLoop dp.recorded projects m w).2.1).filter
            (fun pr => decide (pr.1.PassportAddress = ""))) addrs ∧
        ((projects.map fun p => p.ID).Nodup →
          List.Forall₂
            (fun pr a =>
              passportsLookup (deployPassportsLoop dp.recorded projects m w).2.2.1 pr.1.ID =
                some a)
            ((projects.zip (deployPassportsLoop dp.recorded projects m w).2.1).filter
              (fun pr => decide (pr.1.PassportAddress = ""))) addrs) := by
  intro projects
  induction projects with
  | nil =>
    intro m w _
    refine ⟨[], by simp [deployPassportsLoop], by simp, by simp [deployPassportsLoop],
      fun _ _ => rfl, fun id h => Or.inl h, ?_, ?_, fun _ => ?_⟩
    · simp [deployPassportsLoop]
    · simp [deployPassportsLoop]
    · simp [deployPassportsLoop]
  | cons p rest ih =>
    intro m w hok
    by_cases hp : p.PassportAddress ≠ ""
    · rw [deployPassportsLoop_cons_provisioned dp.recorded p rest m w hp] at hok ⊢
      simp only at hok ⊢
      obtain ⟨addrs, c₁, c₂, c₃, c₄, c₅, c₆, c₇, c₈⟩ := ih m w hok
      have hz : ((p :: rest).zip (p :: (deployPassportsLoop dp.recorded rest m w).2.1)).filter
          (fun pr => decide (pr.1.PassportAddress = "")) =
          (rest.zip (deployPassportsLoop dp.recorded rest m w).2.1).filter
            (fun pr => decide (pr.1.PassportAddress = "")) := by
        simp [List.zip_cons_cons, List.filter_cons, hp]
      refine ⟨addrs, c₁, ?_, ?_, ?_, ?_, ?_, ?_, ?_⟩
      · rw [c₂]
        simp [List.filter_cons, hp]
      · intro p' hp'
        rcases List.mem_cons.1 hp' with e | e
        · rw [e]; exact hp
        · exact c₃ p' e
      · intro id hid
        exact c₄ id (fun q hq => hid q (List.mem_cons_of_mem _ hq))
      · intro id hid
        rcases c₅ id hid with h | ⟨q, hq, h⟩
        · exact Or.inl h
        · exact Or.inr ⟨q, List.mem_cons_of_mem _ hq, h⟩
      · exact List.Forall₂.cons (fun _ => rfl) c₆
      · rw [hz]
        exact c₇
      · intro hnd
        rw [List.map_cons, List.nodup_cons] at hnd
        rw [hz]
        exact c₈ hnd.2
    · have hp' : p.PassportAddress = "" := not_not.1 hp
      obtain ⟨chain₁, a, hd⟩ := deploy_ok_of_loop_ok dp.recorded p rest m w hp' hok
      have hrec := recorded_deploy dp _ _ _ _ hd
      rw [deployPassportsLoop_cons_deployed dp.recorded p rest m w chain₁ a hp' hd] at hok ⊢
      simp only at hok ⊢
      obtain ⟨addrs, c₁, c₂, c₃, c₄, c₅, c₆, c₇, c₈⟩ := ih _ _ hok
      have hk : dp.recorded.Keccak256 = dp.Keccak256 := rfl
      refine ⟨a :: addrs, ?_, ?_, ?_, ?_, ?_, ?_, ?_, ?_⟩
      · rw [c₁]
        simp only [World.println, hrec, List.map_cons, List.append_assoc, List.singleton_append]
      · rw [List.length_cons, c₂]
        simp [List.filter_cons, hp']
      · intro q hq
        rcases List.mem_cons.1 hq with e | e
        · rw [e]
          exact addressHex_ne_empty _ _
        · exact c₃ q e
      · intro id hid
        rw [c₄ id (fun q hq => hid q (List.mem_cons_of_mem _ hq)), passportsLookup_assign]
        have hne : ¬ id = p.ID := fun e => hid p (List.mem_cons_self _ _) hp' e.symm
        rw [if_neg hne]
      · intro id hid
        rcases c₅ id hid with h | ⟨q, hq, h⟩
        · rw [passportsLookup_assign] at h
          by_cases e : id = p.ID
          · exact Or.inr ⟨p, List.mem_cons_self _ _, e.symm, hp'⟩
          · rw [if_neg e] at h
            exact Or.inl h
        · exact Or.inr ⟨q, List.mem_cons_of_mem _ hq, h⟩
      · exact List.Forall₂.cons (fun h => absurd hp' h) c₆
      · rw [List.zip_cons_cons, List.filter_cons]
        simp only [hp', decide_True, if_true]
        exact List.Forall₂.cons (by rw [hk]) c₇
      · intro hnd
        rw [List.map_cons, List.nodup_cons] at hnd
        rw [List.zip_cons_cons, List.filter_cons]
        simp only [hp', decide_True, if_true]
        refine List.Forall₂.cons ?_ (c₈ hnd.2)
        rw [c₄ p.ID, passportsLookup_assign, if_pos rfl]
        intro q hq _ e
        exact hnd.1 (List.mem_map.2 ⟨q, hq, e⟩)

/-- C26 (as amended): passport provisioning is keyed on the empty address.  For every
project list, when `deployPassports` returns nil, the calls of `DeployPassport` it made
are one for each project whose `PassportAddress` is empty, in the order of the list, and
none for the others: with `addrs` the addresses those calls returned, a project that had
an address is unchanged at its place, and the project at the place of the k-th project
without address is that project with, as `PassportAddress`, the text of the k-th address
returned.  The map holds an entry only under ids of projects that had no address.
Calling `deployPassports` again on the resulting list makes no call of `DeployPassport`
and returns the empty map.  When the ids of the projects are pairwise distinct, the map
holds under the id of each project that had no address the address that its deployment
returned, and no entry under the id of a project that had an address. -/
theorem deployPassports_spec {L : Type} (dp : PassportDeployer L)
    (projects : List dbmodels.Project) (w : World (L × List (Res Bytes)))
    (hok : (deployPassports dp.recorded projects w).2.2.2 = .ok ()) :
    ∃ addrs : List Bytes,
      (deployPassports dp.recorded projects w).1.chain.2 = w.chain.2 ++ addrs.map Res.ok ∧
      addrs.length = (projects.filter (fun p => decide (p.PassportAddress = ""))).length ∧
      List.Forall₂ (fun p p' => p.PassportAddress ≠ "" → p' = p)
        projects (deployPassports dp.recorded projects w).2.1 ∧
      List.Forall₂
        (fun pr a => pr.2 = { pr.1 with PassportAddress := addressHex dp.Keccak256 a })
        ((projects.zip (deployPassports dp.recorded projects w).2.1).filter
          (fun pr => decide (pr.1.PassportAddress = ""))) addrs ∧
      (∀ id, passportsLookup (deployPassports dp.recorded projects w).2.2.1 id ≠ none →
        ∃ p ∈ projects, p.ID = id ∧ p.PassportAddress = "") ∧
      deployPassports dp.recorded (deployPassports dp.recorded projects w).2.1
          (deployPassports dp.recorded projects w).1 =
        ((deployPassports dp.recorded projects w).1,
          (deployPassports dp.recorded projects w).2.1, [], .ok ()) ∧
      ((projects.map fun p => p.ID).Nodup →
        List.Forall₂
          (fun pr a =>
            pr.2 = { pr.1 with PassportAddress := addressHex dp.Keccak256 a } ∧
            passportsLookup (deployPassports dp.recorded projects w).2.2.1 pr.1.ID = some a)
          ((projects.zip (deployPassports dp.recorded projects w).2.1).filter
            (fun pr => decide (pr.1.PassportAddress = ""))) addrs ∧
        ∀ p ∈ projects, p.PassportAddress ≠ "" →
          passportsLookup (deployPassports dp.recorded projects w).2.2.1 p.ID = none) := by
  unfold deployPassports at hok ⊢
  obtain ⟨addrs, c₁, c₂, c₃, c₄, c₅, c₆, c₇, c₈⟩ := deployPassportsLoop_ok dp projects [] w hok
  refine ⟨addrs, c₁, c₂, c₆, c₇, ?_,
    deployPassportsLoop_of_provisioned dp.recorded _ [] _ c₃, ?_⟩
  · intro id hid
    rcases c₅ id hid with h | h
    · exact absurd rfl h
    · exact h
  · intro hnd
    refine ⟨forall₂_and _ _ _ _ c₇ (c₈ hnd), ?_⟩
    intro p hp hne
    rw [c₄ p.ID]
    · rfl
    · intro q hq hqe e
      have : q = p := List.inj_on_of_nodup_map hnd hq hp e
      rw [this] at hqe
      exact hne hqe

/-- C26, witness: project 1 has no passport and project 2 has one; one call of
`DeployPassport` is made, which returns `passportA`; project 1 gets the text of that
address, which the map holds under 1, and project 2 is unchanged and out of the map. -/
theorem deployPassports_spec_witness :
    (deployPassports scriptedDeployer.recorded projectsOneUnprovisioned
      worldOfTwoDeployments).2.2.2 = .ok () ∧
    (∃ addrs : List Bytes,
      (deployPassports scriptedDeployer.recorded projectsOneUnprovisioned
        worldOfTwoDeployments).1.chain.2 =
        worldOfTwoDeployments.chain.2 ++ addrs.map Res.ok ∧
      addrs.length =
        (projectsOneUnprovisioned.filter (fun p => decide (p.PassportAddress = ""))).length) ∧
    (deployPassports scriptedDeployer.recorded projectsOneUnprovisioned
      worldOfTwoDeployments).1.chain.2 = [.ok passportA] ∧
    (deployPassports scriptedDeployer.recorded projectsOneUnprovisioned
      worldOfTwoDeployments).2.1 =
      [{ ID := 1, Name := "X", UpdatedAt := 1,
         PassportAddress := addressHex (fun b => b) passportA },
       { ID := 2, Name := "Y", UpdatedAt := 2, PassportAddress := "0x22" }] ∧
    (deployPassports scriptedDeployer.recorded projectsOneUnprovisioned
      worldOfTwoDeployments).2.2.1 = [(1, passportA)] :=
  ⟨rfl,
    (deployPassports_spec scriptedDeployer projectsOneUnprovisioned worldOfTwoDeployments
      rfl).imp fun _ h => ⟨h.1, h.2.1⟩,
    rfl, rfl, rfl⟩

/-- C26, counterexample: two projects without passport carry the same id.  The call
returns nil after two deployments, which return `passportA` and `passportB`; the first
project carries the text of the first address, but the returned map holds under its id
the second address only: the passport deployed for the first project is not in the
map. -/
theorem deployPassports_same_id_overwrites :
    (deployPassports scriptedDeployer.recorded projectsSameID worldOfTwoDeployments).2.2.2 =
      .ok () ∧
    (deployPassports scriptedDeployer.recorded projectsSameID worldOfTwoDeployments).1.chain.2
      = [.ok passportA, .ok passportB] ∧
    (deployPassports scriptedDeployer.recorded projectsSameID worldOfTwoDeployments).2.1 =
      [{ ID := 1, Name := "X", UpdatedAt := 1,
         PassportAddress := addressHex (fun b => b) passportA },
       { ID := 1, Name := "Y", UpdatedAt := 2,
         PassportAddress := addressHex (fun b => b) passportB }] ∧
    (deployPassports scriptedDeployer.recorded projectsSameID worldOfTwoDeployments).2.2.1 =
      [(1, passportB)] ∧
    addressHex (fun b => b) passportA ≠ addressHex (fun b => b) passportB ∧
    passportA ≠ passportB :=
  ⟨rfl, rfl, rfl, rfl, by decide, by decide⟩

/-! ## The price validator -/

/-- On values that are numbers, `a < b` is false exactly when `b <= a`. -/
theorem Float64.lt_eq_false_iff (a b : Float64) (ha : a ≠ .nan) (hb : b ≠ .nan) :
    Float64.lt a b = false ↔ Float64.le b a = true := by
  cases a with
  | nan => exact absurd rfl ha
  | inf n₁ =>
    cases b with
    | nan => exact absurd rfl hb
    | inf n₂ => cases n₁ <;> cases n₂ <;> simp [Float64.lt, Float64.le]
    | finite n₂ m₂ e₂ => cases n₁ <;> simp [Float64.lt, Float64.le]
  | finite n₁ m₁ e₁ =>
    cases b with
    | nan => exact absurd rfl hb
    | inf n₂ => cases n₂ <;> simp [Float64.lt, Float64.le]
    | finite n₂ m₂ e₂ =>
      simp only [Float64.lt, Float64.le, decide_eq_false_iff_not, decide_eq_true_eq, not_lt,
        min_comm e₂ e₁]

/-- Without the byte in the text, `strings.LastIndex` finds nothing. -/
theorem lastIndexFrom_of_not_mem (c : Fin 256) :
    ∀ (l : Bytes) (i : Nat) (found : Int), c ∉ l →
      validators.lastIndexFrom c l i found = found := by
  intro l
  induction l with
  | nil => intro i found _; rfl
  | cons b rest ih =>
    intro i found h
    rw [List.mem_cons, not_or] at h
    have hb : ¬ b = c := fun e => h.1 e.symm
    rw [validators.lastIndexFrom, if_neg hb]
    exact ih (i + 1) found h.2

/-- The index `strings.LastIndex` finds is that of the occurrence after which the byte
does not occur. -/
theorem lastIndexFrom_of_split (c : Fin 256) (post : Bytes) (hpost : c ∉ post) :
    ∀ (pre : Bytes) (i : Nat) (found : Int),
      validators.lastIndexFrom c (pre ++ c :: post) i found = ((i + pre.length : Nat) : Int) := by
  intro pre
  induction pre with
  | nil =>
    intro i found
    rw [List.nil_append, validators.lastIndexFrom, if_pos rfl,
      lastIndexFrom_of_not_mem c post (i + 1) _ hpost]
    simp
  | cons b rest ih =>
    intro i found
    rw [List.cons_append, validators.lastIndexFrom, ih]
    congr 1
    simp only [List.length_cons]
    omega

/-- A text that holds the byte splits at its last occurrence. -/
theorem exists_last_split (c : Fin 256) :
    ∀ l : Bytes, c ∈ l → ∃ pre post, l = pre ++ c :: post ∧ c ∉ post := by
  intro l
  induction l with
  | nil => intro h; simp at h
  | cons b rest ih =>
    intro h
    by_cases hr : c ∈ rest
    · obtain ⟨pre, post, e, hp⟩ := ih hr
      exact ⟨b :: pre, post, by rw [e]; rfl, hp⟩
    · have hb : c = b := by
        rcases List.mem_cons.1 h with e | e
        · exact e
        · exact absurd e hr
      exact ⟨[], rest, by rw [hb]; rfl, hr⟩

/-- The function `validateDigitsAfterComma` returns nil exactly when the text of the value
has at most the given number of bytes after its last dot (or no dot). -/
theorem validateDigitsAfterComma_ok_iff (FormatFloat : Float64 → String) (data : Float64)
    (digits : Nat) :
    validators.validateDigitsAfterComma FormatFloat data digits = .ok () ↔
      ∀ pre post, bytesOfString (FormatFloat data) = pre ++ 46 :: post → (46 : Fin 256) ∉ post →
        post.length ≤ digits := by
  unfold validators.validateDigitsAfterComma validators.lastIndexDot
  simp only
  by_cases hmem : (46 : Fin 256) ∈ bytesOfString (FormatFloat data)
  · obtain ⟨pre, post, e, hp⟩ := exists_last_split 46 _ hmem
    have hidx := lastIndexFrom_of_split 46 post hp pre 0 (-1)
    rw [← e] at hidx
    rw [hidx]
    have hlen : (bytesOfString (FormatFloat data)).length = pre.length + 1 + post.length := by
      rw [e, List.length_append, List.length_cons]
      omega
    rw [hlen]
    have h0 : ((0 + pre.length : Nat) : Int) ≥ 0 := by omega
    rw [if_pos h0]
    constructor
    · intro h pre' post' e' hp'
      have hidx' := lastIndexFrom_of_split 46 post' hp' pre' 0 (-1)
      rw [← e', e, lastIndexFrom_of_split 46 post hp pre 0 (-1)] at hidx'
      have hl : pre.length + 1 + post.length = pre'.length + 1 + post'.length := by
        have := congrArg List.length (e.symm.trans e')
        simp only [List.length_append, List.length_cons] at this
        omega
      split at h
      · simp at h
      · rename_i hc
        push_cast at hc hidx'
        omega
    · intro h
      have := h pre post e hp
      rw [if_neg]
      push_cast
      omega
  · rw [lastIndexFrom_of_not_mem 46 _ 0 (-1) hmem]
    simp only [ge_iff_le, Left.nonneg_neg_iff, Int.reduceLE, if_false, true_iff]
    intro pre post e _
    exact absurd (by rw [e]; simp) hmem

/-- C27 (as amended): for every value that is a number (not NaN), `Price.Validate` accepts
the value if and only if it is at least 0.01, at most 10,000,000, and its text — the
shortest decimal representation that `strconv.FormatFloat` writes — has at most two digits
after the decimal point; every value below 0.01 (zero, the negatives and minus infinity
included) and every value whose text has three or more digits after the point is rejected
with an error. -/
theorem Price_Validate_spec (FormatFloat : Float64 → String) (m : Float64)
    (hm : m ≠ .nan) :
    (validators.Price.Validate FormatFloat m = .ok () ↔
      Float64.le validators.oneCent m = true ∧ Float64.le m validators.tenMillion = true ∧
      ∀ pre post, bytesOfString (FormatFloat m) = pre ++ 46 :: post → (46 : Fin 256) ∉ post →
        post.length ≤ 2) ∧
    (Float64.lt m validators.oneCent = true →
      ∃ e, validators.Price.Validate FormatFloat m = .error e) ∧
    ((∃ pre post, bytesOfString (FormatFloat m) = pre ++ 46 :: post ∧ (46 : Fin 256) ∉ post ∧
        3 ≤ post.length) →
      ∃ e, validators.Price.Validate FormatFloat m = .error e) := by
  have hmin := Float64.lt_eq_false_iff m validators.oneCent hm (by simp [validators.oneCent])
  have hmax := Float64.lt_eq_false_iff validators.tenMillion m
    (by simp [validators.tenMillion]) hm
  have hdig := validateDigitsAfterComma_ok_iff FormatFloat m 2
  have hnp : ∀ p, validators.Price.Validate FormatFloat m ≠ .panicked p := by
    intro p
    unfold validators.Price.Validate validators.Minimum validators.Maximum
      validators.validateDigitsAfterComma
    simp only
    split_ifs <;> simp
  have hiff : validators.Price.Validate FormatFloat m = .ok () ↔
      Float64.le validators.oneCent m = true ∧ Float64.le m validators.tenMillion = true ∧
      ∀ pre post, bytesOfString (FormatFloat m) = pre ++ 46 :: post →
        (46 : Fin 256) ∉ post → post.length ≤ 2 := by
    rw [← hmin, ← hmax, ← hdig]
    unfold validators.Price.Validate validators.Minimum validators.Maximum
    cases h₁ : Float64.lt m validators.oneCent <;>
      cases h₂ : Float64.lt validators.tenMillion m <;>
      cases h₃ : validators.validateDigitsAfterComma FormatFloat m 2 <;> simp
  have hrej : validators.Price.Validate FormatFloat m ≠ .ok () →
      ∃ e, validators.Price.Validate FormatFloat m = .error e := by
    intro h
    cases hr : validators.Price.Validate FormatFloat m with
    | ok u => exact absurd hr h
    | error e => exact ⟨e, rfl⟩
    | panicked p => exact absurd hr (hnp p)
  refine ⟨hiff, ?_, ?_⟩
  · intro hlt
    apply hrej
    intro hok
    have := (hiff.1 hok).1
    rw [← hmin, hlt] at this
    simp at this
  · rintro ⟨pre, post, e, hp, hlen⟩
    apply hrej
    intro hok
    have := (hiff.1 hok).2.2 pre post e hp
    omega

/-- C27, witness: the value 1.01 (`4548635623644201 · 2 ^ -52`) with the shortest text. -/
theorem Price_Validate_spec_witness :
    Float64.finite false 4548635623644201 (-52) ≠ .nan ∧
    validators.Price.Validate shortestText (.finite false 4548635623644201 (-52)) = .ok () ∧
    (validators.Price.Validate shortestText (.finite false 4548635623644201 (-52)) = .ok () ↔
      Float64.le validators.oneCent (.finite false 4548635623644201 (-52)) = true ∧
      Float64.le (.finite false 4548635623644201 (-52)) validators.tenMillion = true ∧
      ∀ pre post,
        bytesOfString (shortestText (.finite false 4548635623644201 (-52))) =
          pre ++ 46 :: post →
        (46 : Fin 256) ∉ post → post.length ≤ 2) :=
  ⟨by decide, by rfl,
    (Price_Validate_spec shortestText (.finite false 4548635623644201 (-52)) (by decide)).1⟩

/-- C27, counterexample: NaN is not at least 0.01 (every comparison with NaN is false),
yet `Price.Validate` accepts it: neither `NaN < 0.01` nor `NaN > 10000000` holds, and the
text `NaN` has no decimal point. -/
theorem Price_Validate_accepts_NaN :
    validators.Price.Validate shortestText .nan = .ok () ∧
    Float64.le validators.oneCent .nan = false ∧
    Float64.lt .nan validators.oneCent = false ∧
    Float64.lt validators.tenMillion .nan = false ∧
    shortestText .nan = "NaN" :=
  ⟨by rfl, by rfl, by rfl, by rfl, by rfl⟩

/-- The cases of `TestPriceValidator` with the shortest text: 0.01, 1.01 and 123.45 are
accepted; 0.001, 0, 123.45678, -123.45 and -123.456 are rejected. -/
theorem TestPriceValidator_cases :
    (validators.Price.Validate shortestText (.finite false 5764607523034235 (-59))).isOk = true ∧
    (validators.Price.Validate shortestText (.finite false 4548635623644201 (-52))).isOk = true ∧
    (validators.Price.Validate shortestText (.finite false 4611686018427388 (-62))).isOk = false ∧
    (validators.Price.Validate shortestText (.finite false 0 0)).isOk = false ∧
    (validators.Price.Validate shortestText (.finite false 8687021468732621 (-46))).isOk = true ∧
    (validators.Price.Validate shortestText (.finite false 8687498568818145 (-46))).isOk = false ∧
    (validators.Price.Validate shortestText (.finite true 8687021468732621 (-46))).isOk = false ∧
    (validators.Price.Validate shortestText (.finite true 8687443681197687 (-46))).isOk = false ∧
    shortestText (.finite false 5764607523034235 (-59)) = "0.01" ∧
    shortestText (.finite false 8687021468732621 (-46)) = "123.45" ∧
    shortestText (.finite false 8687498568818145 (-46)) = "123.45678" :=
  ⟨by rfl, by rfl, by rfl, by rfl, by rfl, by rfl, by rfl, by rfl, by rfl, by rfl, by rfl⟩

/-! ## The scheduled instant -/

set_option maxHeartbeats 8000000 in
/-- The year of the era of a day of the era, and the day of that year, are in range. -/
theorem yoe_bounds (doe : Int) (h0 : 0 ≤ doe) (h1 : doe ≤ 146096) :
    0 ≤ (doe - doe / 1460 + doe / 36524 - doe / 146096) / 365 ∧
    (doe - doe / 1460 + doe / 36524 - doe / 146096) / 365 ≤ 399 ∧
    0 ≤ doe - (365 * ((doe - doe / 1460 + doe / 36524 - doe / 146096) / 365) +
      (doe - doe / 1460 + doe / 36524 - doe / 146096) / 365 / 4 -
      (doe - doe / 1460 + doe / 36524 - doe / 146096) / 365 / 100) ∧
    doe - (365 * ((doe - doe / 1460 + doe / 36524 - doe / 146096) / 365) +
      (doe - doe / 1460 + doe / 36524 - doe / 146096) / 365 / 4 -
      (doe - doe / 1460 + doe / 36524 - doe / 146096) / 365 / 100) ≤ 365 := by
  generalize ha : doe / 1460 = a
  generalize hf : doe / 36524 = f
  generalize hg : doe / 146096 = g
  generalize hc : (doe - a + f - g) / 365 = c
  have hb : 0 ≤ a ∧ a ≤ 100 := by omega
  have hcb : 4 * a - 2 ≤ c ∧ c ≤ 4 * a + 4 := by omega
  obtain ⟨hb0, hb1⟩ := hb
  obtain ⟨hc0, hc1⟩ := hcb
  interval_cases a <;> first | omega | (interval_cases c <;> omega)

/-- The day number of the calendar date of a day number is that day number: `time.Date`
of the fields of an instant gives back the day of the instant. -/
theorem daysFromCivil_civilFromDays (days : Int) :
    daysFromCivil (civilFromDays days).1 (civilFromDays days).2.1 (civilFromDays days).2.2 =
      days := by
  simp only [civilFromDays, daysFromCivil]
  generalize hera : (days + 719468) / 146097 = era
  generalize hdoe : days + 719468 - era * 146097 = doe
  have h0 : 0 ≤ doe ∧ doe ≤ 146096 := by omega
  obtain ⟨b₁, b₂, b₃, b₄⟩ := yoe_bounds doe h0.1 h0.2
  generalize hyoe : (doe - doe / 1460 + doe / 36524 - doe / 146096) / 365 = yoe at b₁ b₂ b₃ b₄ ⊢
  generalize hq4 : yoe / 4 = q4 at b₃ b₄ ⊢
  generalize hq100 : yoe / 100 = q100 at b₃ b₄ ⊢
  generalize hdoy : doe - (365 * yoe + q4 - q100) = doy at b₃ b₄ ⊢
  generalize hmp : (5 * doy + 2) / 153 = mp
  have hmpb : 0 ≤ mp ∧ mp ≤ 11 := by omega
  have hera' : ∀ y : Int, y = yoe + era * 400 → y / 400 = era ∧ y - era * 400 = yoe := by
    intro y hy; omega
  split_ifs <;> first
    | omega
    | (obtain ⟨e₁, e₂⟩ := hera' (yoe + era * 400) rfl
       simp only [e₁, e₂, hq4, hq100, add_sub_cancel_right]
       omega)

/-- C25 (as amended): for every instant `now`, `getTxnProcessRunAt now` is `now` truncated
to the whole second plus 30 seconds: the seconds of `now` are passed on to `time.Date`,
only the nanoseconds are dropped.  It is therefore 30 seconds plus the seconds of `now`
after the boundary of the minute of `now`, and two instants within the same second yield
the same scheduled instant. -/
theorem getTxnProcessRunAt_spec (now : Int) :
    getTxnProcessRunAt now = Time.Add (Time.Truncate now timeSecond) (30 * timeSecond) ∧
    getTxnProcessRunAt now =
      Time.Add (Time.Truncate now timeMinute) ((Time.Second now + 30) * timeSecond) ∧
    (0 ≤ Time.Second now ∧ Time.Second now < 60) ∧
    ∀ other : Int, Time.Truncate other timeSecond = Time.Truncate now timeSecond →
      getTxnProcessRunAt other = getTxnProcessRunAt now := by
  have key : ∀ t : Int, getTxnProcessRunAt t = t / 1000000000 * 1000000000 + 30000000000 := by
    intro t
    unfold getTxnProcessRunAt Time.Date Time.Add Time.Year Time.Month Time.Day
    rw [daysFromCivil_civilFromDays]
    unfold Time.Hour Time.Minute Time.Second Time.Unix timeSecond
    omega
  refine ⟨?_, ?_, ?_, ?_⟩
  · rw [key]
    unfold Time.Add Time.Truncate timeSecond
    omega
  · rw [key]
    unfold Time.Add Time.Truncate Time.Second Time.Unix timeMinute timeSecond
    omega
  · unfold Time.Second
    omega
  · intro other h
    rw [key, key]
    unfold Time.Truncate timeSecond at h
    omega

/-- C25, counterexample: ten and twenty seconds after the start of the Unix epoch lie in
the same minute; the scheduled instants are 40 and 50 seconds after it, not the 30 seconds
after the boundary of the minute, and they differ. -/
theorem getTxnProcessRunAt_keeps_seconds :
    Time.Truncate (10 * timeSecond) timeMinute = Time.Truncate (20 * timeSecond) timeMinute ∧
    getTxnProcessRunAt (10 * timeSecond) = 40 * timeSecond ∧
    getTxnProcessRunAt (20 * timeSecond) = 50 * timeSecond ∧
    getTxnProcessRunAt (10 * timeSecond) ≠
      Time.Add (Time.Truncate (10 * timeSecond) timeMinute) (30 * timeSecond) ∧
    getTxnProcessRunAt (10 * timeSecond) ≠ getTxnProcessRunAt (20 * timeSecond) := by
  decide

end LedgerBridge
